import Mathlib

/-!
# tc-analyzer: the complexity signal extraction engine

A shallow embedding of the three analyzers of `src/utils`:

* `analyzeComplexity` (`complexityAnalyzer.js`, syntax-tree walk),
* `analyzePythonComplexity` (`pythonComplexityAnalyzer.js`, indentation scan),
* `analyzeJavaComplexity` (`javaComplexityAnalyzer.js`, brace-depth scan).

JavaScript strings are modelled as `List Char`; the only place where the
UTF-16 representation is visible to the program is `code.length`, modelled by
`jsLength`.  Labels and error messages, which the program only produces, are
Lean strings.  A `throw new Error(msg)` is `Except.error msg`; the JavaScript
analyzer, whose tree walk recurses on the call stack of the engine, can also
end with the `RangeError` of the engine (`Thrown.rangeError`).
-/

namespace TcAnalyzer

/-! ## String primitives of the host language -/

/-- The characters stripped by `String.prototype.trim` and matched by the
regular-expression class `\s`: ECMAScript WhiteSpace and LineTerminator. -/
def isJsSpace (c : Char) : Bool :=
  c = '\t' || c = '\n' || c.toNat = 0x0B || c.toNat = 0x0C || c = '\r' || c = ' ' ||
  c.toNat = 0xA0 || c.toNat = 0x1680 || (0x2000 ≤ c.toNat && c.toNat ≤ 0x200A) ||
  c.toNat = 0x2028 || c.toNat = 0x2029 || c.toNat = 0x202F || c.toNat = 0x205F ||
  c.toNat = 0x3000 || c.toNat = 0xFEFF

/-- The regular-expression class `\w`, that is `[A-Za-z0-9_]`. -/
def isWordChar (c : Char) : Bool :=
  ('a'.toNat ≤ c.toNat && c.toNat ≤ 'z'.toNat) || ('A'.toNat ≤ c.toNat && c.toNat ≤ 'Z'.toNat) ||
  ('0'.toNat ≤ c.toNat && c.toNat ≤ '9'.toNat) || c = '_'

/-- The regular-expression class `[A-Za-z_]`. -/
def isIdentStart (c : Char) : Bool :=
  ('a'.toNat ≤ c.toNat && c.toNat ≤ 'z'.toNat) || ('A'.toNat ≤ c.toNat && c.toNat ≤ 'Z'.toNat) ||
  c = '_'

/-- The characters the regular-expression atom `.` does not match. -/
def isLineTerminator (c : Char) : Bool :=
  c = '\n' || c = '\r' || c.toNat = 0x2028 || c.toNat = 0x2029

/-- `s.trim()`. -/
def trim (s : List Char) : List Char :=
  ((s.dropWhile isJsSpace).reverse.dropWhile isJsSpace).reverse

/-- `s.length`: the number of UTF-16 code units of `s`. -/
def jsLength (s : List Char) : Nat :=
  (s.map fun c => if c.toNat < 0x10000 then 1 else 2).sum

/-- `s.startsWith(p)`. -/
def startsWith (s p : List Char) : Bool :=
  p.isPrefixOf s

/-- `s.includes(sub)`. -/
def includes : List Char → List Char → Bool
  | [], sub => sub.isEmpty
  | c :: s, sub => startsWith (c :: s) sub || includes s sub

/-- Puts a character in front of the first line of a list of lines. -/
def pushChar (c : Char) : List (List Char) → List (List Char)
  | [] => [[c]]
  | l :: ls => (c :: l) :: ls

/-- `code.split(/\r?\n/)`: a line ends at `\n`, and a `\r` right before that
`\n` belongs to the separator.  The pattern never matches the empty string, so
the result has one more element than there are separators. -/
def splitLines : List Char → List (List Char)
  | [] => [[]]
  | [c] => if c = '\n' then [[], []] else [[c]]
  | c :: d :: rest =>
    if c = '\n' then [] :: splitLines (d :: rest)
    else if c = '\r' ∧ d = '\n' then [] :: splitLines rest
    else pushChar c (splitLines (d :: rest))

/-- `s.replace(/\t/g, w spaces)`. -/
def replaceTabs (w : Nat) (s : List Char) : List Char :=
  (s.map fun c => if c = '\t' then List.replicate w ' ' else [c]).flatten

/-- `s.match(/^\s*/)?.[0].length ?? 0`: the pattern matches every string, and
its match is the longest prefix of whitespace. -/
def leadingSpaces (s : List Char) : Nat :=
  (s.takeWhile isJsSpace).length

/-- Removes the literal `p` from the front of `s`, if it is there. -/
def stripLit (p : List Char) (s : List Char) : Option (List Char) :=
  if p.isPrefixOf s then some (s.drop p.length) else none

/-- The regular-expression assertion `\b` between a previous character (none
at the start of the input) and the rest of the input. -/
def wordBoundary (prev : Option Char) (s : List Char) : Bool :=
  (match prev with | some c => isWordChar c | none => false) !=
  (match s with | c :: _ => isWordChar c | [] => false)

/-- `re.test(s)` for a pattern without `^`: the pattern is tried at every
position from the left; `m prev rest` says whether it matches at the position
whose previous character is `prev` and whose remaining input is `rest`. -/
def searchFrom (m : Option Char → List Char → Bool) : Option Char → List Char → Bool
  | prev, [] => m prev []
  | prev, c :: s => m prev (c :: s) || searchFrom m (some c) s

/-- `s.match(re)` for a pattern without `^` and with one capture group: the
capture of the leftmost position at which the pattern matches. -/
def searchFirst (m : Option Char → List Char → Option (List Char)) :
    Option Char → List Char → Option (List Char)
  | prev, [] => m prev []
  | prev, c :: s => (m prev (c :: s)).orElse fun _ => searchFirst m (some c) s

/-- The tail `\s*x` of a pattern, `x` one character of a class `p` without
whitespace: the greedy `\s*` takes all the whitespace there is. -/
def spacesThen (p : Char → Bool) (s : List Char) : Bool :=
  match s.dropWhile isJsSpace with
  | c :: _ => p c
  | [] => false

/-- The tail `\s*\(` of a pattern. -/
def spacesThenParen (s : List Char) : Bool :=
  spacesThen (fun c => c = '(') s

/-- `.*` followed by the continuation `k`: some prefix free of line
terminators is skipped. -/
def dotStar (k : List Char → Bool) : List Char → Bool
  | [] => k []
  | c :: s => k (c :: s) || (!isLineTerminator c && dotStar k s)

/-! ## Signal schema and classifier -/

/-- The `signals` object every analyzer returns. -/
structure Signals where
  loopCount : Nat
  maxNesting : Nat
  sortCalls : Nat
  recursionCalls : Nat
  hashUsage : Bool
  deriving DecidableEq, Repr

/-- The object an analyzer returns. -/
structure Result where
  signals : Signals
  inferredTimeComplexity : String
  deriving DecidableEq, Repr

/-- The label computation that closes each of the three analyzers (the same
statements in all three files); the template literal prints the number in
decimal. -/
def inferComplexity (recursionCalls sortCalls maxNesting : Nat) : String :=
  if recursionCalls > 0 then "Recursive (depends on recurrence)"
  else if sortCalls > 0 then
    (if maxNesting ≥ 2 then "O(n^k log n)" else "O(n log n)")
  else if maxNesting ≥ 2 then "O(n^" ++ toString maxNesting ++ ")"
  else if maxNesting = 1 then "O(n)"
  else "O(1)"

/-- The `functionName` argument: a string, `undefined` or `null`. -/
inductive NameArg where
  | undefined
  | null
  | str (s : List Char)
  deriving DecidableEq, Repr

/-- `(functionName || '').trim()`. -/
def normalizeName : NameArg → List Char
  | .str s => trim s
  | _ => trim []

/-- Truthiness of `currentFunction`, which is `null` or a string. -/
def isTruthy : Option (List Char) → Bool
  | some (_ :: _) => true
  | _ => false

/-! ## Python analyzer -/

/-- `line.match(/^def\s+([A-Za-z_][A-Za-z0-9_]*)\s*\(/)`, giving the capture.
Each greedy run is followed by a character outside its class, so it is the
longest run. -/
def pyDefMatch (line : List Char) : Option (List Char) :=
  match stripLit "def".toList line with
  | none => none
  | some r =>
    match r.dropWhile isJsSpace with
    | [] => none
    | c :: r2 =>
      if (r.takeWhile isJsSpace).isEmpty then none
      else if isIdentStart c && spacesThenParen (r2.dropWhile isWordChar) then
        some (c :: r2.takeWhile isWordChar)
      else none

/-- `/^(for|while)\s+/.test(line)`. -/
def pyIsLoop (line : List Char) : Bool :=
  (match stripLit "for".toList line with
    | some (c :: _) => isJsSpace c
    | _ => false) ||
  (match stripLit "while".toList line with
    | some (c :: _) => isJsSpace c
    | _ => false)

/-- The pattern `\bsorted\s*\(` at one position. -/
def pySortedAt (prev : Option Char) (s : List Char) : Bool :=
  wordBoundary prev s &&
  (match stripLit "sorted".toList s with
    | some r => spacesThenParen r
    | none => false)

/-- `line.includes('.sort(') || /\bsorted\s*\(/.test(line)`. -/
def pyIsSort (line : List Char) : Bool :=
  includes line ".sort(".toList || searchFrom pySortedAt none line

/-- The pattern `{[^}]*:` at one position: a colon before any closing brace. -/
def pyDictLiteralAt (_prev : Option Char) (s : List Char) : Bool :=
  match s with
  | '{' :: r => (r.takeWhile (fun c => c != '}')).contains ':'
  | _ => false

/-- The pattern `\b<word>\s*\(` at one position. -/
def wordCallAt (word : List Char) (prev : Option Char) (s : List Char) : Bool :=
  wordBoundary prev s &&
  (match stripLit word s with
    | some r => spacesThenParen r
    | none => false)

/-- The pattern `{.*for.*in` at one position. -/
def pyComprehensionAt (_prev : Option Char) (s : List Char) : Bool :=
  match s with
  | '{' :: r =>
    dotStar (fun r1 =>
      match stripLit "for".toList r1 with
      | some r2 => dotStar (fun r3 => startsWith r3 "in".toList) r2
      | none => false) r
  | _ => false

/-- The hash-structure test of the Python analyzer:
`/{[^}]*:/`, `/\bdict\s*\(/`, `/\bset\s*\(/` or `/{.*for.*in/`. -/
def pyIsHash (line : List Char) : Bool :=
  searchFrom pyDictLiteralAt none line ||
  searchFrom (wordCallAt "dict".toList) none line ||
  searchFrom (wordCallAt "set".toList) none line ||
  searchFrom pyComprehensionAt none line

/-- The mutable variables of the Python scan.  `loopStack` holds the `indent`
of each open loop scope, the top of the stack (the end of the array) first. -/
structure PyScan where
  state : Signals
  loopStack : List Nat
  currentFunction : Option (List Char)
  currentFunctionIndent : Option Nat
  sawDefLine : Bool
  deriving DecidableEq, Repr

/-- The variables before the first line. -/
def PyScan.init : PyScan :=
  { state := ⟨0, 0, 0, 0, false⟩, loopStack := [], currentFunction := none,
    currentFunctionIndent := none, sawDefLine := false }

/-- `!line || line.startsWith('#')`: the lines the loop skips. -/
def pySkip (rawLine : List Char) : Bool :=
  (trim rawLine).isEmpty || startsWith (trim rawLine) "#".toList

/-- The indent of a line: leading whitespace, a tab counting as two. -/
def pyIndent (rawLine : List Char) : Nat :=
  leadingSpaces (replaceTabs 2 rawLine)

/-- The `while` loop that unwinds the loop stack. -/
def pyUnwind (indent : Nat) (s : PyScan) : PyScan :=
  { s with loopStack := s.loopStack.dropWhile fun top => indent ≤ top }

/-- Leaving the function scope when dedenting past its indent. -/
def pyLeaveFunction (indent : Nat) (s : PyScan) : PyScan :=
  if isTruthy s.currentFunction && decide (indent < s.currentFunctionIndent.getD 0) then
    { s with currentFunction := none, currentFunctionIndent := none }
  else s

/-- Entering a function on a `def` line. -/
def pyEnterFunction (line : List Char) (indent : Nat) (s : PyScan) : PyScan :=
  match pyDefMatch line with
  | some name =>
    { s with currentFunction := some name, currentFunctionIndent := some indent,
             sawDefLine := true }
  | none => s

/-- Counting a loop header and pushing its scope. -/
def pyDetectLoop (line : List Char) (indent : Nat) (s : PyScan) : PyScan :=
  if pyIsLoop line then
    { s with
      state := { s.state with
        loopCount := s.state.loopCount + 1,
        maxNesting := max s.state.maxNesting (indent :: s.loopStack).length },
      loopStack := indent :: s.loopStack }
  else s

/-- Counting a sort call. -/
def pyDetectSort (line : List Char) (s : PyScan) : PyScan :=
  if pyIsSort line then
    { s with state := { s.state with sortCalls := s.state.sortCalls + 1 } }
  else s

/-- Recording a hash-based structure. -/
def pyDetectHash (line : List Char) (s : PyScan) : PyScan :=
  if pyIsHash line then { s with state := { s.state with hashUsage := true } } else s

/-- Counting a self-call inside the named function. -/
def pyDetectRecursion (normalizedName line : List Char) (s : PyScan) : PyScan :=
  if !normalizedName.isEmpty && decide (s.currentFunction = some normalizedName) &&
      !s.sawDefLine then
    if includes line (normalizedName ++ "(".toList) then
      { s with state := { s.state with recursionCalls := s.state.recursionCalls + 1 } }
    else s
  else s

/-- One iteration of `for (const rawLine of lines)` in the Python analyzer. -/
def pyStep (normalizedName : List Char) (s : PyScan) (rawLine : List Char) : PyScan :=
  let line := trim rawLine
  if pySkip rawLine then s
  else
    let indent := pyIndent rawLine
    let s := pyUnwind indent s
    let s := pyLeaveFunction indent s
    let s := pyEnterFunction line indent s
    let s := pyDetectLoop line indent s
    let s := pyDetectSort line s
    let s := pyDetectHash line s
    let s := pyDetectRecursion normalizedName line s
    { s with sawDefLine := false }

/-- The whole scan of the Python analyzer. -/
def pyScan (normalizedName : List Char) (lines : List (List Char)) : PyScan :=
  lines.foldl (pyStep normalizedName) PyScan.init

/-- The function `analyzePythonComplexity(code, functionName)`. -/
def analyzePythonComplexity (code : List Char) (functionName : NameArg) :
    Except String Result :=
  if code.isEmpty || (trim code).isEmpty then .error "No code provided"
  else if jsLength code > 30000 then .error "Snippet too large (max 30k characters)"
  else
    let lines := splitLines code
    if lines.length > 1500 then .error "Snippet too large (max 1500 lines)"
    else
      let state := (pyScan (normalizeName functionName) lines).state
      .ok { signals := state,
            inferredTimeComplexity :=
              inferComplexity state.recursionCalls state.sortCalls state.maxNesting }

/-! ## Java analyzer -/

/-- The pattern
`\b(?:public|private|protected|static|\w+)\s+[\w<>\[\]]+\s+([A-Za-z_][\w]*)\s*\(`
at one position, giving the capture.  After `\b` every alternative of the
first group is a run of word characters that must be followed by whitespace,
so the group matches exactly the word starting here; each later greedy run is
likewise followed by a character outside its class, so it is the longest run
and backtracking finds no other match. -/
def javaMethodAt (prev : Option Char) (s : List Char) : Option (List Char) :=
  if !wordBoundary prev s || (s.takeWhile isWordChar).isEmpty then none
  else
    let r1 := s.dropWhile isWordChar
    let isTypeChar := fun c => isWordChar c || c = '<' || c = '>' || c = '[' || c = ']'
    let r2 := r1.dropWhile isJsSpace
    let r3 := r2.dropWhile isTypeChar
    if (r1.takeWhile isJsSpace).isEmpty || (r2.takeWhile isTypeChar).isEmpty ||
        (r3.takeWhile isJsSpace).isEmpty then none
    else
      match r3.dropWhile isJsSpace with
      | [] => none
      | c :: r4 =>
        if isIdentStart c && spacesThenParen (r4.dropWhile isWordChar) then
          some (c :: r4.takeWhile isWordChar)
        else none

/-- The method-declaration match of the Java analyzer, giving the capture. -/
def javaMethodMatch (line : List Char) : Option (List Char) :=
  searchFirst javaMethodAt none line

/-- The pattern `\b(for|while)\s*\(` at one position. -/
def javaLoopAt (prev : Option Char) (s : List Char) : Bool :=
  wordCallAt "for".toList prev s || wordCallAt "while".toList prev s

/-- `/\b(for|while)\s*\(/.test(line)`. -/
def javaIsLoop (line : List Char) : Bool :=
  searchFrom javaLoopAt none line

/-- The pattern `\bdo\s*{` at one position. -/
def javaDoAt (prev : Option Char) (s : List Char) : Bool :=
  wordBoundary prev s &&
  (match stripLit "do".toList s with
    | some r => spacesThen (fun c => c = '{') r
    | none => false)

/-- `/\bdo\s*{/.test(line)`. -/
def javaIsDo (line : List Char) : Bool :=
  searchFrom javaDoAt none line

/-- The pattern `<lit>\s*\(` at one position. -/
def litCallAt (lit : List Char) (_prev : Option Char) (s : List Char) : Bool :=
  match stripLit lit s with
  | some r => spacesThenParen r
  | none => false

/-- The sort test of the Java analyzer:
`/Arrays\.sort\s*\(/`, `/Collections\.sort\s*\(/` or `/\.sort\s*\(/`. -/
def javaIsSort (line : List Char) : Bool :=
  searchFrom (litCallAt "Arrays.sort".toList) none line ||
  searchFrom (litCallAt "Collections.sort".toList) none line ||
  searchFrom (litCallAt ".sort".toList) none line

/-- The class names of the hash-structure pattern, in its order. -/
def javaHashClasses : List (List Char) :=
  ["HashMap".toList, "HashSet".toList, "Hashtable".toList, "LinkedHashMap".toList,
   "LinkedHashSet".toList, "TreeMap".toList, "TreeSet".toList]

/-- The pattern
`\bnew\s+(HashMap|HashSet|Hashtable|LinkedHashMap|LinkedHashSet|TreeMap|TreeSet)\s*[<(]`
at one position. -/
def javaHashAt (prev : Option Char) (s : List Char) : Bool :=
  wordBoundary prev s &&
  (match stripLit "new".toList s with
    | some r =>
      !(r.takeWhile isJsSpace).isEmpty &&
      javaHashClasses.any fun cls =>
        match stripLit cls (r.dropWhile isJsSpace) with
        | some r2 => spacesThen (fun c => c = '<' || c = '(') r2
        | none => false
    | none => false)

/-- The hash-structure test of the Java analyzer. -/
def javaIsHash (line : List Char) : Bool :=
  searchFrom javaHashAt none line

/-- The mutable variables of the Java scan.  `loopStack` holds the
`braceDepth` of each open loop scope, the top of the stack (the end of the
array) first.  The variable `currentFunctionIndent` and the per-line `indent`
of the source are never read and are left out. -/
structure JavaScan where
  state : Signals
  loopStack : List Int
  currentFunction : Option (List Char)
  braceDepth : Int
  functionBraceDepth : Option Int
  sawMethodDeclaration : Bool
  deriving DecidableEq, Repr

/-- The variables before the first line. -/
def JavaScan.init : JavaScan :=
  { state := ⟨0, 0, 0, 0, false⟩, loopStack := [], currentFunction := none,
    braceDepth := 0, functionBraceDepth := none, sawMethodDeclaration := false }

/-- The lines the Java loop skips: empty after trimming, or starting with
`//`, `/*` or `*`. -/
def javaSkip (rawLine : List Char) : Bool :=
  (trim rawLine).isEmpty || startsWith (trim rawLine) "//".toList ||
  startsWith (trim rawLine) "/*".toList || startsWith (trim rawLine) "*".toList

/-- `openBraces - closeBraces` of a line. -/
def braceDelta (line : List Char) : Int :=
  (line.count '{' : Int) - (line.count '}' : Int)

/-- Adding the braces of the line to the running depth. -/
def javaCountBraces (line : List Char) (s : JavaScan) : JavaScan :=
  { s with braceDepth := s.braceDepth + braceDelta line }

/-- The `while` loop that unwinds the loop stack. -/
def javaUnwind (s : JavaScan) : JavaScan :=
  { s with loopStack := s.loopStack.dropWhile fun top => s.braceDepth < top }

/-- Leaving the function scope when the braces close back. -/
def javaLeaveFunction (s : JavaScan) : JavaScan :=
  if isTruthy s.currentFunction &&
      (match s.functionBraceDepth with
        | some d => decide (s.braceDepth < d)
        | none => false) then
    { s with currentFunction := none, functionBraceDepth := none }
  else s

/-- Entering a method on a declaration line. -/
def javaEnterFunction (line : List Char) (s : JavaScan) : JavaScan :=
  match javaMethodMatch line with
  | some name =>
    { s with currentFunction := some name, functionBraceDepth := some s.braceDepth,
             sawMethodDeclaration := true }
  | none => s

/-- Counting one loop and pushing its scope. -/
def javaPushLoop (s : JavaScan) : JavaScan :=
  { s with
    state := { s.state with
      loopCount := s.state.loopCount + 1,
      maxNesting := max s.state.maxNesting (s.braceDepth :: s.loopStack).length },
    loopStack := s.braceDepth :: s.loopStack }

/-- Detecting a `for` or `while` loop. -/
def javaDetectLoop (line : List Char) (s : JavaScan) : JavaScan :=
  if javaIsLoop line then javaPushLoop s else s

/-- Detecting a `do` loop. -/
def javaDetectDoWhile (line : List Char) (s : JavaScan) : JavaScan :=
  if javaIsDo line then javaPushLoop s else s

/-- Counting a sort call. -/
def javaDetectSort (line : List Char) (s : JavaScan) : JavaScan :=
  if javaIsSort line then
    { s with state := { s.state with sortCalls := s.state.sortCalls + 1 } }
  else s

/-- Recording a hash-based structure. -/
def javaDetectHash (line : List Char) (s : JavaScan) : JavaScan :=
  if javaIsHash line then { s with state := { s.state with hashUsage := true } } else s

/-- Counting a self-call inside the named method. -/
def javaDetectRecursion (normalizedName line : List Char) (s : JavaScan) : JavaScan :=
  if !normalizedName.isEmpty && decide (s.currentFunction = some normalizedName) &&
      !s.sawMethodDeclaration then
    if includes line (normalizedName ++ "(".toList) then
      { s with state := { s.state with recursionCalls := s.state.recursionCalls + 1 } }
    else s
  else s

/-- One iteration of `for (const rawLine of lines)` in the Java analyzer. -/
def javaStep (normalizedName : List Char) (s : JavaScan) (rawLine : List Char) : JavaScan :=
  let line := trim rawLine
  if javaSkip rawLine then s
  else
    let s := javaCountBraces line s
    let s := javaUnwind s
    let s := javaLeaveFunction s
    let s := javaEnterFunction line s
    let s := javaDetectLoop line s
    let s := javaDetectDoWhile line s
    let s := javaDetectSort line s
    let s := javaDetectHash line s
    let s := javaDetectRecursion normalizedName line s
    { s with sawMethodDeclaration := false }

/-- The whole scan of the Java analyzer. -/
def javaScan (normalizedName : List Char) (lines : List (List Char)) : JavaScan :=
  lines.foldl (javaStep normalizedName) JavaScan.init

/-- The function `analyzeJavaComplexity(code, functionName)`. -/
def analyzeJavaComplexity (code : List Char) (functionName : NameArg) :
    Except String Result :=
  if code.isEmpty || (trim code).isEmpty then .error "No code provided"
  else if jsLength code > 30000 then .error "Snippet too large (max 30k characters)"
  else
    let lines := splitLines code
    if lines.length > 1500 then .error "Snippet too large (max 1500 lines)"
    else
      let state := (javaScan (normalizeName functionName) lines).state
      .ok { signals := state,
            inferredTimeComplexity :=
              inferComplexity state.recursionCalls state.sortCalls state.maxNesting }

/-! ## JavaScript analyzer -/

/-- The syntax tree the parser returns, as far as the analyzer and the tree
walker tell nodes apart.  A member expression `a[b]` is `memberExpression`;
`a.b` and `a.#b`, whose property is an `Identifier` or `PrivateIdentifier`
leaf that the walker does not visit, are `staticMemberExpression`.  Every
other node kind is `other`, with its type and the child nodes in the order
in which the base walker visits them (the children it does not visit are
non-computed keys and labels, which are leaves). -/
inductive Node where
  | forStatement (init test update : Option Node) (body : Node)
  | forOfStatement (left right body : Node)
  | forInStatement (left right body : Node)
  | whileStatement (test body : Node)
  | doWhileStatement (body test : Node)
  | callExpression (callee : Node) (arguments : List Node)
  | newExpression (callee : Node) (arguments : List Node)
  | objectExpression (properties : List Node)
  | memberExpression (object property : Node)
  | staticMemberExpression (object : Node) (name : List Char) (isPrivate : Bool)
  | identifier (name : List Char)
  | other (type : String) (children : List Node)

/-- The `state` object of the JavaScript analyzer. -/
structure WalkState where
  loopCount : Nat
  loopDepth : Nat
  maxDepth : Nat
  sortCalls : Nat
  recursionCalls : Nat
  hashUsage : Bool
  deriving DecidableEq, Repr

/-- The first three statements of each loop visitor. -/
def enterLoop (st : WalkState) : WalkState :=
  { st with loopCount := st.loopCount + 1, loopDepth := st.loopDepth + 1,
            maxDepth := max st.maxDepth (st.loopDepth + 1) }

/-- The last statement of each loop visitor, `st.loopDepth--`. -/
def leaveLoop (st : WalkState) : WalkState :=
  { st with loopDepth := st.loopDepth - 1 }

/-- The name the `CallExpression` visitor compares with `"sort"`: the name of
an `Identifier` property of a member-expression callee, else the empty string. -/
def calleePropertyName : Node → List Char
  | .memberExpression _ (.identifier name) => name
  | .staticMemberExpression _ name false => name
  | _ => []

/-- The checks of the `CallExpression` visitor before it walks on. -/
def visitCall (normalizedName : List Char) (callee : Node) (st : WalkState) : WalkState :=
  let st :=
    match callee with
    | .memberExpression _ _ | .staticMemberExpression _ _ _ =>
      if calleePropertyName callee = "sort".toList then
        { st with sortCalls := st.sortCalls + 1 }
      else st
    | _ => st
  match callee with
  | .identifier name =>
    if !normalizedName.isEmpty && decide (name = normalizedName) then
      { st with recursionCalls := st.recursionCalls + 1 }
    else st
  | _ => st

/-- The check of the `NewExpression` visitor before it walks on. -/
def visitNew (callee : Node) (st : WalkState) : WalkState :=
  match callee with
  | .identifier name =>
    if name = "Set".toList ∨ name = "Map".toList then { st with hashUsage := true } else st
  | _ => st

/-- What a call of `analyzeComplexity` can throw: the `Error` the analyzer
creates, with its message, or the `RangeError` with which the engine stops a
recursion that has used up the call stack (its message differs between
engines). -/
inductive Thrown where
  | error (message : String)
  | rangeError
  deriving DecidableEq, Repr

mutual
/-- The callback `c(node, st)` of `walk.recursive` with the visitors of the
analyzer; the state object the visitors mutate is threaded through.  The
callback and the visitors call each other on the call stack of the engine:
`stack` is the number of nested visits the stack has room for, a visit for
which no room is left throws the `RangeError` of the engine, and nothing in
the analyzer catches it.  The children of a node are visited one after the
other, each with the room that is left below their parent. -/
def walk (normalizedName : List Char) : Node → Nat → WalkState → Except Thrown WalkState
  | _, 0, _ => .error .rangeError
  | .forStatement init test update body, stack + 1, st => do
    let st ← walkOpt normalizedName init stack (enterLoop st)
    let st ← walkOpt normalizedName test stack st
    let st ← walkOpt normalizedName update stack st
    let st ← walk normalizedName body stack st
    pure (leaveLoop st)
  | .forOfStatement left right body, stack + 1, st => do
    let st ← walk normalizedName left stack (enterLoop st)
    let st ← walk normalizedName right stack st
    let st ← walk normalizedName body stack st
    pure (leaveLoop st)
  | .forInStatement left right body, stack + 1, st => do
    let st ← walk normalizedName left stack (enterLoop st)
    let st ← walk normalizedName right stack st
    let st ← walk normalizedName body stack st
    pure (leaveLoop st)
  | .whileStatement test body, stack + 1, st => do
    let st ← walk normalizedName test stack (enterLoop st)
    let st ← walk normalizedName body stack st
    pure (leaveLoop st)
  | .doWhileStatement body test, stack + 1, st => do
    let st ← walk normalizedName body stack (enterLoop st)
    let st ← walk normalizedName test stack st
    pure (leaveLoop st)
  | .callExpression callee arguments, stack + 1, st => do
    let st ← walk normalizedName callee stack (visitCall normalizedName callee st)
    walkList normalizedName arguments stack st
  | .newExpression callee arguments, stack + 1, st => do
    let st ← walk normalizedName callee stack (visitNew callee st)
    walkList normalizedName arguments stack st
  | .objectExpression properties, stack + 1, st =>
    walkList normalizedName properties stack { st with hashUsage := true }
  | .memberExpression object property, stack + 1, st => do
    let st ← walk normalizedName object stack st
    walk normalizedName property stack st
  | .staticMemberExpression object _ _, stack + 1, st => walk normalizedName object stack st
  | .identifier _, _ + 1, st => pure st
  | .other _ children, stack + 1, st => walkList normalizedName children stack st
/-- The walk of an optional child: `if (node.x) c(node.x, st)`. -/
def walkOpt (normalizedName : List Char) :
    Option Node → Nat → WalkState → Except Thrown WalkState
  | none, _, st => pure st
  | some n, stack, st => walk normalizedName n stack st
/-- The walk of a list of children, in order: a `for` loop of the visitor. -/
def walkList (normalizedName : List Char) :
    List Node → Nat → WalkState → Except Thrown WalkState
  | [], _, st => pure st
  | n :: ns, stack, st => do
    let st ← walk normalizedName n stack st
    walkList normalizedName ns stack st
end

/-- The `state` object before the walk. -/
def WalkState.init : WalkState :=
  { loopCount := 0, loopDepth := 0, maxDepth := 0, sortCalls := 0, recursionCalls := 0,
    hashUsage := false }

/-- The function `analyzeComplexity(code, functionName)`.  The parser of the
`acorn` package is a parameter: it gives a syntax tree, or fails with an error
whose `message` may be missing.  Only the call of the parser stands inside
the `try`; the walk follows it, so what the walk throws leaves the function
as it is.  `stack` is the room the call stack has for the walk. -/
def analyzeComplexity (parse : List Char → Except (Option String) Node) (stack : Nat)
    (code : List Char) (functionName : NameArg) : Except Thrown Result :=
  match parse code with
  | .error err =>
    .error (.error ("Invalid JavaScript: " ++
      (match err with
        | some message => if message = "" then "parse error" else message
        | none => "parse error")))
  | .ok ast =>
    match walk (normalizeName functionName) ast stack WalkState.init with
    | .error thrown => .error thrown
    | .ok state =>
      .ok { signals :=
              { loopCount := state.loopCount, maxNesting := state.maxDepth,
                sortCalls := state.sortCalls, recursionCalls := state.recursionCalls,
                hashUsage := state.hashUsage },
            inferredTimeComplexity :=
              inferComplexity state.recursionCalls state.sortCalls state.maxDepth }

/-! ## Definitions used to state the properties -/

mutual
/-- The state in which a walk that is not cut short leaves the state object:
the statements of the visitors in the order of the walk, without the call
stack.  `walk_eq` shows that `walk` returns this state whenever it returns. -/
def walkResult (normalizedName : List Char) : Node → WalkState → WalkState
  | .forStatement init test update body, st =>
    leaveLoop (walkResult normalizedName body (walkResultOpt normalizedName update
      (walkResultOpt normalizedName test (walkResultOpt normalizedName init (enterLoop st)))))
  | .forOfStatement left right body, st =>
    leaveLoop (walkResult normalizedName body (walkResult normalizedName right
      (walkResult normalizedName left (enterLoop st))))
  | .forInStatement left right body, st =>
    leaveLoop (walkResult normalizedName body (walkResult normalizedName right
      (walkResult normalizedName left (enterLoop st))))
  | .whileStatement test body, st =>
    leaveLoop (walkResult normalizedName body (walkResult normalizedName test (enterLoop st)))
  | .doWhileStatement body test, st =>
    leaveLoop (walkResult normalizedName test (walkResult normalizedName body (enterLoop st)))
  | .callExpression callee arguments, st =>
    walkResultList normalizedName arguments
      (walkResult normalizedName callee (visitCall normalizedName callee st))
  | .newExpression callee arguments, st =>
    walkResultList normalizedName arguments (walkResult normalizedName callee (visitNew callee st))
  | .objectExpression properties, st =>
    walkResultList normalizedName properties { st with hashUsage := true }
  | .memberExpression object property, st =>
    walkResult normalizedName property (walkResult normalizedName object st)
  | .staticMemberExpression object _ _, st => walkResult normalizedName object st
  | .identifier _, st => st
  | .other _ children, st => walkResultList normalizedName children st
/-- The state after a completed walk of an optional child. -/
def walkResultOpt (normalizedName : List Char) : Option Node → WalkState → WalkState
  | none, st => st
  | some n, st => walkResult normalizedName n st
/-- The state after a completed walk of a list of children. -/
def walkResultList (normalizedName : List Char) : List Node → WalkState → WalkState
  | [], st => st
  | n :: ns, st => walkResultList normalizedName ns (walkResult normalizedName n st)
end

mutual
/-- The number of nested visits the walk of a tree needs: the number of nodes
on the longest path from the root through the nodes the walker visits. -/
def walkDepth : Node → Nat
  | .forStatement init test update body =>
    1 + max (max (walkDepthOpt init) (walkDepthOpt test))
      (max (walkDepthOpt update) (walkDepth body))
  | .forOfStatement left right body =>
    1 + max (walkDepth left) (max (walkDepth right) (walkDepth body))
  | .forInStatement left right body =>
    1 + max (walkDepth left) (max (walkDepth right) (walkDepth body))
  | .whileStatement test body => 1 + max (walkDepth test) (walkDepth body)
  | .doWhileStatement body test => 1 + max (walkDepth body) (walkDepth test)
  | .callExpression callee arguments => 1 + max (walkDepth callee) (walkDepthList arguments)
  | .newExpression callee arguments => 1 + max (walkDepth callee) (walkDepthList arguments)
  | .objectExpression properties => 1 + walkDepthList properties
  | .memberExpression object property => 1 + max (walkDepth object) (walkDepth property)
  | .staticMemberExpression object _ _ => 1 + walkDepth object
  | .identifier _ => 1
  | .other _ children => 1 + walkDepthList children
/-- The depth of an optional child, 0 when it is missing. -/
def walkDepthOpt : Option Node → Nat
  | none => 0
  | some n => walkDepth n
/-- The depth of the deepest node of a list. -/
def walkDepthList : List Node → Nat
  | [] => 0
  | n :: ns => max (walkDepth n) (walkDepthList ns)
end

/-- The expression `a.b.b ... .b` with `k` property accesses. -/
def memberChain : Nat → Node
  | 0 => .identifier "a".toList
  | k + 1 => .staticMemberExpression (memberChain k) "b".toList false

/-- The source text of `memberChain k`, in JavaScript `"a" + ".b".repeat(k)`. -/
def memberChainSource (k : Nat) : List Char :=
  "a".toList ++ (List.replicate k ".b".toList).flatten

/-- The tree of the program made of the one expression `memberChain k`. -/
def memberChainTree (k : Nat) : Node :=
  .other "Program" [.other "ExpressionStatement" [memberChain k]]

/-- The priority mapping of the classifier as the specification words it
(section 4.4), the exponent printed with its decimal digits. -/
def specLabel (s : Signals) : String :=
  match s.recursionCalls, s.sortCalls, s.maxNesting with
  | _ + 1, _, _ => "Recursive (depends on recurrence)"
  | 0, _ + 1, m => if 2 ≤ m then "O(n^k log n)" else "O(n log n)"
  | 0, 0, m + 2 => "O(n^" ++ String.mk (Nat.toDigits 10 (m + 2)) ++ ")"
  | 0, 0, 1 => "O(n)"
  | 0, 0, 0 => "O(1)"

/-- A source is within the limits of the line-oriented analyzers: it is not
empty or whitespace-only, it has at most 30,000 characters and at most 1,500
lines. -/
def WithinLimits (code : List Char) : Prop :=
  (code.isEmpty || (trim code).isEmpty) = false ∧ jsLength code ≤ 30000 ∧
  (splitLines code).length ≤ 1500

instance (code : List Char) : Decidable (WithinLimits code) := by
  unfold WithinLimits; infer_instance

/-- No target function name is given: `undefined`, `null`, the empty string
or a string of whitespace only. -/
def NameAbsent (functionName : NameArg) : Prop :=
  match functionName with
  | .undefined => True
  | .null => True
  | .str s => s.all isJsSpace = true

instance (functionName : NameArg) : Decidable (NameAbsent functionName) := by
  cases functionName <;> unfold NameAbsent <;> infer_instance

mutual
/-- The number of loop nodes of a tree. -/
def countLoops : Node → Nat
  | .forStatement init test update body =>
    1 + (countLoopsOpt init + countLoopsOpt test + countLoopsOpt update + countLoops body)
  | .forOfStatement left right body => 1 + (countLoops left + countLoops right + countLoops body)
  | .forInStatement left right body => 1 + (countLoops left + countLoops right + countLoops body)
  | .whileStatement test body => 1 + (countLoops test + countLoops body)
  | .doWhileStatement body test => 1 + (countLoops body + countLoops test)
  | .callExpression callee arguments => countLoops callee + countLoopsList arguments
  | .newExpression callee arguments => countLoops callee + countLoopsList arguments
  | .objectExpression properties => countLoopsList properties
  | .memberExpression object property => countLoops object + countLoops property
  | .staticMemberExpression object _ _ => countLoops object
  | .identifier _ => 0
  | .other _ children => countLoopsList children
/-- The number of loop nodes of an optional child. -/
def countLoopsOpt : Option Node → Nat
  | none => 0
  | some n => countLoops n
/-- The number of loop nodes of a list of children. -/
def countLoopsList : List Node → Nat
  | [] => 0
  | n :: ns => countLoops n + countLoopsList ns
end

mutual
/-- The largest number of loop nodes on a path from the root of a tree down
to one of its nodes. -/
def maxLoopPath : Node → Nat
  | .forStatement init test update body =>
    1 + max (max (max (maxLoopPathOpt init) (maxLoopPathOpt test)) (maxLoopPathOpt update))
          (maxLoopPath body)
  | .forOfStatement left right body =>
    1 + max (max (maxLoopPath left) (maxLoopPath right)) (maxLoopPath body)
  | .forInStatement left right body =>
    1 + max (max (maxLoopPath left) (maxLoopPath right)) (maxLoopPath body)
  | .whileStatement test body => 1 + max (maxLoopPath test) (maxLoopPath body)
  | .doWhileStatement body test => 1 + max (maxLoopPath body) (maxLoopPath test)
  | .callExpression callee arguments => max (maxLoopPath callee) (maxLoopPathList arguments)
  | .newExpression callee arguments => max (maxLoopPath callee) (maxLoopPathList arguments)
  | .objectExpression properties => maxLoopPathList properties
  | .memberExpression object property => max (maxLoopPath object) (maxLoopPath property)
  | .staticMemberExpression object _ _ => maxLoopPath object
  | .identifier _ => 0
  | .other _ children => maxLoopPathList children
/-- The same for an optional child. -/
def maxLoopPathOpt : Option Node → Nat
  | none => 0
  | some n => maxLoopPath n
/-- The same for a list of children: the largest value among them. -/
def maxLoopPathList : List Node → Nat
  | [] => 0
  | n :: ns => max (maxLoopPath n) (maxLoopPathList ns)
end

/-- A loop header line that opens its block, as in `for (...) {`: the line is
scanned, the `for`/`while` pattern matches it, the `do` pattern does not, and
it has one more `{` than `}`. -/
def JavaBlockHeader (rawLine : List Char) : Prop :=
  javaSkip rawLine = false ∧ javaIsLoop (trim rawLine) = true ∧
  javaIsDo (trim rawLine) = false ∧ braceDelta (trim rawLine) = 1

instance (rawLine : List Char) : Decidable (JavaBlockHeader rawLine) := by
  unfold JavaBlockHeader; infer_instance

/-- The syntax tree of the statement `xs.sort()`. -/
def sortCallTree : Node :=
  .other "Program" [.other "ExpressionStatement"
    [.callExpression (.staticMemberExpression (.identifier "xs".toList) "sort".toList false) []]]

/-- The syntax tree of `function f(n) { return f(n - 1) }`. -/
def selfCallTree : Node :=
  .other "Program" [.other "FunctionDeclaration" [.other "BlockStatement"
    [.other "ReturnStatement" [.callExpression (.identifier "f".toList)
      [.other "BinaryExpression" [.identifier "n".toList, .other "Literal" []]]]]]]

/-- The syntax tree of `for (;;) { while (x) {} }`. -/
def nestedLoopTree : Node :=
  .other "Program" [.forStatement none none none (.other "BlockStatement"
    [.whileStatement (.identifier "x".toList) (.other "BlockStatement" [])])]

/-- The source is empty or consists of whitespace only. -/
def IsBlank (code : List Char) : Prop :=
  code.all isJsSpace = true

instance (code : List Char) : Decidable (IsBlank code) := by
  unfold IsBlank; infer_instance

/-- The text `<name>(` a self-call is recognised by. -/
def callText (name : List Char) : List Char :=
  name ++ "(".toList

/-- A blank or comment line of a Python source: empty, whitespace only, or
with `#` as its first character that is not whitespace. -/
def PyBlankOrComment (rawLine : List Char) : Prop :=
  rawLine.all isJsSpace = true ∨ (rawLine.dropWhile isJsSpace).head? = some '#'

instance (rawLine : List Char) : Decidable (PyBlankOrComment rawLine) := by
  unfold PyBlankOrComment; infer_instance

/-- A blank or comment line of a Java source: empty, whitespace only, or with
a trimmed text that starts with `//`, `/*` or `*`. -/
def JavaBlankOrComment (rawLine : List Char) : Prop :=
  rawLine.all isJsSpace = true ∨ startsWith (trim rawLine) "//".toList = true ∨
  startsWith (trim rawLine) "/*".toList = true ∨ startsWith (trim rawLine) "*".toList = true

instance (rawLine : List Char) : Decidable (JavaBlankOrComment rawLine) := by
  unfold JavaBlankOrComment; infer_instance

/-- The Python sample of the popup (`samples.python`). -/
def pythonSample : List Char :=
  ("def twoSum(nums, target):\n" ++
   "    seen = \x7b\x7d\n" ++
   "    for i, num in enumerate(nums):\n" ++
   "        complement = target - num\n" ++
   "        if complement in seen:\n" ++
   "            return [seen[complement], i]\n" ++
   "        seen[num] = i\n" ++
   "    return []").toList

/-- The Java sample of the popup (`samples.java`). -/
def javaSample : List Char :=
  ("public int[] twoSum(int[] nums, int target) \x7b\n" ++
   "    HashMap<Integer, Integer> seen = new HashMap<>();\n" ++
   "    for (int i = 0; i < nums.length; i++) \x7b\n" ++
   "        int complement = target - nums[i];\n" ++
   "        if (seen.containsKey(complement)) \x7b\n" ++
   "            return new int[] \x7b seen.get(complement), i \x7d;\n" ++
   "        \x7d\n" ++
   "        seen.put(nums[i], i);\n" ++
   "    \x7d\n" ++
   "    return new int[] \x7b\x7d;\n" ++
   "\x7d").toList

/-- A callee that is the plain identifier `name`. -/
def isSelfCallee (name : List Char) : Node → Bool
  | .identifier callee => callee = name
  | _ => false

/-- A callee that is a member expression whose property is the identifier
`sort`. -/
def isSortCallee : Node → Bool
  | .memberExpression _ (.identifier name) => name = "sort".toList
  | .staticMemberExpression _ name false => name = "sort".toList
  | _ => false

/-- A callee that is the plain identifier `Set` or `Map`. -/
def isHashCallee : Node → Bool
  | .identifier name => name = "Set".toList || name = "Map".toList
  | _ => false

mutual
/-- The number of call-expression nodes of a tree whose callee is the plain
identifier `name`. -/
def countSelfCalls (name : List Char) : Node → Nat
  | .forStatement init test update body =>
    countSelfCallsOpt name init + countSelfCallsOpt name test +
      countSelfCallsOpt name update + countSelfCalls name body
  | .forOfStatement left right body =>
    countSelfCalls name left + countSelfCalls name right + countSelfCalls name body
  | .forInStatement left right body =>
    countSelfCalls name left + countSelfCalls name right + countSelfCalls name body
  | .whileStatement test body => countSelfCalls name test + countSelfCalls name body
  | .doWhileStatement body test => countSelfCalls name body + countSelfCalls name test
  | .callExpression callee arguments =>
    (if isSelfCallee name callee then 1 else 0) +
      (countSelfCalls name callee + countSelfCallsList name arguments)
  | .newExpression callee arguments =>
    countSelfCalls name callee + countSelfCallsList name arguments
  | .objectExpression properties => countSelfCallsList name properties
  | .memberExpression object property =>
    countSelfCalls name object + countSelfCalls name property
  | .staticMemberExpression object _ _ => countSelfCalls name object
  | .identifier _ => 0
  | .other _ children => countSelfCallsList name children
/-- The same for an optional child. -/
def countSelfCallsOpt (name : List Char) : Option Node → Nat
  | none => 0
  | some n => countSelfCalls name n
/-- The same for a list of children. -/
def countSelfCallsList (name : List Char) : List Node → Nat
  | [] => 0
  | n :: ns => countSelfCalls name n + countSelfCallsList name ns
end

mutual
/-- The number of call-expression nodes of a tree whose callee is a member
expression with identifier property `sort`. -/
def countSortCalls : Node → Nat
  | .forStatement init test update body =>
    countSortCallsOpt init + countSortCallsOpt test + countSortCallsOpt update +
      countSortCalls body
  | .forOfStatement left right body =>
    countSortCalls left + countSortCalls right + countSortCalls body
  | .forInStatement left right body =>
    countSortCalls left + countSortCalls right + countSortCalls body
  | .whileStatement test body => countSortCalls test + countSortCalls body
  | .doWhileStatement body test => countSortCalls body + countSortCalls test
  | .callExpression callee arguments =>
    (if isSortCallee callee then 1 else 0) +
      (countSortCalls callee + countSortCallsList arguments)
  | .newExpression callee arguments => countSortCalls callee + countSortCallsList arguments
  | .objectExpression properties => countSortCallsList properties
  | .memberExpression object property => countSortCalls object + countSortCalls property
  | .staticMemberExpression object _ _ => countSortCalls object
  | .identifier _ => 0
  | .other _ children => countSortCallsList children
/-- The same for an optional child. -/
def countSortCallsOpt : Option Node → Nat
  | none => 0
  | some n => countSortCalls n
/-- The same for a list of children. -/
def countSortCallsList : List Node → Nat
  | [] => 0
  | n :: ns => countSortCalls n + countSortCallsList ns
end

mutual
/-- The tree contains an object-literal node, or a `new` expression whose
callee is the plain identifier `Set` or `Map`. -/
def hasHashNode : Node → Bool
  | .forStatement init test update body =>
    hasHashNodeOpt init || hasHashNodeOpt test || hasHashNodeOpt update || hasHashNode body
  | .forOfStatement left right body => hasHashNode left || hasHashNode right || hasHashNode body
  | .forInStatement left right body => hasHashNode left || hasHashNode right || hasHashNode body
  | .whileStatement test body => hasHashNode test || hasHashNode body
  | .doWhileStatement body test => hasHashNode body || hasHashNode test
  | .callExpression callee arguments => hasHashNode callee || hasHashNodeList arguments
  | .newExpression callee arguments =>
    isHashCallee callee || (hasHashNode callee || hasHashNodeList arguments)
  | .objectExpression _ => true
  | .memberExpression object property => hasHashNode object || hasHashNode property
  | .staticMemberExpression object _ _ => hasHashNode object
  | .identifier _ => false
  | .other _ children => hasHashNodeList children
/-- The same for an optional child. -/
def hasHashNodeOpt : Option Node → Bool
  | none => false
  | some n => hasHashNode n
/-- The same for a list of children. -/
def hasHashNodeList : List Node → Bool
  | [] => false
  | n :: ns => hasHashNode n || hasHashNodeList ns
end

/-- The syntax tree of `function n() {}` followed by the top-level
statements `n(10)`, `obj.n()` and `this.n()`. -/
def topLevelCallTree : Node :=
  .other "Program"
    [.other "FunctionDeclaration" [.other "BlockStatement" []],
     .other "ExpressionStatement"
       [.callExpression (.identifier "n".toList) [.other "Literal" []]],
     .other "ExpressionStatement"
       [.callExpression (.staticMemberExpression (.identifier "obj".toList) "n".toList false) []],
     .other "ExpressionStatement"
       [.callExpression (.staticMemberExpression (.other "ThisExpression" []) "n".toList false)
         []]]

/-- The syntax tree of `const s = new Set(); xs.sort(); ys.sort()`. -/
def setAndSortTree : Node :=
  .other "Program"
    [.other "VariableDeclaration" [.other "VariableDeclarator"
       [.newExpression (.identifier "Set".toList) []]],
     .other "ExpressionStatement"
       [.callExpression (.staticMemberExpression (.identifier "xs".toList) "sort".toList false)
         []],
     .other "ExpressionStatement"
       [.callExpression (.staticMemberExpression (.identifier "ys".toList) "sort".toList false)
         []]]

/-- The indents of the loop headers among the scanned lines of a Python
source, in order. -/
def loopHeaderIndents (lines : List (List Char)) : List Nat :=
  (lines.filter fun l => !pySkip l && pyIsLoop (trim l)).map pyIndent

/-- The number of positions of `s` at which the text `sub` starts. -/
def occurrences : List Char → List Char → Nat
  | [], sub => if sub.isEmpty then 1 else 0
  | c :: s, sub => (if startsWith (c :: s) sub then 1 else 0) + occurrences s sub

/-- The line `a` of a source continued by a line break, against the line `b`
the source ends with: the same line, or the same line without the `\r` that
the line break takes into the separator. -/
def SameLine (a b : List Char) : Prop :=
  b = a ∨ b = a ++ ['\r']

/-- The signals `b` are those of `a` grown: no counter is smaller and the
hash flag is kept. -/
def SignalsGrow (a b : Signals) : Prop :=
  a.loopCount ≤ b.loopCount ∧ a.maxNesting ≤ b.maxNesting ∧ a.sortCalls ≤ b.sortCalls ∧
  a.recursionCalls ≤ b.recursionCalls ∧ (a.hashUsage = true → b.hashUsage = true)

/-- The effect of walking a subtree with `s` sort calls and hash marker `h`
on the sort counter and the hash flag of the walker state. -/
def SideEffect (st st' : WalkState) (s : Nat) (h : Bool) : Prop :=
  st'.sortCalls = st.sortCalls + s ∧ st'.hashUsage = (st.hashUsage || h)

/-- The effect of walking a subtree with `c` loop nodes and at most `m` loop
nodes on a path, on the three loop counters of the walker state. -/
def LoopEffect (st st' : WalkState) (c m : Nat) : Prop :=
  st'.loopCount = st.loopCount + c ∧ st'.loopDepth = st.loopDepth ∧
  st'.maxDepth = max st.maxDepth (if m = 0 then 0 else st.loopDepth + m)

/-! ## The classifier -/

theorem inferComplexity_of_recursion (r s m : Nat) (h : 0 < r) :
    inferComplexity r s m = "Recursive (depends on recurrence)" := by
  simp [inferComplexity, h]

theorem inferComplexity_eq_specLabel (sig : Signals) :
    inferComplexity sig.recursionCalls sig.sortCalls sig.maxNesting = specLabel sig := by
  obtain ⟨l, m, s, r, h⟩ := sig
  unfold specLabel inferComplexity
  rcases r with _ | r
  · rcases s with _ | s
    · rcases m with _ | _ | m
      · simp
      · simp
      · simp only [Nat.lt_irrefl, if_false, ge_iff_le, Nat.le_add_left, if_true]
        rfl
    · simp
  · simp

theorem power_label_ne_recursive (t : String) :
    "O(n^" ++ t ≠ "Recursive (depends on recurrence)" := by
  intro h
  have h2 := congrArg String.data h
  simp at h2

theorem inferComplexity_ne_recursive (s m : Nat) :
    inferComplexity 0 s m ≠ "Recursive (depends on recurrence)" := by
  unfold inferComplexity
  rw [if_neg (by decide)]
  split_ifs
  · decide
  · decide
  · rw [String.append_assoc]; exact power_label_ne_recursive _
  · decide
  · decide

theorem inferComplexity_zero : inferComplexity 0 0 0 = "O(1)" := by
  decide

theorem inferComplexity_one : inferComplexity 0 0 1 = "O(n)" := by
  decide

/-! ## What a returned result is -/

theorem analyzePython_of_ok {code : List Char} {fn : NameArg} {r : Result}
    (h : analyzePythonComplexity code fn = .ok r) :
    r.signals = (pyScan (normalizeName fn) (splitLines code)).state ∧
    r.inferredTimeComplexity =
      inferComplexity r.signals.recursionCalls r.signals.sortCalls r.signals.maxNesting := by
  unfold analyzePythonComplexity at h
  split_ifs at h
  dsimp only at h
  split_ifs at h
  simp only [Except.ok.injEq] at h
  subst h
  exact ⟨rfl, rfl⟩

theorem analyzePython_of_within {code : List Char} (fn : NameArg) (h : WithinLimits code) :
    analyzePythonComplexity code fn =
      .ok { signals := (pyScan (normalizeName fn) (splitLines code)).state,
            inferredTimeComplexity :=
              inferComplexity (pyScan (normalizeName fn) (splitLines code)).state.recursionCalls
                (pyScan (normalizeName fn) (splitLines code)).state.sortCalls
                (pyScan (normalizeName fn) (splitLines code)).state.maxNesting } := by
  obtain ⟨h1, h2, h3⟩ := h
  unfold analyzePythonComplexity
  rw [if_neg (by simp [h1]), if_neg (by omega)]
  simp only
  rw [if_neg (by omega)]

theorem analyzeJava_of_ok {code : List Char} {fn : NameArg} {r : Result}
    (h : analyzeJavaComplexity code fn = .ok r) :
    r.signals = (javaScan (normalizeName fn) (splitLines code)).state ∧
    r.inferredTimeComplexity =
      inferComplexity r.signals.recursionCalls r.signals.sortCalls r.signals.maxNesting := by
  unfold analyzeJavaComplexity at h
  split_ifs at h
  dsimp only at h
  split_ifs at h
  simp only [Except.ok.injEq] at h
  subst h
  exact ⟨rfl, rfl⟩

theorem analyzeJava_of_within {code : List Char} (fn : NameArg) (h : WithinLimits code) :
    analyzeJavaComplexity code fn =
      .ok { signals := (javaScan (normalizeName fn) (splitLines code)).state,
            inferredTimeComplexity :=
              inferComplexity (javaScan (normalizeName fn) (splitLines code)).state.recursionCalls
                (javaScan (normalizeName fn) (splitLines code)).state.sortCalls
                (javaScan (normalizeName fn) (splitLines code)).state.maxNesting } := by
  obtain ⟨h1, h2, h3⟩ := h
  unfold analyzeJavaComplexity
  rw [if_neg (by simp [h1]), if_neg (by omega)]
  simp only
  rw [if_neg (by omega)]

theorem bind_fits {c : Prop} [Decidable c] (a : WalkState)
    (f : WalkState → Except Thrown WalkState) :
    (if c then Except.ok a else Except.error Thrown.rangeError) >>= f =
      if c then f a else .error .rangeError := by
  split_ifs <;> rfl

mutual
theorem walk_eq (nm : List Char) : ∀ (n : Node) (k : Nat) (st : WalkState),
    walk nm n k st =
      if walkDepth n ≤ k then .ok (walkResult nm n st) else .error .rangeError
  | .forStatement init test update body, 0, st => by
    rw [walk, walkDepth, if_neg (by omega)]
  | .forOfStatement left right body, 0, st => by
    rw [walk, walkDepth, if_neg (by omega)]
  | .forInStatement left right body, 0, st => by
    rw [walk, walkDepth, if_neg (by omega)]
  | .whileStatement test body, 0, st => by
    rw [walk, walkDepth, if_neg (by omega)]
  | .doWhileStatement body test, 0, st => by
    rw [walk, walkDepth, if_neg (by omega)]
  | .callExpression callee arguments, 0, st => by
    rw [walk, walkDepth, if_neg (by omega)]
  | .newExpression callee arguments, 0, st => by
    rw [walk, walkDepth, if_neg (by omega)]
  | .objectExpression properties, 0, st => by
    rw [walk, walkDepth, if_neg (by omega)]
  | .memberExpression object property, 0, st => by
    rw [walk, walkDepth, if_neg (by omega)]
  | .staticMemberExpression object _ _, 0, st => by
    rw [walk, walkDepth, if_neg (by omega)]
  | .identifier _, 0, st => by
    rw [walk, walkDepth, if_neg (by omega)]
  | .other _ children, 0, st => by
    rw [walk, walkDepth, if_neg (by omega)]
  | .forStatement init test update body, k + 1, st => by
    rw [walk, walkResult, walkDepth]
    simp only [walkOpt_eq nm init k, walkOpt_eq nm test k, walkOpt_eq nm update k,
      walk_eq nm body k, bind_fits]
    split_ifs <;> first | rfl | (exfalso; omega)
  | .forOfStatement left right body, k + 1, st => by
    rw [walk, walkResult, walkDepth]
    simp only [walk_eq nm left k, walk_eq nm right k, walk_eq nm body k, bind_fits]
    split_ifs <;> first | rfl | (exfalso; omega)
  | .forInStatement left right body, k + 1, st => by
    rw [walk, walkResult, walkDepth]
    simp only [walk_eq nm left k, walk_eq nm right k, walk_eq nm body k, bind_fits]
    split_ifs <;> first | rfl | (exfalso; omega)
  | .whileStatement test body, k + 1, st => by
    rw [walk, walkResult, walkDepth]
    simp only [walk_eq nm test k, walk_eq nm body k, bind_fits]
    split_ifs <;> first | rfl | (exfalso; omega)
  | .doWhileStatement body test, k + 1, st => by
    rw [walk, walkResult, walkDepth]
    simp only [walk_eq nm test k, walk_eq nm body k, bind_fits]
    split_ifs <;> first | rfl | (exfalso; omega)
  | .callExpression callee arguments, k + 1, st => by
    rw [walk, walkResult, walkDepth]
    simp only [walk_eq nm callee k, walkList_eq nm arguments k, bind_fits]
    split_ifs <;> first | rfl | (exfalso; omega)
  | .newExpression callee arguments, k + 1, st => by
    rw [walk, walkResult, walkDepth]
    simp only [walk_eq nm callee k, walkList_eq nm arguments k, bind_fits]
    split_ifs <;> first | rfl | (exfalso; omega)
  | .objectExpression properties, k + 1, st => by
    rw [walk, walkResult, walkDepth]
    simp only [walkList_eq nm properties k]
    split_ifs <;> first | rfl | (exfalso; omega)
  | .memberExpression object property, k + 1, st => by
    rw [walk, walkResult, walkDepth]
    simp only [walk_eq nm object k, walk_eq nm property k, bind_fits]
    split_ifs <;> first | rfl | (exfalso; omega)
  | .staticMemberExpression object _ _, k + 1, st => by
    rw [walk, walkResult, walkDepth]
    simp only [walk_eq nm object k]
    split_ifs <;> first | rfl | (exfalso; omega)
  | .identifier _, k + 1, st => by
    rw [walk, walkResult, walkDepth, if_pos (by omega)]
    rfl
  | .other _ children, k + 1, st => by
    rw [walk, walkResult, walkDepth]
    simp only [walkList_eq nm children k]
    split_ifs <;> first | rfl | (exfalso; omega)
theorem walkOpt_eq (nm : List Char) : ∀ (n : Option Node) (k : Nat) (st : WalkState),
    walkOpt nm n k st =
      if walkDepthOpt n ≤ k then .ok (walkResultOpt nm n st) else .error .rangeError
  | none, k, st => by
    rw [walkOpt, walkResultOpt, walkDepthOpt, if_pos (Nat.zero_le k)]
    rfl
  | some n, k, st => by
    rw [walkOpt, walkResultOpt, walkDepthOpt]
    exact walk_eq nm n k st
theorem walkList_eq (nm : List Char) : ∀ (ns : List Node) (k : Nat) (st : WalkState),
    walkList nm ns k st =
      if walkDepthList ns ≤ k then .ok (walkResultList nm ns st) else .error .rangeError
  | [], k, st => by
    rw [walkList, walkResultList, walkDepthList, if_pos (Nat.zero_le k)]
    rfl
  | n :: ns, k, st => by
    rw [walkList, walkResultList, walkDepthList]
    simp only [walk_eq nm n k, walkList_eq nm ns k, bind_fits]
    split_ifs <;> first | rfl | (exfalso; omega)
end

theorem walk_ok_iff (nm : List Char) (n : Node) (k : Nat) (st st' : WalkState) :
    walk nm n k st = .ok st' ↔ walkDepth n ≤ k ∧ st' = walkResult nm n st := by
  rw [walk_eq]
  split_ifs with h
  · simp only [Except.ok.injEq, h, true_and]
    exact eq_comm
  · simp [h]

theorem analyzeJs_of_ok {parse : List Char → Except (Option String) Node} {stack : Nat}
    {code : List Char} {fn : NameArg} {r : Result}
    (h : analyzeComplexity parse stack code fn = .ok r) :
    ∃ ast, parse code = .ok ast ∧
      r.signals.loopCount = (walkResult (normalizeName fn) ast WalkState.init).loopCount ∧
      r.signals.maxNesting = (walkResult (normalizeName fn) ast WalkState.init).maxDepth ∧
      r.signals.sortCalls = (walkResult (normalizeName fn) ast WalkState.init).sortCalls ∧
      r.signals.recursionCalls = (walkResult (normalizeName fn) ast WalkState.init).recursionCalls ∧
      r.signals.hashUsage = (walkResult (normalizeName fn) ast WalkState.init).hashUsage ∧
      r.inferredTimeComplexity =
        inferComplexity r.signals.recursionCalls r.signals.sortCalls r.signals.maxNesting := by
  unfold analyzeComplexity at h
  split at h
  · simp at h
  · rename_i ast hp
    split at h
    · simp at h
    · rename_i state hwalk
      rw [walk_ok_iff] at hwalk
      obtain ⟨_, hstate⟩ := hwalk
      subst hstate
      simp only [Except.ok.injEq] at h
      subst h
      exact ⟨ast, hp, rfl, rfl, rfl, rfl, rfl, rfl⟩

theorem analyzeJs_of_parsed {parse : List Char → Except (Option String) Node} {stack : Nat}
    {code : List Char} (fn : NameArg) {ast : Node} (hp : parse code = .ok ast)
    (hd : walkDepth ast ≤ stack) :
    analyzeComplexity parse stack code fn =
      .ok { signals :=
              { loopCount := (walkResult (normalizeName fn) ast WalkState.init).loopCount,
                maxNesting := (walkResult (normalizeName fn) ast WalkState.init).maxDepth,
                sortCalls := (walkResult (normalizeName fn) ast WalkState.init).sortCalls,
                recursionCalls :=
                  (walkResult (normalizeName fn) ast WalkState.init).recursionCalls,
                hashUsage := (walkResult (normalizeName fn) ast WalkState.init).hashUsage },
            inferredTimeComplexity :=
              inferComplexity (walkResult (normalizeName fn) ast WalkState.init).recursionCalls
                (walkResult (normalizeName fn) ast WalkState.init).sortCalls
                (walkResult (normalizeName fn) ast WalkState.init).maxDepth } := by
  unfold analyzeComplexity
  rw [hp]
  simp only
  rw [walk_eq, if_pos hd]

theorem analyzeJs_of_deep {parse : List Char → Except (Option String) Node} {stack : Nat}
    {code : List Char} (fn : NameArg) {ast : Node} (hp : parse code = .ok ast)
    (hd : stack < walkDepth ast) :
    analyzeComplexity parse stack code fn = .error .rangeError := by
  unfold analyzeComplexity
  rw [hp]
  simp only
  rw [walk_eq, if_neg (by omega)]

theorem analyzeJs_of_ok_tree {parse : List Char → Except (Option String) Node} {stack : Nat}
    {code : List Char} {fn : NameArg} {r : Result} {ast : Node} (hp : parse code = .ok ast)
    (h : analyzeComplexity parse stack code fn = .ok r) :
    r.signals.loopCount = (walkResult (normalizeName fn) ast WalkState.init).loopCount ∧
    r.signals.maxNesting = (walkResult (normalizeName fn) ast WalkState.init).maxDepth ∧
    r.signals.sortCalls = (walkResult (normalizeName fn) ast WalkState.init).sortCalls ∧
    r.signals.recursionCalls = (walkResult (normalizeName fn) ast WalkState.init).recursionCalls ∧
    r.signals.hashUsage = (walkResult (normalizeName fn) ast WalkState.init).hashUsage := by
  obtain ⟨ast', hp', h1, h2, h3, h4, h5, _⟩ := analyzeJs_of_ok h
  rw [hp] at hp'
  cases hp'
  exact ⟨h1, h2, h3, h4, h5⟩

theorem walkDepth_memberChain (k : Nat) : walkDepth (memberChain k) = k + 1 := by
  induction k with
  | zero => rw [memberChain, walkDepth]
  | succ k ih => rw [memberChain, walkDepth, ih]; omega

theorem walkDepth_memberChainTree (k : Nat) : walkDepth (memberChainTree k) = k + 3 := by
  rw [memberChainTree, walkDepth, walkDepthList, walkDepth, walkDepthList, walkDepthList,
    walkDepthList, walkDepth_memberChain]
  omega

/-! ## The tree walk and the loop counters -/

theorem LoopEffect.refl (st : WalkState) : LoopEffect st st 0 0 := by
  simp [LoopEffect]

theorem LoopEffect.trans {a b c : WalkState} {c1 m1 c2 m2 : Nat}
    (h1 : LoopEffect a b c1 m1) (h2 : LoopEffect b c c2 m2) :
    LoopEffect a c (c1 + c2) (max m1 m2) := by
  obtain ⟨h11, h12, h13⟩ := h1
  obtain ⟨h21, h22, h23⟩ := h2
  refine ⟨by omega, by omega, ?_⟩
  rw [h23, h13, h12]
  split_ifs <;> omega

theorem LoopEffect.loop {st st' : WalkState} {c m : Nat}
    (h : LoopEffect (enterLoop st) st' c m) :
    LoopEffect st (leaveLoop st') (1 + c) (1 + m) := by
  obtain ⟨h1, h2, h3⟩ := h
  simp only [enterLoop] at h1 h2 h3
  refine ⟨?_, ?_, ?_⟩
  · simp only [leaveLoop]; omega
  · simp only [leaveLoop]; omega
  · simp only [leaveLoop]
    rw [h3]
    split_ifs <;> omega

theorem LoopEffect.of_eq {a a' b : WalkState} {c m : Nat}
    (hc : a'.loopCount = a.loopCount) (hd : a'.loopDepth = a.loopDepth)
    (hm : a'.maxDepth = a.maxDepth) (h : LoopEffect a' b c m) : LoopEffect a b c m := by
  obtain ⟨h1, h2, h3⟩ := h
  exact ⟨by rw [h1, hc], by rw [h2, hd], by rw [h3, hm, hd]⟩

theorem visitCall_loops (nm : List Char) (callee : Node) (st : WalkState) :
    (visitCall nm callee st).loopCount = st.loopCount ∧
    (visitCall nm callee st).loopDepth = st.loopDepth ∧
    (visitCall nm callee st).maxDepth = st.maxDepth := by
  unfold visitCall
  split <;> split <;> (try split_ifs) <;> simp

theorem visitNew_loops (callee : Node) (st : WalkState) :
    (visitNew callee st).loopCount = st.loopCount ∧
    (visitNew callee st).loopDepth = st.loopDepth ∧
    (visitNew callee st).maxDepth = st.maxDepth := by
  unfold visitNew
  split <;> (try split_ifs) <;> simp

mutual
theorem walk_loops (nm : List Char) : ∀ (n : Node) (st : WalkState),
    LoopEffect st (walkResult nm n st) (countLoops n) (maxLoopPath n)
  | .forStatement init test update body, st => by
    rw [walkResult, countLoops, maxLoopPath]
    exact ((((walkOpt_loops nm init _).trans (walkOpt_loops nm test _)).trans
      (walkOpt_loops nm update _)).trans (walk_loops nm body _)).loop
  | .forOfStatement left right body, st => by
    rw [walkResult, countLoops, maxLoopPath]
    exact (((walk_loops nm left _).trans (walk_loops nm right _)).trans
      (walk_loops nm body _)).loop
  | .forInStatement left right body, st => by
    rw [walkResult, countLoops, maxLoopPath]
    exact (((walk_loops nm left _).trans (walk_loops nm right _)).trans
      (walk_loops nm body _)).loop
  | .whileStatement test body, st => by
    rw [walkResult, countLoops, maxLoopPath]
    exact ((walk_loops nm test _).trans (walk_loops nm body _)).loop
  | .doWhileStatement body test, st => by
    rw [walkResult, countLoops, maxLoopPath]
    exact ((walk_loops nm body _).trans (walk_loops nm test _)).loop
  | .callExpression callee arguments, st => by
    rw [walkResult, countLoops, maxLoopPath]
    obtain ⟨h1, h2, h3⟩ := visitCall_loops nm callee st
    exact LoopEffect.of_eq h1 h2 h3
      ((walk_loops nm callee _).trans (walkList_loops nm arguments _))
  | .newExpression callee arguments, st => by
    rw [walkResult, countLoops, maxLoopPath]
    obtain ⟨h1, h2, h3⟩ := visitNew_loops callee st
    exact LoopEffect.of_eq h1 h2 h3
      ((walk_loops nm callee _).trans (walkList_loops nm arguments _))
  | .objectExpression properties, st => by
    rw [walkResult, countLoops, maxLoopPath]
    exact LoopEffect.of_eq rfl rfl rfl (walkList_loops nm properties _)
  | .memberExpression object property, st => by
    rw [walkResult, countLoops, maxLoopPath]
    exact (walk_loops nm object _).trans (walk_loops nm property _)
  | .staticMemberExpression object _ _, st => by
    rw [walkResult, countLoops, maxLoopPath]
    exact walk_loops nm object _
  | .identifier _, st => by
    rw [walkResult, countLoops, maxLoopPath]
    exact LoopEffect.refl st
  | .other _ children, st => by
    rw [walkResult, countLoops, maxLoopPath]
    exact walkList_loops nm children _
theorem walkOpt_loops (nm : List Char) : ∀ (n : Option Node) (st : WalkState),
    LoopEffect st (walkResultOpt nm n st) (countLoopsOpt n) (maxLoopPathOpt n)
  | none, st => by
    rw [walkResultOpt, countLoopsOpt, maxLoopPathOpt]
    exact LoopEffect.refl st
  | some n, st => by
    rw [walkResultOpt, countLoopsOpt, maxLoopPathOpt]
    exact walk_loops nm n st
theorem walkList_loops (nm : List Char) : ∀ (ns : List Node) (st : WalkState),
    LoopEffect st (walkResultList nm ns st) (countLoopsList ns) (maxLoopPathList ns)
  | [], st => by
    rw [walkResultList, countLoopsList, maxLoopPathList]
    exact LoopEffect.refl st
  | n :: ns, st => by
    rw [walkResultList, countLoopsList, maxLoopPathList]
    exact (walk_loops nm n st).trans (walkList_loops nm ns _)
end

mutual
theorem maxLoopPath_le_countLoops : ∀ (n : Node), maxLoopPath n ≤ countLoops n
  | .forStatement init test update body => by
    have h1 := maxLoopPathOpt_le init
    have h2 := maxLoopPathOpt_le test
    have h3 := maxLoopPathOpt_le update
    have h4 := maxLoopPath_le_countLoops body
    rw [countLoops, maxLoopPath]; omega
  | .forOfStatement left right body => by
    have h1 := maxLoopPath_le_countLoops left
    have h2 := maxLoopPath_le_countLoops right
    have h3 := maxLoopPath_le_countLoops body
    rw [countLoops, maxLoopPath]; omega
  | .forInStatement left right body => by
    have h1 := maxLoopPath_le_countLoops left
    have h2 := maxLoopPath_le_countLoops right
    have h3 := maxLoopPath_le_countLoops body
    rw [countLoops, maxLoopPath]; omega
  | .whileStatement test body => by
    have h1 := maxLoopPath_le_countLoops test
    have h2 := maxLoopPath_le_countLoops body
    rw [countLoops, maxLoopPath]; omega
  | .doWhileStatement body test => by
    have h1 := maxLoopPath_le_countLoops test
    have h2 := maxLoopPath_le_countLoops body
    rw [countLoops, maxLoopPath]; omega
  | .callExpression callee arguments => by
    have h1 := maxLoopPath_le_countLoops callee
    have h2 := maxLoopPathList_le arguments
    rw [countLoops, maxLoopPath]; omega
  | .newExpression callee arguments => by
    have h1 := maxLoopPath_le_countLoops callee
    have h2 := maxLoopPathList_le arguments
    rw [countLoops, maxLoopPath]; omega
  | .objectExpression properties => by
    have h2 := maxLoopPathList_le properties
    rw [countLoops, maxLoopPath]; omega
  | .memberExpression object property => by
    have h1 := maxLoopPath_le_countLoops object
    have h2 := maxLoopPath_le_countLoops property
    rw [countLoops, maxLoopPath]; omega
  | .staticMemberExpression object _ _ => by
    have h1 := maxLoopPath_le_countLoops object
    rw [countLoops, maxLoopPath]; omega
  | .identifier _ => by
    rw [countLoops, maxLoopPath]
  | .other _ children => by
    have h2 := maxLoopPathList_le children
    rw [countLoops, maxLoopPath]; omega
theorem maxLoopPathOpt_le : ∀ (n : Option Node), maxLoopPathOpt n ≤ countLoopsOpt n
  | none => by rw [countLoopsOpt, maxLoopPathOpt]
  | some n => by
    have h := maxLoopPath_le_countLoops n
    rw [countLoopsOpt, maxLoopPathOpt]; exact h
theorem maxLoopPathList_le : ∀ (ns : List Node), maxLoopPathList ns ≤ countLoopsList ns
  | [] => by rw [countLoopsList, maxLoopPathList]
  | n :: ns => by
    have h1 := maxLoopPath_le_countLoops n
    have h2 := maxLoopPathList_le ns
    rw [countLoopsList, maxLoopPathList]; omega
end

theorem walk_init_loops (nm : List Char) (ast : Node) :
    (walkResult nm ast WalkState.init).loopCount = countLoops ast ∧
    (walkResult nm ast WalkState.init).maxDepth = maxLoopPath ast := by
  obtain ⟨h1, _, h3⟩ := walk_loops nm ast WalkState.init
  have e1 : WalkState.init.loopCount = 0 := rfl
  have e2 : WalkState.init.loopDepth = 0 := rfl
  have e3 : WalkState.init.maxDepth = 0 := rfl
  rw [e1] at h1
  rw [e2, e3] at h3
  refine ⟨by omega, ?_⟩
  rw [h3]
  split_ifs <;> omega

/-! ## The tree walk without a target name -/

theorem visitCall_nil_recursion (callee : Node) (st : WalkState) :
    (visitCall [] callee st).recursionCalls = st.recursionCalls := by
  unfold visitCall
  split <;> split <;> (try split_ifs) <;> simp_all

theorem visitNew_recursion (callee : Node) (st : WalkState) :
    (visitNew callee st).recursionCalls = st.recursionCalls := by
  unfold visitNew
  split <;> (try split_ifs) <;> simp

mutual
theorem walk_nil_recursion : ∀ (n : Node) (st : WalkState),
    (walkResult [] n st).recursionCalls = st.recursionCalls
  | .forStatement init test update body, st => by
    rw [walkResult]
    simp [leaveLoop, enterLoop, walk_nil_recursion body, walkOpt_nil_recursion init,
      walkOpt_nil_recursion test, walkOpt_nil_recursion update]
  | .forOfStatement left right body, st => by
    rw [walkResult]
    simp [leaveLoop, enterLoop, walk_nil_recursion body, walk_nil_recursion left,
      walk_nil_recursion right]
  | .forInStatement left right body, st => by
    rw [walkResult]
    simp [leaveLoop, enterLoop, walk_nil_recursion body, walk_nil_recursion left,
      walk_nil_recursion right]
  | .whileStatement test body, st => by
    rw [walkResult]
    simp [leaveLoop, enterLoop, walk_nil_recursion body, walk_nil_recursion test]
  | .doWhileStatement body test, st => by
    rw [walkResult]
    simp [leaveLoop, enterLoop, walk_nil_recursion body, walk_nil_recursion test]
  | .callExpression callee arguments, st => by
    rw [walkResult, walkList_nil_recursion arguments, walk_nil_recursion callee,
      visitCall_nil_recursion]
  | .newExpression callee arguments, st => by
    rw [walkResult, walkList_nil_recursion arguments, walk_nil_recursion callee,
      visitNew_recursion]
  | .objectExpression properties, st => by
    rw [walkResult, walkList_nil_recursion properties]
  | .memberExpression object property, st => by
    rw [walkResult, walk_nil_recursion property, walk_nil_recursion object]
  | .staticMemberExpression object _ _, st => by
    rw [walkResult, walk_nil_recursion object]
  | .identifier _, st => by rw [walkResult]
  | .other _ children, st => by
    rw [walkResult, walkList_nil_recursion children]
theorem walkOpt_nil_recursion : ∀ (n : Option Node) (st : WalkState),
    (walkResultOpt [] n st).recursionCalls = st.recursionCalls
  | none, st => by rw [walkResultOpt]
  | some n, st => by rw [walkResultOpt]; exact walk_nil_recursion n st
theorem walkList_nil_recursion : ∀ (ns : List Node) (st : WalkState),
    (walkResultList [] ns st).recursionCalls = st.recursionCalls
  | [], st => by rw [walkResultList]
  | n :: ns, st => by rw [walkResultList, walkList_nil_recursion ns, walk_nil_recursion n]
end

/-! ## The target name -/

theorem dropWhile_eq_nil_of_all (p : Char → Bool) (s : List Char) (h : s.all p = true) :
    s.dropWhile p = [] := by
  induction s with
  | nil => rfl
  | cons c s ih =>
    simp only [List.all_cons, Bool.and_eq_true] at h
    simp [List.dropWhile, h.1, ih h.2]

theorem normalizeName_of_absent {fn : NameArg} (h : NameAbsent fn) : normalizeName fn = [] := by
  cases fn with
  | undefined => rfl
  | null => rfl
  | str s =>
    simp only [NameAbsent] at h
    simp [normalizeName, trim, dropWhile_eq_nil_of_all _ _ h]


/-! ## One line of the Python scan -/

@[simp] theorem pyUnwind_fields (i : Nat) (s : PyScan) :
    (pyUnwind i s).state = s.state ∧
    (pyUnwind i s).loopStack = s.loopStack.dropWhile (fun top => i ≤ top) ∧
    (pyUnwind i s).currentFunction = s.currentFunction ∧
    (pyUnwind i s).currentFunctionIndent = s.currentFunctionIndent ∧
    (pyUnwind i s).sawDefLine = s.sawDefLine :=
  ⟨rfl, rfl, rfl, rfl, rfl⟩

@[simp] theorem pyLeaveFunction_fields (i : Nat) (s : PyScan) :
    (pyLeaveFunction i s).state = s.state ∧
    (pyLeaveFunction i s).loopStack = s.loopStack ∧
    (pyLeaveFunction i s).sawDefLine = s.sawDefLine := by
  unfold pyLeaveFunction
  split <;> simp

@[simp] theorem pyEnterFunction_fields (line : List Char) (i : Nat) (s : PyScan) :
    (pyEnterFunction line i s).state = s.state ∧
    (pyEnterFunction line i s).loopStack = s.loopStack := by
  unfold pyEnterFunction
  split <;> simp

@[simp] theorem pyDetectLoop_fields (line : List Char) (i : Nat) (s : PyScan) :
    (pyDetectLoop line i s).state.loopCount =
      s.state.loopCount + (if pyIsLoop line then 1 else 0) ∧
    (pyDetectLoop line i s).state.maxNesting =
      (if pyIsLoop line then max s.state.maxNesting (s.loopStack.length + 1)
       else s.state.maxNesting) ∧
    (pyDetectLoop line i s).state.sortCalls = s.state.sortCalls ∧
    (pyDetectLoop line i s).state.recursionCalls = s.state.recursionCalls ∧
    (pyDetectLoop line i s).state.hashUsage = s.state.hashUsage ∧
    (pyDetectLoop line i s).loopStack =
      (if pyIsLoop line then i :: s.loopStack else s.loopStack) ∧
    (pyDetectLoop line i s).currentFunction = s.currentFunction ∧
    (pyDetectLoop line i s).currentFunctionIndent = s.currentFunctionIndent ∧
    (pyDetectLoop line i s).sawDefLine = s.sawDefLine := by
  unfold pyDetectLoop
  split <;> simp

@[simp] theorem pyDetectSort_fields (line : List Char) (s : PyScan) :
    (pyDetectSort line s).state.loopCount = s.state.loopCount ∧
    (pyDetectSort line s).state.maxNesting = s.state.maxNesting ∧
    (pyDetectSort line s).state.sortCalls =
      s.state.sortCalls + (if pyIsSort line then 1 else 0) ∧
    (pyDetectSort line s).state.recursionCalls = s.state.recursionCalls ∧
    (pyDetectSort line s).state.hashUsage = s.state.hashUsage ∧
    (pyDetectSort line s).loopStack = s.loopStack ∧
    (pyDetectSort line s).currentFunction = s.currentFunction ∧
    (pyDetectSort line s).currentFunctionIndent = s.currentFunctionIndent ∧
    (pyDetectSort line s).sawDefLine = s.sawDefLine := by
  unfold pyDetectSort
  split <;> simp

@[simp] theorem pyDetectHash_fields (line : List Char) (s : PyScan) :
    (pyDetectHash line s).state.loopCount = s.state.loopCount ∧
    (pyDetectHash line s).state.maxNesting = s.state.maxNesting ∧
    (pyDetectHash line s).state.sortCalls = s.state.sortCalls ∧
    (pyDetectHash line s).state.recursionCalls = s.state.recursionCalls ∧
    (pyDetectHash line s).state.hashUsage = (s.state.hashUsage || pyIsHash line) ∧
    (pyDetectHash line s).loopStack = s.loopStack ∧
    (pyDetectHash line s).currentFunction = s.currentFunction ∧
    (pyDetectHash line s).currentFunctionIndent = s.currentFunctionIndent ∧
    (pyDetectHash line s).sawDefLine = s.sawDefLine := by
  unfold pyDetectHash
  split <;> simp [*]

@[simp] theorem pyDetectRecursion_fields (nm line : List Char) (s : PyScan) :
    (pyDetectRecursion nm line s).state.loopCount = s.state.loopCount ∧
    (pyDetectRecursion nm line s).state.maxNesting = s.state.maxNesting ∧
    (pyDetectRecursion nm line s).state.sortCalls = s.state.sortCalls ∧
    (pyDetectRecursion nm line s).state.hashUsage = s.state.hashUsage ∧
    (pyDetectRecursion nm line s).loopStack = s.loopStack ∧
    (pyDetectRecursion nm line s).currentFunction = s.currentFunction ∧
    (pyDetectRecursion nm line s).currentFunctionIndent = s.currentFunctionIndent ∧
    (pyDetectRecursion nm line s).sawDefLine = s.sawDefLine := by
  unfold pyDetectRecursion
  split <;> (try split) <;> simp

theorem pyDetectRecursion_nil (line : List Char) (s : PyScan) :
    pyDetectRecursion [] line s = s := by
  simp [pyDetectRecursion]

theorem pyStep_skip (nm : List Char) (s : PyScan) (raw : List Char) (h : pySkip raw = true) :
    pyStep nm s raw = s := by
  simp [pyStep, h]

theorem pyStep_loops (nm : List Char) (s : PyScan) (raw : List Char)
    (h : pySkip raw = false) :
    (pyStep nm s raw).loopStack =
      (if pyIsLoop (trim raw) then
        pyIndent raw :: s.loopStack.dropWhile (fun top => pyIndent raw ≤ top)
      else s.loopStack.dropWhile (fun top => pyIndent raw ≤ top)) ∧
    (pyStep nm s raw).state.loopCount =
      s.state.loopCount + (if pyIsLoop (trim raw) then 1 else 0) ∧
    (pyStep nm s raw).state.maxNesting =
      (if pyIsLoop (trim raw) then
        max s.state.maxNesting
          ((s.loopStack.dropWhile (fun top => pyIndent raw ≤ top)).length + 1)
      else s.state.maxNesting) ∧
    (pyStep nm s raw).state.sortCalls =
      s.state.sortCalls + (if pyIsSort (trim raw) then 1 else 0) ∧
    (pyStep nm s raw).state.hashUsage = (s.state.hashUsage || pyIsHash (trim raw)) := by
  simp [pyStep, h]

theorem pyStep_nil_recursion (s : PyScan) (raw : List Char) :
    (pyStep [] s raw).state.recursionCalls = s.state.recursionCalls := by
  unfold pyStep
  split
  · rfl
  · simp [pyDetectRecursion_nil]

/-! ## The Python scan over many lines -/


theorem foldl_skip {σ : Type} (f : σ → List Char → σ) (skip : List Char → Bool)
    (hskip : ∀ s l, skip l = true → f s l = s) (lines : List (List Char)) (s : σ) :
    lines.foldl f s = (lines.filter fun l => !skip l).foldl f s := by
  induction lines generalizing s with
  | nil => rfl
  | cons l ls ih =>
    cases h : skip l
    · simp [List.filter, h, ih]
    · simp [List.filter, h, hskip s l h, ih]

theorem pyScan_filter (nm : List Char) (lines : List (List Char)) :
    pyScan nm lines = (lines.filter fun l => !pySkip l).foldl (pyStep nm) PyScan.init :=
  foldl_skip (pyStep nm) pySkip (pyStep_skip nm) lines PyScan.init

theorem pyFold_nil_recursion (lines : List (List Char)) (s : PyScan) :
    (lines.foldl (pyStep []) s).state.recursionCalls = s.state.recursionCalls := by
  induction lines generalizing s with
  | nil => rfl
  | cons l ls ih => rw [List.foldl_cons, ih, pyStep_nil_recursion]

theorem pyStep_nesting_le (nm : List Char) (s : PyScan) (raw : List Char)
    (h : s.state.maxNesting ≤ s.state.loopCount ∧ s.loopStack.length ≤ s.state.loopCount) :
    (pyStep nm s raw).state.maxNesting ≤ (pyStep nm s raw).state.loopCount ∧
    (pyStep nm s raw).loopStack.length ≤ (pyStep nm s raw).state.loopCount := by
  cases hs : pySkip raw
  · obtain ⟨h1, h2, h3, _, _⟩ := pyStep_loops nm s raw hs
    have hd := (List.dropWhile_sublist (fun top => decide (pyIndent raw ≤ top)) (l := s.loopStack)).length_le
    rw [h1, h2, h3]
    split_ifs
    · simp only [List.length_cons]; omega
    · omega
  · rw [pyStep_skip nm s raw hs]; exact h

theorem pyFold_nesting_le (nm : List Char) (lines : List (List Char)) (s : PyScan)
    (h : s.state.maxNesting ≤ s.state.loopCount ∧ s.loopStack.length ≤ s.state.loopCount) :
    (lines.foldl (pyStep nm) s).state.maxNesting ≤ (lines.foldl (pyStep nm) s).state.loopCount := by
  induction lines generalizing s with
  | nil => exact h.1
  | cons l ls ih => rw [List.foldl_cons]; exact ih _ (pyStep_nesting_le nm s l h)

theorem pyScan_nesting_le (nm : List Char) (lines : List (List Char)) :
    (pyScan nm lines).state.maxNesting ≤ (pyScan nm lines).state.loopCount :=
  pyFold_nesting_le nm lines PyScan.init ⟨Nat.le_refl _, Nat.le_refl _⟩

theorem pyIsLoop_not_skip (raw : List Char) (h : pyIsLoop (trim raw) = true) :
    pySkip raw = false := by
  unfold pySkip
  generalize trim raw = line at h
  match line, h with
  | [], h => simp [pyIsLoop, stripLit] at h
  | c :: rest, h =>
    by_cases hc : c = '#'
    · subst hc
      simp [pyIsLoop, stripLit, List.isPrefixOf] at h
    · simp [startsWith, List.isPrefixOf]
      exact fun h => hc h.symm

theorem pyDefMatch_not_loop (line : List Char) (h : (pyDefMatch line).isSome = true) :
    pyIsLoop line = false := by
  match line, h with
  | [], h => simp [pyDefMatch, stripLit] at h
  | c :: rest, h =>
    by_cases hc : c = 'd'
    · subst hc
      simp [pyIsLoop, stripLit, List.isPrefixOf]
    · have : stripLit "def".toList (c :: rest) = none := by
        simp [stripLit, List.isPrefixOf]
        intro h; exact absurd h.symm hc
      rw [pyDefMatch, this] at h
      simp at h

/-- The loop counters after a run of loop headers, each indented deeper than
the one before and deeper than the top of the loop stack. -/
theorem pyFold_nested (nm : List Char) :
    ∀ (hs : List (List Char)) (s : PyScan),
      (∀ h ∈ hs, pyIsLoop (trim h) = true) →
      List.Chain' (· < ·) (s.loopStack.head?.toList ++ hs.map pyIndent) →
      (hs.foldl (pyStep nm) s).state.loopCount = s.state.loopCount + hs.length ∧
      (hs.foldl (pyStep nm) s).loopStack.length = s.loopStack.length + hs.length ∧
      (hs.foldl (pyStep nm) s).state.maxNesting =
        (if hs = [] then s.state.maxNesting
         else max s.state.maxNesting (s.loopStack.length + hs.length))
  | [], s, _, _ => by simp
  | h :: hs, s, hl, hc => by
    have hloop := hl h (List.mem_cons_self _ _)
    obtain ⟨h1, h2, h3, _, _⟩ := pyStep_loops nm s h (pyIsLoop_not_skip h hloop)
    rw [hloop] at h1 h2 h3
    simp only [if_true] at h1 h2 h3
    have hdrop : s.loopStack.dropWhile (fun top => decide (pyIndent h ≤ top)) = s.loopStack := by
      cases hst : s.loopStack with
      | nil => rfl
      | cons top rest =>
        rw [hst] at hc
        simp only [List.head?_cons, Option.toList_some, List.map_cons, List.singleton_append,
          List.chain'_cons] at hc
        simp [List.dropWhile, Nat.not_le.mpr hc.1]
    rw [hdrop] at h1 h3
    have hc2 : List.Chain' (· < ·)
        ((pyStep nm s h).loopStack.head?.toList ++ hs.map pyIndent) := by
      rw [h1]
      simp only [List.head?_cons, Option.toList_some, List.singleton_append]
      cases hst : s.loopStack with
      | nil =>
        rw [hst] at hc
        simpa using hc
      | cons top rest =>
        rw [hst] at hc
        simp only [List.head?_cons, Option.toList_some, List.map_cons, List.singleton_append,
          List.chain'_cons] at hc
        exact hc.2
    obtain ⟨i1, i2, i3⟩ := pyFold_nested nm hs (pyStep nm s h)
      (fun x hx => hl x (List.mem_cons_of_mem _ hx)) hc2
    rw [List.foldl_cons, i1, i2, i3, h1, h2, h3]
    simp only [List.length_cons, reduceCtorEq, if_false]
    refine ⟨by omega, by omega, ?_⟩
    split_ifs with hnil
    · subst hnil; simp
    · omega

theorem pyFold_no_loops (nm : List Char) :
    ∀ (ls : List (List Char)) (s : PyScan),
      (∀ l ∈ ls, pySkip l = false → pyIsLoop (trim l) = false) →
      (ls.foldl (pyStep nm) s).state.loopCount = s.state.loopCount ∧
      (ls.foldl (pyStep nm) s).state.maxNesting = s.state.maxNesting
  | [], s, _ => by simp
  | l :: ls, s, hl => by
    obtain ⟨i1, i2⟩ := pyFold_no_loops nm ls (pyStep nm s l)
      (fun x hx => hl x (List.mem_cons_of_mem _ hx))
    rw [List.foldl_cons, i1, i2]
    cases hs : pySkip l
    · obtain ⟨_, h2, h3, _, _⟩ := pyStep_loops nm s l hs
      rw [h2, h3, hl l (List.mem_cons_self _ _) hs]
      simp
    · rw [pyStep_skip nm s l hs]
      exact ⟨rfl, rfl⟩


/-! ## One line of the Java scan -/

@[simp] theorem javaCountBraces_fields (line : List Char) (s : JavaScan) :
    (javaCountBraces line s).state = s.state ∧
    (javaCountBraces line s).loopStack = s.loopStack ∧
    (javaCountBraces line s).braceDepth = s.braceDepth + braceDelta line ∧
    (javaCountBraces line s).currentFunction = s.currentFunction ∧
    (javaCountBraces line s).functionBraceDepth = s.functionBraceDepth ∧
    (javaCountBraces line s).sawMethodDeclaration = s.sawMethodDeclaration :=
  ⟨rfl, rfl, rfl, rfl, rfl, rfl⟩

@[simp] theorem javaUnwind_fields (s : JavaScan) :
    (javaUnwind s).state = s.state ∧
    (javaUnwind s).loopStack = s.loopStack.dropWhile (fun top => s.braceDepth < top) ∧
    (javaUnwind s).braceDepth = s.braceDepth ∧
    (javaUnwind s).currentFunction = s.currentFunction ∧
    (javaUnwind s).functionBraceDepth = s.functionBraceDepth ∧
    (javaUnwind s).sawMethodDeclaration = s.sawMethodDeclaration :=
  ⟨rfl, rfl, rfl, rfl, rfl, rfl⟩

@[simp] theorem javaLeaveFunction_fields (s : JavaScan) :
    (javaLeaveFunction s).state = s.state ∧
    (javaLeaveFunction s).loopStack = s.loopStack ∧
    (javaLeaveFunction s).braceDepth = s.braceDepth ∧
    (javaLeaveFunction s).sawMethodDeclaration = s.sawMethodDeclaration := by
  unfold javaLeaveFunction
  split <;> simp

@[simp] theorem javaEnterFunction_fields (line : List Char) (s : JavaScan) :
    (javaEnterFunction line s).state = s.state ∧
    (javaEnterFunction line s).loopStack = s.loopStack ∧
    (javaEnterFunction line s).braceDepth = s.braceDepth := by
  unfold javaEnterFunction
  split <;> simp

@[simp] theorem javaPushLoop_fields (s : JavaScan) :
    (javaPushLoop s).state.loopCount = s.state.loopCount + 1 ∧
    (javaPushLoop s).state.maxNesting = max s.state.maxNesting (s.loopStack.length + 1) ∧
    (javaPushLoop s).state.sortCalls = s.state.sortCalls ∧
    (javaPushLoop s).state.recursionCalls = s.state.recursionCalls ∧
    (javaPushLoop s).state.hashUsage = s.state.hashUsage ∧
    (javaPushLoop s).loopStack = s.braceDepth :: s.loopStack ∧
    (javaPushLoop s).braceDepth = s.braceDepth ∧
    (javaPushLoop s).currentFunction = s.currentFunction ∧
    (javaPushLoop s).functionBraceDepth = s.functionBraceDepth ∧
    (javaPushLoop s).sawMethodDeclaration = s.sawMethodDeclaration := by
  simp [javaPushLoop]

theorem javaDetectLoop_eq (line : List Char) (s : JavaScan) :
    javaDetectLoop line s = if javaIsLoop line then javaPushLoop s else s := rfl

theorem javaDetectDoWhile_eq (line : List Char) (s : JavaScan) :
    javaDetectDoWhile line s = if javaIsDo line then javaPushLoop s else s := rfl

@[simp] theorem javaDetectSort_fields (line : List Char) (s : JavaScan) :
    (javaDetectSort line s).state.loopCount = s.state.loopCount ∧
    (javaDetectSort line s).state.maxNesting = s.state.maxNesting ∧
    (javaDetectSort line s).state.sortCalls =
      s.state.sortCalls + (if javaIsSort line then 1 else 0) ∧
    (javaDetectSort line s).state.recursionCalls = s.state.recursionCalls ∧
    (javaDetectSort line s).state.hashUsage = s.state.hashUsage ∧
    (javaDetectSort line s).loopStack = s.loopStack ∧
    (javaDetectSort line s).braceDepth = s.braceDepth ∧
    (javaDetectSort line s).currentFunction = s.currentFunction ∧
    (javaDetectSort line s).functionBraceDepth = s.functionBraceDepth ∧
    (javaDetectSort line s).sawMethodDeclaration = s.sawMethodDeclaration := by
  unfold javaDetectSort
  split <;> simp

@[simp] theorem javaDetectHash_fields (line : List Char) (s : JavaScan) :
    (javaDetectHash line s).state.loopCount = s.state.loopCount ∧
    (javaDetectHash line s).state.maxNesting = s.state.maxNesting ∧
    (javaDetectHash line s).state.sortCalls = s.state.sortCalls ∧
    (javaDetectHash line s).state.recursionCalls = s.state.recursionCalls ∧
    (javaDetectHash line s).state.hashUsage = (s.state.hashUsage || javaIsHash line) ∧
    (javaDetectHash line s).loopStack = s.loopStack ∧
    (javaDetectHash line s).braceDepth = s.braceDepth ∧
    (javaDetectHash line s).currentFunction = s.currentFunction ∧
    (javaDetectHash line s).functionBraceDepth = s.functionBraceDepth ∧
    (javaDetectHash line s).sawMethodDeclaration = s.sawMethodDeclaration := by
  unfold javaDetectHash
  split <;> simp [*]

@[simp] theorem javaDetectRecursion_fields (nm line : List Char) (s : JavaScan) :
    (javaDetectRecursion nm line s).state.loopCount = s.state.loopCount ∧
    (javaDetectRecursion nm line s).state.maxNesting = s.state.maxNesting ∧
    (javaDetectRecursion nm line s).state.sortCalls = s.state.sortCalls ∧
    (javaDetectRecursion nm line s).state.hashUsage = s.state.hashUsage ∧
    (javaDetectRecursion nm line s).loopStack = s.loopStack ∧
    (javaDetectRecursion nm line s).braceDepth = s.braceDepth ∧
    (javaDetectRecursion nm line s).currentFunction = s.currentFunction ∧
    (javaDetectRecursion nm line s).functionBraceDepth = s.functionBraceDepth ∧
    (javaDetectRecursion nm line s).sawMethodDeclaration = s.sawMethodDeclaration := by
  unfold javaDetectRecursion
  split <;> (try split) <;> simp

theorem javaDetectRecursion_nil (line : List Char) (s : JavaScan) :
    javaDetectRecursion [] line s = s := by
  simp [javaDetectRecursion]

theorem javaStep_skip (nm : List Char) (s : JavaScan) (raw : List Char)
    (h : javaSkip raw = true) : javaStep nm s raw = s := by
  simp [javaStep, h]

/-- The loop counters after a line that is no loop header. -/
theorem javaStep_plain (nm : List Char) (s : JavaScan) (raw : List Char)
    (h : javaSkip raw = false) (hl : javaIsLoop (trim raw) = false)
    (hd : javaIsDo (trim raw) = false) :
    (javaStep nm s raw).braceDepth = s.braceDepth + braceDelta (trim raw) ∧
    (javaStep nm s raw).loopStack =
      s.loopStack.dropWhile (fun top => s.braceDepth + braceDelta (trim raw) < top) ∧
    (javaStep nm s raw).state.loopCount = s.state.loopCount ∧
    (javaStep nm s raw).state.maxNesting = s.state.maxNesting ∧
    (javaStep nm s raw).state.sortCalls =
      s.state.sortCalls + (if javaIsSort (trim raw) then 1 else 0) := by
  simp [javaStep, h, javaDetectLoop_eq, javaDetectDoWhile_eq, hl, hd]

/-- The loop counters after a `for` or `while` header that is no `do` header. -/
theorem javaStep_loop (nm : List Char) (s : JavaScan) (raw : List Char)
    (h : javaSkip raw = false) (hl : javaIsLoop (trim raw) = true)
    (hd : javaIsDo (trim raw) = false) :
    (javaStep nm s raw).braceDepth = s.braceDepth + braceDelta (trim raw) ∧
    (javaStep nm s raw).loopStack =
      (s.braceDepth + braceDelta (trim raw)) ::
        s.loopStack.dropWhile (fun top => s.braceDepth + braceDelta (trim raw) < top) ∧
    (javaStep nm s raw).state.loopCount = s.state.loopCount + 1 ∧
    (javaStep nm s raw).state.maxNesting =
      max s.state.maxNesting
        ((s.loopStack.dropWhile
          (fun top => s.braceDepth + braceDelta (trim raw) < top)).length + 1) ∧
    (javaStep nm s raw).state.sortCalls =
      s.state.sortCalls + (if javaIsSort (trim raw) then 1 else 0) := by
  simp [javaStep, h, javaDetectLoop_eq, javaDetectDoWhile_eq, hl, hd]

theorem javaStep_nil_recursion (s : JavaScan) (raw : List Char) :
    (javaStep [] s raw).state.recursionCalls = s.state.recursionCalls := by
  unfold javaStep
  split
  · rfl
  · simp only [javaDetectRecursion_nil, javaDetectLoop_eq, javaDetectDoWhile_eq]
    split_ifs <;> simp

theorem javaStep_nesting_le (nm : List Char) (s : JavaScan) (raw : List Char)
    (h : s.state.maxNesting ≤ s.state.loopCount ∧ s.loopStack.length ≤ s.state.loopCount) :
    (javaStep nm s raw).state.maxNesting ≤ (javaStep nm s raw).state.loopCount ∧
    (javaStep nm s raw).loopStack.length ≤ (javaStep nm s raw).state.loopCount := by
  cases hs : javaSkip raw
  · have hd := (List.dropWhile_sublist
      (fun top => decide (s.braceDepth + braceDelta (trim raw) < top))
      (l := s.loopStack)).length_le
    simp only [javaStep, hs, Bool.false_eq_true, if_false, javaDetectLoop_eq,
      javaDetectDoWhile_eq]
    split_ifs <;> simp <;> omega
  · rw [javaStep_skip nm s raw hs]; exact h

/-! ## The Java scan over many lines -/

theorem javaFold_nil_recursion (lines : List (List Char)) (s : JavaScan) :
    (lines.foldl (javaStep []) s).state.recursionCalls = s.state.recursionCalls := by
  induction lines generalizing s with
  | nil => rfl
  | cons l ls ih => rw [List.foldl_cons, ih, javaStep_nil_recursion]

theorem javaFold_nesting_le (nm : List Char) (lines : List (List Char)) (s : JavaScan)
    (h : s.state.maxNesting ≤ s.state.loopCount ∧ s.loopStack.length ≤ s.state.loopCount) :
    (lines.foldl (javaStep nm) s).state.maxNesting ≤
      (lines.foldl (javaStep nm) s).state.loopCount := by
  induction lines generalizing s with
  | nil => exact h.1
  | cons l ls ih => rw [List.foldl_cons]; exact ih _ (javaStep_nesting_le nm s l h)

theorem javaScan_nesting_le (nm : List Char) (lines : List (List Char)) :
    (javaScan nm lines).state.maxNesting ≤ (javaScan nm lines).state.loopCount :=
  javaFold_nesting_le nm lines JavaScan.init ⟨Nat.le_refl _, Nat.le_refl _⟩


/-! ## Runs of lines without loop header or sort call -/

theorem pyFold_no_loops_stack (nm : List Char) :
    ∀ (ls : List (List Char)) (s : PyScan),
      (∀ l ∈ ls, pySkip l = false → pyIsLoop (trim l) = false) →
      (ls.foldl (pyStep nm) s).loopStack <:+ s.loopStack
  | [], s, _ => List.suffix_refl _
  | l :: ls, s, hl => by
    have ih := pyFold_no_loops_stack nm ls (pyStep nm s l)
      (fun x hx => hl x (List.mem_cons_of_mem _ hx))
    rw [List.foldl_cons]
    refine ih.trans ?_
    cases hs : pySkip l
    · rw [(pyStep_loops nm s l hs).1, hl l (List.mem_cons_self _ _) hs]
      exact List.dropWhile_suffix _
    · rw [pyStep_skip nm s l hs]

theorem pyFold_no_sort (nm : List Char) :
    ∀ (ls : List (List Char)) (s : PyScan),
      (∀ l ∈ ls, pyIsSort (trim l) = false) →
      (ls.foldl (pyStep nm) s).state.sortCalls = s.state.sortCalls
  | [], s, _ => rfl
  | l :: ls, s, hl => by
    rw [List.foldl_cons, pyFold_no_sort nm ls _ (fun x hx => hl x (List.mem_cons_of_mem _ hx))]
    cases hs : pySkip l
    · rw [(pyStep_loops nm s l hs).2.2.2.1, hl l (List.mem_cons_self _ _)]
      simp
    · rw [pyStep_skip nm s l hs]

/-- The body of a loop at indent `i`: deeper lines without loop header leave
the loop stack `[i]` and the loop counters as they are. -/
theorem pyFold_body (nm : List Char) (i : Nat) :
    ∀ (bs : List (List Char)) (s : PyScan), s.loopStack = [i] →
      (∀ b ∈ bs, i < pyIndent b ∧ pyIsLoop (trim b) = false) →
      (bs.foldl (pyStep nm) s).loopStack = [i] ∧
      (bs.foldl (pyStep nm) s).state.loopCount = s.state.loopCount ∧
      (bs.foldl (pyStep nm) s).state.maxNesting = s.state.maxNesting
  | [], s, hst, _ => ⟨hst, rfl, rfl⟩
  | b :: bs, s, hst, hb => by
    obtain ⟨hi, hnl⟩ := hb b (List.mem_cons_self _ _)
    have hstep : (pyStep nm s b).loopStack = [i] ∧
        (pyStep nm s b).state.loopCount = s.state.loopCount ∧
        (pyStep nm s b).state.maxNesting = s.state.maxNesting := by
      cases hs : pySkip b
      · obtain ⟨h1, h2, h3, _, _⟩ := pyStep_loops nm s b hs
        rw [h1, h2, h3, hnl, hst]
        simp [List.dropWhile, Nat.not_le.mpr hi]
      · rw [pyStep_skip nm s b hs]; exact ⟨hst, rfl, rfl⟩
    obtain ⟨i1, i2, i3⟩ := pyFold_body nm i bs (pyStep nm s b) hstep.1
      (fun x hx => hb x (List.mem_cons_of_mem _ hx))
    rw [List.foldl_cons, i1, i2, i3]
    exact ⟨rfl, hstep.2.1, hstep.2.2⟩

/-- A run of sibling loops at indent `i`, each a header with its deeper body. -/
theorem pyFold_siblings (nm : List Char) (i : Nat) :
    ∀ (groups : List (List Char × List (List Char))) (s : PyScan),
      (∀ x ∈ s.loopStack, i ≤ x) →
      (∀ g ∈ groups, pyIsLoop (trim g.1) = true ∧ pyIndent g.1 = i ∧
        ∀ b ∈ g.2, i < pyIndent b ∧ pyIsLoop (trim b) = false) →
      ((groups.map fun g => g.1 :: g.2).flatten.foldl (pyStep nm) s).state.loopCount =
        s.state.loopCount + groups.length ∧
      ((groups.map fun g => g.1 :: g.2).flatten.foldl (pyStep nm) s).state.maxNesting =
        (if groups = [] then s.state.maxNesting else max s.state.maxNesting 1)
  | [], s, _, _ => by simp
  | g :: gs, s, hst, hg => by
    obtain ⟨hloop, hind, hb⟩ := hg g (List.mem_cons_self _ _)
    obtain ⟨h1, h2, h3, _, _⟩ := pyStep_loops nm s g.1 (pyIsLoop_not_skip g.1 hloop)
    have hdrop : s.loopStack.dropWhile (fun top => decide (i ≤ top)) = [] := by
      rw [List.dropWhile_eq_nil_iff]
      intro x hx
      simpa using hst x hx
    simp only [hloop, hind, hdrop, if_true, List.length_nil, Nat.zero_add] at h1 h2 h3
    obtain ⟨b1, b2, b3⟩ := pyFold_body nm i g.2 (pyStep nm s g.1) h1 hb
    obtain ⟨i1, i2⟩ := pyFold_siblings nm i gs (g.2.foldl (pyStep nm) (pyStep nm s g.1))
      (by rw [b1]; intro x hx; simp at hx; omega)
      (fun x hx => hg x (List.mem_cons_of_mem _ hx))
    simp only [List.map_cons, List.flatten_cons, List.cons_append, List.foldl_cons,
      List.foldl_append, List.length_cons, reduceCtorEq, if_false]
    rw [i1, i2, b2, b3, h2, h3]
    refine ⟨by omega, ?_⟩
    split_ifs <;> omega

theorem javaStep_sortCalls (nm : List Char) (s : JavaScan) (raw : List Char)
    (h : javaIsSort (trim raw) = false) :
    (javaStep nm s raw).state.sortCalls = s.state.sortCalls := by
  unfold javaStep
  split
  · rfl
  · simp only [javaDetectLoop_eq, javaDetectDoWhile_eq]
    split_ifs <;> simp [h]

theorem javaFold_no_sort (nm : List Char) :
    ∀ (ls : List (List Char)) (s : JavaScan),
      (∀ l ∈ ls, javaIsSort (trim l) = false) →
      (ls.foldl (javaStep nm) s).state.sortCalls = s.state.sortCalls
  | [], s, _ => rfl
  | l :: ls, s, hl => by
    rw [List.foldl_cons,
      javaFold_no_sort nm ls _ (fun x hx => hl x (List.mem_cons_of_mem _ hx)),
      javaStep_sortCalls nm s l (hl l (List.mem_cons_self _ _))]

/-- A run of Java lines without loop header: the loop counters stay, the
brace depth moves by the braces of the scanned lines, and the loop stack only
shrinks. -/
theorem javaFold_plain (nm : List Char) :
    ∀ (ls : List (List Char)) (s : JavaScan),
      (∀ l ∈ ls, javaSkip l = false →
        javaIsLoop (trim l) = false ∧ javaIsDo (trim l) = false) →
      (ls.foldl (javaStep nm) s).state.loopCount = s.state.loopCount ∧
      (ls.foldl (javaStep nm) s).state.maxNesting = s.state.maxNesting ∧
      (ls.foldl (javaStep nm) s).braceDepth =
        s.braceDepth + ((ls.filter fun l => !javaSkip l).map fun l => braceDelta (trim l)).sum ∧
      (ls.foldl (javaStep nm) s).loopStack <:+ s.loopStack
  | [], s, _ => by simp
  | l :: ls, s, hl => by
    obtain ⟨i1, i2, i3, i4⟩ := javaFold_plain nm ls (javaStep nm s l)
      (fun x hx => hl x (List.mem_cons_of_mem _ hx))
    rw [List.foldl_cons, i1, i2, i3]
    cases hs : javaSkip l
    · obtain ⟨hnl, hnd⟩ := hl l (List.mem_cons_self _ _) hs
      obtain ⟨h1, h2, h3, h4, _⟩ := javaStep_plain nm s l hs hnl hnd
      rw [h1, h3, h4]
      refine ⟨rfl, rfl, ?_, ?_⟩
      · simp [List.filter, hs]; omega
      · refine i4.trans ?_
        rw [h2]; exact List.dropWhile_suffix _
    · rw [javaStep_skip nm s l hs] at i4 ⊢
      refine ⟨rfl, rfl, ?_, i4⟩
      simp [List.filter, hs]

/-- A run of block-opening loop headers, each inside the one before. -/
theorem javaFold_nested (nm : List Char) :
    ∀ (hs : List (List Char)) (s : JavaScan),
      (∀ h ∈ hs, JavaBlockHeader h) →
      (∀ top ∈ s.loopStack.head?, top ≤ s.braceDepth) →
      (hs.foldl (javaStep nm) s).state.loopCount = s.state.loopCount + hs.length ∧
      (hs.foldl (javaStep nm) s).state.maxNesting =
        (if hs = [] then s.state.maxNesting
         else max s.state.maxNesting (s.loopStack.length + hs.length))
  | [], s, _, _ => by simp
  | h :: hs, s, hh, htop => by
    obtain ⟨hskip, hloop, hdo, hdelta⟩ := hh h (List.mem_cons_self _ _)
    obtain ⟨h1, h2, h3, h4, _⟩ := javaStep_loop nm s h hskip hloop hdo
    have hdrop : s.loopStack.dropWhile
        (fun top => decide (s.braceDepth + braceDelta (trim h) < top)) = s.loopStack := by
      cases hst : s.loopStack with
      | nil => rfl
      | cons top rest =>
        have := htop top (by simp [hst])
        simp only [List.dropWhile]
        rw [decide_eq_false (by omega)]
    rw [hdrop] at h2 h4
    obtain ⟨i1, i2⟩ := javaFold_nested nm hs (javaStep nm s h)
      (fun x hx => hh x (List.mem_cons_of_mem _ hx))
      (by rw [h2, h1]; simp)
    rw [List.foldl_cons, i1, i2, h2, h3, h4]
    simp only [List.length_cons, reduceCtorEq, if_false]
    refine ⟨by omega, ?_⟩
    split_ifs with hnil
    · subst hnil; simp
    · omega

theorem java_closer (c : List Char) (h : trim c = "\x7d".toList) :
    javaSkip c = false ∧ javaIsLoop (trim c) = false ∧ javaIsDo (trim c) = false ∧
    braceDelta (trim c) = -1 := by
  unfold javaSkip
  rw [h]
  decide

/-! ## The specified properties -/

/-- C1. Recursion dominates the classification: whenever one of the three
analyzers returns a result whose `recursionCalls` is positive, the label is
exactly `"Recursive (depends on recurrence)"`, whatever the other signals. -/
theorem recursion_dominates :
    (∀ (parse : List Char → Except (Option String) Node) (stack : Nat) (code : List Char)
        (fn : NameArg) (r : Result), analyzeComplexity parse stack code fn = .ok r →
        0 < r.signals.recursionCalls →
        r.inferredTimeComplexity = "Recursive (depends on recurrence)") ∧
    (∀ (code : List Char) (fn : NameArg) (r : Result),
        analyzePythonComplexity code fn = .ok r → 0 < r.signals.recursionCalls →
        r.inferredTimeComplexity = "Recursive (depends on recurrence)") ∧
    (∀ (code : List Char) (fn : NameArg) (r : Result),
        analyzeJavaComplexity code fn = .ok r → 0 < r.signals.recursionCalls →
        r.inferredTimeComplexity = "Recursive (depends on recurrence)") := by
  refine ⟨?_, ?_, ?_⟩
  · intro parse stack code fn r h hr
    obtain ⟨_, _, _, _, _, _, _, hl⟩ := analyzeJs_of_ok h
    rw [hl]; exact inferComplexity_of_recursion _ _ _ hr
  · intro code fn r h hr
    rw [(analyzePython_of_ok h).2]; exact inferComplexity_of_recursion _ _ _ hr
  · intro code fn r h hr
    rw [(analyzeJava_of_ok h).2]; exact inferComplexity_of_recursion _ _ _ hr

/-- Witness of C1: a recursive function in each of the three languages. -/
theorem recursion_dominates_witness :
    (analyzeComplexity (fun _ => .ok selfCallTree) 10000
        "function f(n) \x7b return f(n - 1) \x7d".toList
        (.str "f".toList) = .ok ⟨⟨0, 0, 0, 1, false⟩, "Recursive (depends on recurrence)"⟩ ∧
      (0 : Nat) < 1 ∧
      (⟨⟨0, 0, 0, 1, false⟩, "Recursive (depends on recurrence)"⟩ : Result).inferredTimeComplexity
        = "Recursive (depends on recurrence)") ∧
    (analyzePythonComplexity "def f(n):\n    for i in range(n):\n        f(i)".toList
        (.str "f".toList) = .ok ⟨⟨1, 1, 0, 1, false⟩, "Recursive (depends on recurrence)"⟩ ∧
      (0 : Nat) < 1 ∧
      (⟨⟨1, 1, 0, 1, false⟩, "Recursive (depends on recurrence)"⟩ : Result).inferredTimeComplexity
        = "Recursive (depends on recurrence)") ∧
    (analyzeJavaComplexity "public int f(int n) \x7b\n  Arrays.sort(a);\n  return f(n - 1);\n\x7d".toList
        (.str "f".toList) = .ok ⟨⟨0, 0, 1, 1, false⟩, "Recursive (depends on recurrence)"⟩ ∧
      (0 : Nat) < 1 ∧
      (⟨⟨0, 0, 1, 1, false⟩, "Recursive (depends on recurrence)"⟩ : Result).inferredTimeComplexity
        = "Recursive (depends on recurrence)") :=
  ⟨⟨by rfl, by decide, recursion_dominates.1 (fun _ => .ok selfCallTree) 10000
      "function f(n) \x7b return f(n - 1) \x7d".toList (.str "f".toList) _ (by rfl) (by decide)⟩,
   ⟨by rfl, by decide, recursion_dominates.2.1
      "def f(n):\n    for i in range(n):\n        f(i)".toList (.str "f".toList) _ (by rfl)
      (by decide)⟩,
   ⟨by rfl, by decide, recursion_dominates.2.2
      "public int f(int n) \x7b\n  Arrays.sort(a);\n  return f(n - 1);\n\x7d".toList (.str "f".toList) _
      (by rfl) (by decide)⟩⟩

/-- C2. In each of the three analyzers the returned label is the priority
mapping of the specification applied to the returned signals, and that
mapping does not depend on `hashUsage` or `loopCount`. -/
theorem label_is_priority_mapping :
    (∀ (parse : List Char → Except (Option String) Node) (stack : Nat) (code : List Char)
        (fn : NameArg) (r : Result), analyzeComplexity parse stack code fn = .ok r →
        r.inferredTimeComplexity = specLabel r.signals) ∧
    (∀ (code : List Char) (fn : NameArg) (r : Result),
        analyzePythonComplexity code fn = .ok r →
        r.inferredTimeComplexity = specLabel r.signals) ∧
    (∀ (code : List Char) (fn : NameArg) (r : Result),
        analyzeJavaComplexity code fn = .ok r →
        r.inferredTimeComplexity = specLabel r.signals) ∧
    (∀ (s : Signals) (loops : Nat) (hash : Bool),
        specLabel { s with loopCount := loops, hashUsage := hash } = specLabel s) := by
  refine ⟨?_, ?_, ?_, ?_⟩
  · intro parse stack code fn r h
    obtain ⟨_, _, _, _, _, _, _, hl⟩ := analyzeJs_of_ok h
    rw [hl]; exact inferComplexity_eq_specLabel _
  · intro code fn r h
    rw [(analyzePython_of_ok h).2]; exact inferComplexity_eq_specLabel _
  · intro code fn r h
    rw [(analyzeJava_of_ok h).2]; exact inferComplexity_eq_specLabel _
  · intro s loops hash
    rfl

/-- Witness of C2: three sources with a sort call inside two nested loops,
two nested loops, and nothing. -/
theorem label_is_priority_mapping_witness :
    (analyzeComplexity (fun _ => .ok nestedLoopTree) 10000
        "for (;;) \x7b while (x) \x7b\x7d \x7d".toList
        .undefined = .ok ⟨⟨2, 2, 0, 0, false⟩, "O(n^2)"⟩ ∧
      "O(n^2)" = specLabel ⟨2, 2, 0, 0, false⟩) ∧
    (analyzePythonComplexity "for a in b:\n  for c in d:\n    e.sort()".toList .null =
        .ok ⟨⟨2, 2, 1, 0, false⟩, "O(n^k log n)"⟩ ∧
      "O(n^k log n)" = specLabel ⟨2, 2, 1, 0, false⟩) ∧
    (analyzeJavaComplexity "int x = 1;".toList .undefined = .ok ⟨⟨0, 0, 0, 0, false⟩, "O(1)"⟩ ∧
      "O(1)" = specLabel ⟨0, 0, 0, 0, false⟩) :=
  ⟨⟨by rfl, label_is_priority_mapping.1 (fun _ => .ok nestedLoopTree) 10000
      "for (;;) \x7b while (x) \x7b\x7d \x7d".toList .undefined _ (by rfl)⟩,
   ⟨by rfl, label_is_priority_mapping.2.1
      "for a in b:\n  for c in d:\n    e.sort()".toList .null _ (by rfl)⟩,
   ⟨by rfl, label_is_priority_mapping.2.2.1 "int x = 1;".toList .undefined _ (by rfl)⟩⟩

/-- C3, counterexample. The statement `xs.sort()` has no loop and no recursion
in any of the three languages, and every analyzer labels it `"O(n log n)"`,
not `"O(1)"`. -/
theorem no_loops_no_recursion_counterexample :
    (∃ r, analyzeComplexity (fun _ => .ok sortCallTree) 10000 "xs.sort()".toList .undefined =
        .ok r ∧
      r.signals.loopCount = 0 ∧ r.signals.recursionCalls = 0 ∧
      r.inferredTimeComplexity = "O(n log n)" ∧ r.inferredTimeComplexity ≠ "O(1)") ∧
    (∃ r, analyzePythonComplexity "xs.sort()".toList .undefined = .ok r ∧
      r.signals.loopCount = 0 ∧ r.signals.recursionCalls = 0 ∧
      r.inferredTimeComplexity = "O(n log n)" ∧ r.inferredTimeComplexity ≠ "O(1)") ∧
    (∃ r, analyzeJavaComplexity "Arrays.sort(xs);".toList .undefined = .ok r ∧
      r.signals.loopCount = 0 ∧ r.signals.recursionCalls = 0 ∧
      r.inferredTimeComplexity = "O(n log n)" ∧ r.inferredTimeComplexity ≠ "O(1)") :=
  ⟨⟨⟨⟨0, 0, 1, 0, false⟩, "O(n log n)"⟩, by rfl, rfl, rfl, rfl, by decide⟩,
   ⟨⟨⟨0, 0, 1, 0, false⟩, "O(n log n)"⟩, by rfl, rfl, rfl, rfl, by decide⟩,
   ⟨⟨⟨0, 0, 1, 0, false⟩, "O(n log n)"⟩, by rfl, rfl, rfl, rfl, by decide⟩⟩

/-- C3, amended. Whenever one of the three analyzers returns a result with
`loopCount = 0`, `recursionCalls = 0` and `sortCalls = 0`, the label is
`"O(1)"`. -/
theorem no_loops_no_recursion_no_sort :
    (∀ (parse : List Char → Except (Option String) Node) (stack : Nat) (code : List Char)
        (fn : NameArg) (r : Result), analyzeComplexity parse stack code fn = .ok r →
        r.signals.loopCount = 0 →
        r.signals.recursionCalls = 0 → r.signals.sortCalls = 0 →
        r.inferredTimeComplexity = "O(1)") ∧
    (∀ (code : List Char) (fn : NameArg) (r : Result),
        analyzePythonComplexity code fn = .ok r → r.signals.loopCount = 0 →
        r.signals.recursionCalls = 0 → r.signals.sortCalls = 0 →
        r.inferredTimeComplexity = "O(1)") ∧
    (∀ (code : List Char) (fn : NameArg) (r : Result),
        analyzeJavaComplexity code fn = .ok r → r.signals.loopCount = 0 →
        r.signals.recursionCalls = 0 → r.signals.sortCalls = 0 →
        r.inferredTimeComplexity = "O(1)") := by
  refine ⟨?_, ?_, ?_⟩
  · intro parse stack code fn r h hl hr hs
    obtain ⟨ast, _, h1, h2, _, _, _, hlab⟩ := analyzeJs_of_ok h
    obtain ⟨e1, e2⟩ := walk_init_loops (normalizeName fn) ast
    have hle := maxLoopPath_le_countLoops ast
    have hm : r.signals.maxNesting = 0 := by omega
    rw [hlab, hr, hs, hm]; exact inferComplexity_zero
  · intro code fn r h hl hr hs
    obtain ⟨hsig, hlab⟩ := analyzePython_of_ok h
    have hle := pyScan_nesting_le (normalizeName fn) (splitLines code)
    rw [← hsig] at hle
    have hm : r.signals.maxNesting = 0 := by omega
    rw [hlab, hr, hs, hm]; exact inferComplexity_zero
  · intro code fn r h hl hr hs
    obtain ⟨hsig, hlab⟩ := analyzeJava_of_ok h
    have hle := javaScan_nesting_le (normalizeName fn) (splitLines code)
    rw [← hsig] at hle
    have hm : r.signals.maxNesting = 0 := by omega
    rw [hlab, hr, hs, hm]; exact inferComplexity_zero

/-- Witness of the amended C3: a source without loop, recursion or sort call
in each of the three languages. -/
theorem no_loops_no_recursion_no_sort_witness :
    (⟨⟨0, 0, 0, 0, true⟩, "O(1)"⟩ : Result).inferredTimeComplexity = "O(1)" ∧
    (⟨⟨0, 0, 0, 0, false⟩, "O(1)"⟩ : Result).inferredTimeComplexity = "O(1)" ∧
    (⟨⟨0, 0, 0, 0, false⟩, "O(1)"⟩ : Result).inferredTimeComplexity = "O(1)" :=
  ⟨no_loops_no_recursion_no_sort.1
      (fun _ => .ok (.other "Program" [.objectExpression []])) 10000 "(\x7b\x7d)".toList
      .undefined
      ⟨⟨0, 0, 0, 0, true⟩, "O(1)"⟩ (by rfl) rfl rfl rfl,
   no_loops_no_recursion_no_sort.2.1 "x = 1".toList (.str "f".toList)
      ⟨⟨0, 0, 0, 0, false⟩, "O(1)"⟩ (by rfl) rfl rfl rfl,
   no_loops_no_recursion_no_sort.2.2 "int x = 1;".toList .null
      ⟨⟨0, 0, 0, 0, false⟩, "O(1)"⟩ (by rfl) rfl rfl rfl⟩


/-- C4. The Python analyzer measures nesting by indentation: when the scanned
lines of a within-limits source are an optional `def` header, then `k ≥ 1`
loop headers each indented strictly deeper than the one before, then a deeper
line that is no loop header, the call returns `loopCount = k` and
`maxNesting = k`; and the doubly nested example of the specification gives
the signals 2, 2, 0, 0, false and the label `"O(n^2)"`. -/
theorem python_nesting_by_indentation :
    (∀ (k : Nat) (code : List Char) (fn : NameArg) (defLine : Option (List Char))
        (headers : List (List Char)) (body : List Char),
        1 ≤ k → WithinLimits code →
        (splitLines code).filter (fun l => !pySkip l) = defLine.toList ++ headers ++ [body] →
        (∀ d ∈ defLine, (pyDefMatch (trim d)).isSome = true) →
        headers.length = k →
        (∀ h ∈ headers, pyIsLoop (trim h) = true) →
        List.Chain' (· < ·) (headers.map pyIndent ++ [pyIndent body]) →
        pyIsLoop (trim body) = false →
        ∃ r, analyzePythonComplexity code fn = .ok r ∧
          r.signals.loopCount = k ∧ r.signals.maxNesting = k) ∧
    analyzePythonComplexity
      "def f(n):\n    for i in range(n):\n        for j in range(n):\n            pass".toList
      (.str "f".toList) = .ok ⟨⟨2, 2, 0, 0, false⟩, "O(n^2)"⟩ := by
  refine ⟨?_, by rfl⟩
  intro k code fn defLine headers body hk hw hlines hdef hlen hloop hchain hbody
  refine ⟨_, analyzePython_of_within fn hw, ?_⟩
  show (pyScan (normalizeName fn) (splitLines code)).state.loopCount = k ∧
    (pyScan (normalizeName fn) (splitLines code)).state.maxNesting = k
  rw [pyScan_filter, hlines, List.foldl_append, List.foldl_append]
  have hd : ∀ l ∈ defLine.toList, pySkip l = false → pyIsLoop (trim l) = false := by
    intro l hl _
    exact pyDefMatch_not_loop _ (hdef l (by simpa using hl))
  obtain ⟨d1, d2⟩ := pyFold_no_loops (normalizeName fn) defLine.toList PyScan.init hd
  have d3 := pyFold_no_loops_stack (normalizeName fn) defLine.toList PyScan.init hd
  have d4 : (defLine.toList.foldl (pyStep (normalizeName fn)) PyScan.init).loopStack = [] :=
    List.eq_nil_of_suffix_nil d3
  obtain ⟨n1, _, n3⟩ := pyFold_nested (normalizeName fn) headers
    (defLine.toList.foldl (pyStep (normalizeName fn)) PyScan.init) hloop
    (by rw [d4]; exact hchain.left_of_append)
  obtain ⟨b1, b2⟩ := pyFold_no_loops (normalizeName fn) [body]
    (headers.foldl (pyStep (normalizeName fn))
      (defLine.toList.foldl (pyStep (normalizeName fn)) PyScan.init))
    (by intro l hl _; rw [List.mem_singleton.mp hl]; exact hbody)
  rw [b1, b2, n1, n3, d1, d2, d4]
  have hne : headers ≠ [] := by
    intro h; rw [h] at hlen; simp at hlen; omega
  simp only [hne, if_false, List.length_nil, PyScan.init]
  omega

/-- Witness of C4: the example of the specification, as an instance of the
general statement with `k = 2`. -/
theorem python_nesting_by_indentation_witness :
    ∃ r, analyzePythonComplexity
      "def f(n):\n    for i in range(n):\n        for j in range(n):\n            pass".toList
      (.str "f".toList) = .ok r ∧ r.signals.loopCount = 2 ∧ r.signals.maxNesting = 2 :=
  python_nesting_by_indentation.1 2
    "def f(n):\n    for i in range(n):\n        for j in range(n):\n            pass".toList
    (.str "f".toList) (some "def f(n):".toList)
    ["    for i in range(n):".toList, "        for j in range(n):".toList]
    "            pass".toList (by decide) (by decide) (by rfl) (by decide) (by rfl)
    (by decide)
    (by
      have e : List.map pyIndent
          ["    for i in range(n):".toList, "        for j in range(n):".toList] ++
          [pyIndent "            pass".toList] = [4, 8, 12] := by rfl
      rw [e]; simp)
    (by rfl)

/-- C5, counterexample. One loop header followed by a deeper line that is no
loop header and has no sort call, no function name: the header itself holds a
sort call, and the label is `"O(n log n)"`, not `"O(n)"`. -/
theorem python_sibling_loops_counterexample :
    WithinLimits "for x in sorted(xs):\n    total += x".toList ∧
    splitLines "for x in sorted(xs):\n    total += x".toList =
      ["for x in sorted(xs):".toList, "    total += x".toList] ∧
    pyIsLoop (trim "for x in sorted(xs):".toList) = true ∧
    pyIndent "for x in sorted(xs):".toList < pyIndent "    total += x".toList ∧
    pyIsLoop (trim "    total += x".toList) = false ∧
    pyIsSort (trim "    total += x".toList) = false ∧
    analyzePythonComplexity "for x in sorted(xs):\n    total += x".toList .undefined =
      .ok ⟨⟨1, 1, 1, 0, false⟩, "O(n log n)"⟩ :=
  ⟨by decide, by rfl, by rfl, by decide, by rfl, by rfl, by rfl⟩

/-- C5, amended. The Python analyzer does not count sibling loops as nested:
when a within-limits source is made of `k ≥ 1` loop headers all at the same
indent, each followed by one or more strictly deeper lines that are no loop
headers, when no line of the source (headers included) has a sort call and no
function name is given, the call returns `loopCount = k`, `maxNesting = 1` and
the label `"O(n)"`. -/
theorem python_sibling_loops (k : Nat) (code : List Char) (fn : NameArg)
    (groups : List (List Char × List (List Char))) (i : Nat)
    (hk : 1 ≤ k) (hw : WithinLimits code) (hfn : NameAbsent fn)
    (hlines : splitLines code = (groups.map fun g => g.1 :: g.2).flatten)
    (hlen : groups.length = k)
    (hgroups : ∀ g ∈ groups, pyIsLoop (trim g.1) = true ∧ pyIndent g.1 = i ∧ g.2 ≠ [] ∧
      ∀ b ∈ g.2, i < pyIndent b ∧ pyIsLoop (trim b) = false)
    (hsort : ∀ l ∈ splitLines code, pyIsSort (trim l) = false) :
    ∃ r, analyzePythonComplexity code fn = .ok r ∧ r.signals.loopCount = k ∧
      r.signals.maxNesting = 1 ∧ r.inferredTimeComplexity = "O(n)" := by
  refine ⟨_, analyzePython_of_within fn hw, ?_⟩
  have hn := normalizeName_of_absent hfn
  have hs := pyFold_no_sort (normalizeName fn) (splitLines code) PyScan.init hsort
  have hr := pyFold_nil_recursion (splitLines code) PyScan.init
  rw [← hn] at hr
  obtain ⟨h1, h2⟩ := pyFold_siblings (normalizeName fn) i groups PyScan.init
    (by intro x hx; simp [PyScan.init] at hx)
    (fun g hg => ⟨(hgroups g hg).1, (hgroups g hg).2.1, (hgroups g hg).2.2.2⟩)
  rw [← hlines] at h1 h2
  have hne : groups ≠ [] := by
    intro h; rw [h] at hlen; simp at hlen; omega
  simp only [hne, if_false] at h2
  have e1 : (pyScan (normalizeName fn) (splitLines code)).state.loopCount = k := by
    rw [pyScan, h1, hlen]; simp [PyScan.init]
  have e2 : (pyScan (normalizeName fn) (splitLines code)).state.maxNesting = 1 := by
    rw [pyScan, h2]; simp [PyScan.init]
  have e3 : (pyScan (normalizeName fn) (splitLines code)).state.sortCalls = 0 := by
    rw [pyScan, hs]; rfl
  have e4 : (pyScan (normalizeName fn) (splitLines code)).state.recursionCalls = 0 := by
    rw [pyScan, hr]; rfl
  refine ⟨e1, e2, ?_⟩
  show inferComplexity _ _ _ = "O(n)"
  rw [e2, e3, e4]; exact inferComplexity_one

/-- Witness of the amended C5: two sibling loops. -/
theorem python_sibling_loops_witness :
    ∃ r, analyzePythonComplexity
      "for a in xs:\n    s += a\nfor b in ys:\n    t += b\n    u += b".toList .undefined = .ok r ∧
      r.signals.loopCount = 2 ∧ r.signals.maxNesting = 1 ∧ r.inferredTimeComplexity = "O(n)" :=
  python_sibling_loops 2
    "for a in xs:\n    s += a\nfor b in ys:\n    t += b\n    u += b".toList .undefined
    [("for a in xs:".toList, ["    s += a".toList]),
     ("for b in ys:".toList, ["    t += b".toList, "    u += b".toList])] 0
    (by decide) (by decide) (by decide) (by rfl) (by rfl) (by decide) (by decide)

/-- C6, counterexample. Two consecutive `for` loops, neither inside the other,
no sort call, no function name: with single unbraced statements, with blocks
opened on the line after the header, and with blocks opened and closed on the
header line, the Java analyzer returns `maxNesting = 2` and the label
`"O(n^2)"`. -/
theorem java_sibling_loops_counterexample :
    analyzeJavaComplexity
      "for (int i = 0; i < n; i++) a += i;\nfor (int j = 0; j < n; j++) b += j;".toList
      .undefined = .ok ⟨⟨2, 2, 0, 0, false⟩, "O(n^2)"⟩ ∧
    analyzeJavaComplexity
      "for (int i = 0; i < n; i++)\n\x7b\n  a += i;\n\x7d\nfor (int j = 0; j < n; j++)\n\x7b\n  b += j;\n\x7d".toList
      .undefined = .ok ⟨⟨2, 2, 0, 0, false⟩, "O(n^2)"⟩ ∧
    analyzeJavaComplexity
      "for (int i = 0; i < n; i++) \x7b a += i; \x7d\nfor (int j = 0; j < n; j++) \x7b b += j; \x7d".toList
      .undefined = .ok ⟨⟨2, 2, 0, 0, false⟩, "O(n^2)"⟩ :=
  ⟨by rfl, by rfl, by rfl⟩

/-- C6, amended. The Java analyzer does not count sibling loops as nested when
each loop body is a braced block opened on the header line and closed on a
later line: for a within-limits source made of a block-opening loop header,
body lines without loop header whose braces balance, a line `}`, a second
block-opening loop header, body lines without loop header and a line `}`, with
no sort call and no function name given, the call returns `loopCount = 2`,
`maxNesting = 1` and the label `"O(n)"`. -/
theorem java_sibling_loops_braced (code : List Char) (fn : NameArg)
    (header1 header2 : List Char) (body1 body2 : List (List Char)) (close1 close2 : List Char)
    (hw : WithinLimits code) (hfn : NameAbsent fn)
    (hlines : splitLines code = header1 :: body1 ++ close1 :: header2 :: body2 ++ [close2])
    (hh1 : JavaBlockHeader header1) (hh2 : JavaBlockHeader header2)
    (hb1 : ∀ b ∈ body1, javaIsLoop (trim b) = false ∧ javaIsDo (trim b) = false)
    (hb2 : ∀ b ∈ body2, javaIsLoop (trim b) = false ∧ javaIsDo (trim b) = false)
    (hbal : ((body1.filter fun l => !javaSkip l).map fun l => braceDelta (trim l)).sum = 0)
    (hc1 : trim close1 = "\x7d".toList) (hc2 : trim close2 = "\x7d".toList)
    (hsort : ∀ l ∈ splitLines code, javaIsSort (trim l) = false) :
    ∃ r, analyzeJavaComplexity code fn = .ok r ∧ r.signals.loopCount = 2 ∧
      r.signals.maxNesting = 1 ∧ r.inferredTimeComplexity = "O(n)" := by
  refine ⟨_, analyzeJava_of_within fn hw, ?_⟩
  have hn := normalizeName_of_absent hfn
  have hs := javaFold_no_sort (normalizeName fn) (splitLines code) JavaScan.init hsort
  have hr := javaFold_nil_recursion (splitLines code) JavaScan.init
  rw [← hn] at hr
  generalize normalizeName fn = nm at *
  -- the first header
  obtain ⟨a1, a2, a3, a4, _⟩ := javaStep_loop nm JavaScan.init header1 hh1.1 hh1.2.1 hh1.2.2.1
  have i1 : JavaScan.init.braceDepth = 0 := rfl
  have i2 : JavaScan.init.loopStack = [] := rfl
  have i3 : JavaScan.init.state.loopCount = 0 := rfl
  have i4 : JavaScan.init.state.maxNesting = 0 := rfl
  rw [hh1.2.2.2, i1] at a1
  rw [hh1.2.2.2, i1, i2, List.dropWhile_nil] at a2
  rw [i3] at a3
  rw [i2, i4, List.dropWhile_nil, List.length_nil] at a4
  -- its body
  obtain ⟨b1, b2, b3, b4⟩ := javaFold_plain nm body1 (javaStep nm JavaScan.init header1)
    (fun l hl _ => hb1 l hl)
  rw [hbal, a1] at b3
  rw [a2] at b4
  rw [a3] at b1
  rw [a4] at b2
  -- the closing line
  obtain ⟨k1, k2, k3, k4⟩ := java_closer close1 hc1
  obtain ⟨c1, c2, c3, c4, _⟩ := javaStep_plain nm
    (body1.foldl (javaStep nm) (javaStep nm JavaScan.init header1)) close1 k1 k2 k3
  rw [k4, b3] at c1 c2
  have c2' : (javaStep nm (body1.foldl (javaStep nm) (javaStep nm JavaScan.init header1))
      close1).loopStack = [] := by
    rw [c2, List.dropWhile_eq_nil_iff]
    intro x hx
    have := b4.subset hx
    simp at this
    simp [this]
  rw [b1] at c3
  rw [b2] at c4
  -- the second header
  obtain ⟨d1, d2, d3, d4, _⟩ := javaStep_loop nm
    (javaStep nm (body1.foldl (javaStep nm) (javaStep nm JavaScan.init header1)) close1)
    header2 hh2.1 hh2.2.1 hh2.2.2.1
  rw [c2'] at d4
  rw [c3] at d3
  rw [c4] at d4
  -- the rest
  obtain ⟨e1, e2, _, _⟩ := javaFold_plain nm (body2 ++ [close2])
    (javaStep nm (javaStep nm (body1.foldl (javaStep nm) (javaStep nm JavaScan.init header1))
      close1) header2)
    (by
      intro l hl _
      rcases List.mem_append.mp hl with h | h
      · exact hb2 l h
      · rw [List.mem_singleton.mp h]
        exact ⟨(java_closer close2 hc2).2.1, (java_closer close2 hc2).2.2.1⟩)
  rw [d3] at e1
  rw [d4] at e2
  have hfold : (splitLines code).foldl (javaStep nm) JavaScan.init =
      (body2 ++ [close2]).foldl (javaStep nm)
        (javaStep nm (javaStep nm (body1.foldl (javaStep nm)
          (javaStep nm JavaScan.init header1)) close1) header2) := by
    rw [hlines]
    simp [List.foldl_append]
  have f1 : (javaScan nm (splitLines code)).state.loopCount = 2 := by
    rw [javaScan, hfold, e1]
  have f2 : (javaScan nm (splitLines code)).state.maxNesting = 1 := by
    rw [javaScan, hfold, e2]; simp
  have f3 : (javaScan nm (splitLines code)).state.sortCalls = 0 := by
    rw [javaScan, hs]; rfl
  have f4 : (javaScan nm (splitLines code)).state.recursionCalls = 0 := by
    rw [javaScan, hr]; rfl
  refine ⟨f1, f2, ?_⟩
  show inferComplexity _ _ _ = "O(n)"
  rw [f2, f3, f4]; exact inferComplexity_one

/-- Witness of the amended C6: two sibling loops with blocks opened on the
header line. -/
theorem java_sibling_loops_braced_witness :
    ∃ r, analyzeJavaComplexity
      "for (int i = 0; i < n; i++) \x7b\n  a += i;\n\x7d\nfor (int j = 0; j < n; j++) \x7b\n  b += j;\n\x7d".toList
      .undefined = .ok r ∧ r.signals.loopCount = 2 ∧ r.signals.maxNesting = 1 ∧
      r.inferredTimeComplexity = "O(n)" :=
  java_sibling_loops_braced
    "for (int i = 0; i < n; i++) \x7b\n  a += i;\n\x7d\nfor (int j = 0; j < n; j++) \x7b\n  b += j;\n\x7d".toList
    .undefined "for (int i = 0; i < n; i++) \x7b".toList "for (int j = 0; j < n; j++) \x7b".toList
    ["  a += i;".toList] ["  b += j;".toList] "\x7d".toList "\x7d".toList
    (by decide) (by decide) (by rfl) (by decide) (by decide) (by decide) (by decide)
    (by decide) (by rfl) (by rfl) (by decide)

/-- C7. The Java analyzer measures nesting by brace depth: for a within-limits
source made of `k ≥ 1` block-opening loop headers, a line that is no loop
header, and `k` lines `}`, with no sort call and no function name given, the
call returns `loopCount = k` and `maxNesting = k`, and for `k = 2` the label
`"O(n^2)"`. -/
theorem java_nesting_by_braces (k : Nat) (code : List Char) (fn : NameArg)
    (headers : List (List Char)) (statement : List Char) (closers : List (List Char))
    (hk : 1 ≤ k) (hw : WithinLimits code) (hfn : NameAbsent fn)
    (hlines : splitLines code = headers ++ [statement] ++ closers)
    (hlen : headers.length = k) (_hclen : closers.length = k)
    (hhead : ∀ h ∈ headers, JavaBlockHeader h)
    (hstmt : javaIsLoop (trim statement) = false ∧ javaIsDo (trim statement) = false)
    (hclose : ∀ c ∈ closers, trim c = "\x7d".toList)
    (hsort : ∀ l ∈ splitLines code, javaIsSort (trim l) = false) :
    ∃ r, analyzeJavaComplexity code fn = .ok r ∧ r.signals.loopCount = k ∧
      r.signals.maxNesting = k ∧ (k = 2 → r.inferredTimeComplexity = "O(n^2)") := by
  refine ⟨_, analyzeJava_of_within fn hw, ?_⟩
  have hn := normalizeName_of_absent hfn
  have hs := javaFold_no_sort (normalizeName fn) (splitLines code) JavaScan.init hsort
  have hr := javaFold_nil_recursion (splitLines code) JavaScan.init
  rw [← hn] at hr
  generalize normalizeName fn = nm at *
  obtain ⟨n1, n2⟩ := javaFold_nested nm headers JavaScan.init hhead
    (by intro top ht; simp [JavaScan.init] at ht)
  obtain ⟨p1, p2, _, _⟩ := javaFold_plain nm ([statement] ++ closers)
    (headers.foldl (javaStep nm) JavaScan.init)
    (by
      intro l hl _
      rcases List.mem_append.mp hl with h | h
      · rw [List.mem_singleton.mp h]; exact hstmt
      · exact ⟨(java_closer l (hclose l h)).2.1, (java_closer l (hclose l h)).2.2.1⟩)
  have hne : headers ≠ [] := by
    intro h; rw [h] at hlen; simp at hlen; omega
  simp only [hne, if_false] at n2
  have f1 : (javaScan nm (splitLines code)).state.loopCount = k := by
    rw [javaScan, hlines, List.append_assoc, List.foldl_append, p1, n1, hlen]
    simp [JavaScan.init]
  have f2 : (javaScan nm (splitLines code)).state.maxNesting = k := by
    rw [javaScan, hlines, List.append_assoc, List.foldl_append, p2, n2, hlen]
    simp [JavaScan.init]
  have f3 : (javaScan nm (splitLines code)).state.sortCalls = 0 := by
    rw [javaScan, hs]; rfl
  have f4 : (javaScan nm (splitLines code)).state.recursionCalls = 0 := by
    rw [javaScan, hr]; rfl
  refine ⟨f1, f2, ?_⟩
  intro hk2
  show inferComplexity _ _ _ = "O(n^2)"
  rw [f2, f3, f4, hk2]; decide

/-- Witness of C7: two nested loops. -/
theorem java_nesting_by_braces_witness :
    ∃ r, analyzeJavaComplexity
      "for (int i = 0; i < n; i++) \x7b\n  for (int j = 0; j < n; j++) \x7b\n    s += a[i][j];\n  \x7d\n\x7d".toList
      .undefined = .ok r ∧ r.signals.loopCount = 2 ∧ r.signals.maxNesting = 2 ∧
      (2 = 2 → r.inferredTimeComplexity = "O(n^2)") :=
  java_nesting_by_braces 2
    "for (int i = 0; i < n; i++) \x7b\n  for (int j = 0; j < n; j++) \x7b\n    s += a[i][j];\n  \x7d\n\x7d".toList
    .undefined ["for (int i = 0; i < n; i++) \x7b".toList, "  for (int j = 0; j < n; j++) \x7b".toList]
    "    s += a[i][j];".toList ["  \x7d".toList, "\x7d".toList]
    (by decide) (by decide) (by decide) (by rfl) (by rfl) (by rfl) (by decide) (by decide)
    (by decide) (by decide)

/-- C8. For the JavaScript analyzer and every successfully parsed syntax tree:
in a returned result `loopCount` is the number of loop nodes of the tree and
`maxNesting` is the largest number of loop nodes on a path from the root; a
result is returned whenever the call stack has room for the depth of the
tree; and the `loopDepth` counter of the walker has the same value after the
visit of any subtree as before it. -/
theorem js_loop_signals (parse : List Char → Except (Option String) Node) (stack : Nat)
    (code : List Char) (fn : NameArg) (ast : Node) (hp : parse code = .ok ast) :
    (∀ r, analyzeComplexity parse stack code fn = .ok r →
      r.signals.loopCount = countLoops ast ∧ r.signals.maxNesting = maxLoopPath ast) ∧
    (walkDepth ast ≤ stack → ∃ r, analyzeComplexity parse stack code fn = .ok r) ∧
    (∀ (n : Node) (room : Nat) (st st' : WalkState),
      walk (normalizeName fn) n room st = .ok st' → st'.loopDepth = st.loopDepth) := by
  refine ⟨fun r h => ?_, fun hd => ⟨_, analyzeJs_of_parsed fn hp hd⟩,
    fun n room st st' h => ?_⟩
  · obtain ⟨h1, h2, _⟩ := analyzeJs_of_ok_tree hp h
    rw [h1, h2]
    exact walk_init_loops (normalizeName fn) ast
  · rw [walk_ok_iff] at h
    rw [h.2]
    exact (walk_loops _ n st).2.1

/-- Witness of C8: the tree of `for (;;) { while (x) {} }`, two loop nodes on
one path, walked with room for 10000 nested visits. -/
theorem js_loop_signals_witness :
    walkDepth nestedLoopTree ≤ 10000 ∧
    (∃ r, analyzeComplexity (fun _ => .ok nestedLoopTree) 10000
      "for (;;) \x7b while (x) \x7b\x7d \x7d".toList .undefined = .ok r) ∧
    ((⟨⟨2, 2, 0, 0, false⟩, "O(n^2)"⟩ : Result).signals.loopCount = countLoops nestedLoopTree ∧
      (⟨⟨2, 2, 0, 0, false⟩, "O(n^2)"⟩ : Result).signals.maxNesting =
        maxLoopPath nestedLoopTree) :=
  ⟨by decide,
   (js_loop_signals (fun _ => .ok nestedLoopTree) 10000
      "for (;;) \x7b while (x) \x7b\x7d \x7d".toList .undefined nestedLoopTree rfl).2.1
      (by decide),
   (js_loop_signals (fun _ => .ok nestedLoopTree) 10000
      "for (;;) \x7b while (x) \x7b\x7d \x7d".toList .undefined nestedLoopTree rfl).1 _
      (by rfl)⟩

/-- C9. Without a target function name (`undefined`, `null`, empty or
whitespace only) none of the three analyzers reports recursion: a returned
result has `recursionCalls = 0` and its label is not the recursive one. -/
theorem no_name_no_recursion (fn : NameArg) (hfn : NameAbsent fn) :
    (∀ (parse : List Char → Except (Option String) Node) (stack : Nat) (code : List Char)
        (r : Result), analyzeComplexity parse stack code fn = .ok r →
        r.signals.recursionCalls = 0 ∧
        r.inferredTimeComplexity ≠ "Recursive (depends on recurrence)") ∧
    (∀ (code : List Char) (r : Result), analyzePythonComplexity code fn = .ok r →
        r.signals.recursionCalls = 0 ∧
        r.inferredTimeComplexity ≠ "Recursive (depends on recurrence)") ∧
    (∀ (code : List Char) (r : Result), analyzeJavaComplexity code fn = .ok r →
        r.signals.recursionCalls = 0 ∧
        r.inferredTimeComplexity ≠ "Recursive (depends on recurrence)") := by
  have hn := normalizeName_of_absent hfn
  refine ⟨?_, ?_, ?_⟩
  · intro parse stack code r h
    obtain ⟨ast, _, _, _, _, hr, _, hlab⟩ := analyzeJs_of_ok h
    rw [hn, walk_nil_recursion] at hr
    have hr0 : r.signals.recursionCalls = 0 := hr
    refine ⟨hr0, ?_⟩
    rw [hlab, hr0]; exact inferComplexity_ne_recursive _ _
  · intro code r h
    obtain ⟨hsig, hlab⟩ := analyzePython_of_ok h
    have hr0 : r.signals.recursionCalls = 0 := by
      rw [hsig, hn, pyScan, pyFold_nil_recursion]; rfl
    refine ⟨hr0, ?_⟩
    rw [hlab, hr0]; exact inferComplexity_ne_recursive _ _
  · intro code r h
    obtain ⟨hsig, hlab⟩ := analyzeJava_of_ok h
    have hr0 : r.signals.recursionCalls = 0 := by
      rw [hsig, hn, javaScan, javaFold_nil_recursion]; rfl
    refine ⟨hr0, ?_⟩
    rw [hlab, hr0]; exact inferComplexity_ne_recursive _ _

/-- Witness of C9: self-calling functions analysed with a blank name. -/
theorem no_name_no_recursion_witness :
    NameAbsent (.str " \t".toList) ∧
    ((⟨⟨0, 0, 0, 0, false⟩, "O(1)"⟩ : Result).signals.recursionCalls = 0 ∧
      (⟨⟨0, 0, 0, 0, false⟩, "O(1)"⟩ : Result).inferredTimeComplexity ≠
        "Recursive (depends on recurrence)") ∧
    ((⟨⟨0, 0, 0, 0, false⟩, "O(1)"⟩ : Result).signals.recursionCalls = 0 ∧
      (⟨⟨0, 0, 0, 0, false⟩, "O(1)"⟩ : Result).inferredTimeComplexity ≠
        "Recursive (depends on recurrence)") ∧
    ((⟨⟨0, 0, 0, 0, false⟩, "O(1)"⟩ : Result).signals.recursionCalls = 0 ∧
      (⟨⟨0, 0, 0, 0, false⟩, "O(1)"⟩ : Result).inferredTimeComplexity ≠
        "Recursive (depends on recurrence)") :=
  ⟨by decide,
   (no_name_no_recursion (.str " \t".toList) (by decide)).1 (fun _ => .ok selfCallTree) 10000
      "function f(n) \x7b return f(n - 1) \x7d".toList _ (by rfl),
   (no_name_no_recursion (.str " \t".toList) (by decide)).2.1
      "def f(n):\n    return f(n - 1)".toList _ (by rfl),
   (no_name_no_recursion (.str " \t".toList) (by decide)).2.2
      "public int f(int n) \x7b\n  return f(n - 1);\n\x7d".toList _ (by rfl)⟩

/-- C10, evaluation at the failing input. In the source
`def f(n):` / `    return 1` / `f(3)` the call on the last line, at the indent
of the `def` header and so outside the body of `f`, is counted as a self-call:
the function scope is left only at an indent strictly below the header's. -/
theorem python_call_after_body_is_counted :
    analyzePythonComplexity "def f(n):\n    return 1\nf(3)".toList (.str "f".toList) =
      .ok ⟨⟨0, 0, 0, 1, false⟩, "Recursive (depends on recurrence)"⟩ := by
  rfl

/-! ## Trimming and searching -/

theorem trim_eq_rdropWhile (s : List Char) :
    trim s = (s.dropWhile isJsSpace).rdropWhile isJsSpace := rfl

theorem trim_occurs (s : List Char) : trim s <:+: s := by
  rw [trim_eq_rdropWhile]
  exact (List.rdropWhile_prefix _ _).isInfix.trans (List.dropWhile_suffix _).isInfix

theorem trim_eq_nil_iff (s : List Char) : trim s = [] ↔ s.all isJsSpace = true := by
  constructor
  · intro h
    rw [trim_eq_rdropWhile, List.rdropWhile_eq_nil_iff] at h
    have hd : s.dropWhile isJsSpace = [] := by
      cases hs : s.dropWhile isJsSpace with
      | nil => rfl
      | cons c rest =>
        have h1 := List.head?_dropWhile_not isJsSpace s
        rw [hs] at h1 h
        simp only [List.head?_cons, Option.all_some] at h1
        have h2 := h c (List.mem_cons_self _ _)
        rw [h2] at h1
        exact absurd h1 (by decide)
    rw [List.dropWhile_eq_nil_iff] at hd
    simpa using hd
  · intro h
    simp [trim, dropWhile_eq_nil_of_all _ _ h]

theorem guard_blank_iff (code : List Char) :
    (code.isEmpty || (trim code).isEmpty) = true ↔ IsBlank code := by
  unfold IsBlank
  rw [Bool.or_eq_true, List.isEmpty_iff, List.isEmpty_iff, trim_eq_nil_iff]
  constructor
  · rintro (h | h)
    · rw [h]; rfl
    · exact h
  · exact fun h => Or.inr h

theorem trim_head (s : List Char) (c : Char) (h : (s.dropWhile isJsSpace).head? = some c) :
    (trim s).head? = some c := by
  cases hs : s.dropWhile isJsSpace with
  | nil => rw [hs] at h; simp at h
  | cons d rest =>
    rw [hs] at h
    simp only [List.head?_cons, Option.some.injEq] at h
    subst h
    have h1 := List.head?_dropWhile_not isJsSpace s
    rw [hs] at h1
    simp only [List.head?_cons, Option.all_some, Bool.not_eq_true'] at h1
    have hne : trim s ≠ [] := by
      intro hnil
      rw [trim_eq_nil_iff] at hnil
      rw [dropWhile_eq_nil_of_all _ _ hnil] at hs
      exact absurd hs (by simp)
    have hp : trim s <+: d :: rest := by
      rw [trim_eq_rdropWhile, hs]; exact List.rdropWhile_prefix _ _
    cases ht : trim s with
    | nil => exact absurd ht hne
    | cons e t =>
      rw [ht] at hp
      obtain ⟨u, hu⟩ := hp
      simp only [List.cons_append, List.cons.injEq] at hu
      rw [hu.1]; rfl

theorem includes_iff_occurs (s sub : List Char) : includes s sub = true ↔ sub <:+: s := by
  induction s with
  | nil =>
    simp only [includes, List.isEmpty_iff]
    constructor
    · intro h; rw [h]
    · intro h; exact List.eq_nil_of_infix_nil h
  | cons c s ih =>
    simp only [includes, startsWith, Bool.or_eq_true, List.isPrefixOf_iff_prefix, ih]
    exact List.infix_cons_iff.symm

theorem includes_trim (raw sub : List Char) (h : includes (trim raw) sub = true) :
    sub <:+: raw :=
  ((includes_iff_occurs _ _).mp h).trans (trim_occurs raw)

theorem pySkip_of_blank_or_comment (l : List Char) (h : PyBlankOrComment l) :
    pySkip l = true := by
  unfold pySkip
  rcases h with h | h
  · rw [(trim_eq_nil_iff l).mpr h]; rfl
  · have := trim_head l '#' h
    cases ht : trim l with
    | nil => rfl
    | cons c t =>
      rw [ht] at this
      simp only [List.head?_cons, Option.some.injEq] at this
      subst this
      simp [startsWith, List.isPrefixOf]

theorem javaSkip_of_blank_or_comment (l : List Char) (h : JavaBlankOrComment l) :
    javaSkip l = true := by
  unfold javaSkip
  rcases h with h | h | h | h
  · rw [(trim_eq_nil_iff l).mpr h]; rfl
  · rw [h]; simp
  · rw [h]; simp
  · rw [h]; simp

theorem jsLength_replicate_space (n : Nat) : jsLength (List.replicate n ' ') = n := by
  induction n with
  | zero => rfl
  | succ n ih =>
    rw [List.replicate_succ]
    unfold jsLength at ih ⊢
    rw [List.map_cons, List.sum_cons, ih]
    have : (' ').toNat < 0x10000 := by decide
    rw [if_pos this]; omega

theorem jsLength_cons_ascii (c : Char) (s : List Char) (h : c.toNat < 0x10000) :
    jsLength (c :: s) = jsLength s + 1 := by
  unfold jsLength
  rw [List.map_cons, List.sum_cons, if_pos h]; omega

/-! ## The tree walk and the call, sort and hash signals -/

theorem SideEffect.same (st : WalkState) : SideEffect st st 0 false := by
  simp [SideEffect]

theorem SideEffect.andThen {a b c : WalkState} {s1 s2 : Nat} {h1 h2 : Bool}
    (e1 : SideEffect a b s1 h1) (e2 : SideEffect b c s2 h2) :
    SideEffect a c (s1 + s2) (h1 || h2) := by
  obtain ⟨a1, a2⟩ := e1
  obtain ⟨b1, b2⟩ := e2
  exact ⟨by omega, by rw [b2, a2, Bool.or_assoc]⟩

theorem SideEffect.of_same_fields {a a' b : WalkState} {s : Nat} {h : Bool}
    (hs : a'.sortCalls = a.sortCalls) (hh : a'.hashUsage = a.hashUsage)
    (e : SideEffect a' b s h) : SideEffect a b s h := by
  obtain ⟨e1, e2⟩ := e
  exact ⟨by rw [e1, hs], by rw [e2, hh]⟩

theorem SideEffect.inLoop {st st' : WalkState} {s : Nat} {h : Bool}
    (e : SideEffect (enterLoop st) st' s h) : SideEffect st (leaveLoop st') s h := by
  obtain ⟨e1, e2⟩ := e
  exact ⟨e1, e2⟩

theorem visitCall_side (nm : List Char) (callee : Node) (st : WalkState) :
    SideEffect st (visitCall nm callee st) (if isSortCallee callee then 1 else 0) false := by
  unfold visitCall SideEffect
  cases callee with
  | memberExpression object property =>
    cases property <;> simp [calleePropertyName, isSortCallee]
    split_ifs <;> simp
  | staticMemberExpression object name isPrivate =>
    cases isPrivate <;> simp [calleePropertyName, isSortCallee]
    split_ifs <;> simp_all
  | identifier name => simp [isSortCallee]; split_ifs <;> simp
  | _ => simp [isSortCallee]

theorem visitNew_side (callee : Node) (st : WalkState) :
    SideEffect st (visitNew callee st) 0 (isHashCallee callee) := by
  unfold visitNew SideEffect
  cases callee with
  | identifier name =>
    simp only [isHashCallee]
    split_ifs with h
    · rcases h with h | h <;> simp [h]
    · simp only [not_or] at h
      have h1 : name ≠ ['S', 'e', 't'] := h.1
      have h2 : name ≠ ['M', 'a', 'p'] := h.2
      simp [h1, h2]
  | _ => simp [isHashCallee]

mutual
theorem walk_side (nm : List Char) : ∀ (n : Node) (st : WalkState),
    SideEffect st (walkResult nm n st) (countSortCalls n) (hasHashNode n)
  | .forStatement init test update body, st => by
    rw [walkResult, countSortCalls, hasHashNode]
    exact ((((walkOpt_side nm init _).andThen (walkOpt_side nm test _)).andThen
      (walkOpt_side nm update _)).andThen (walk_side nm body _)).inLoop
  | .forOfStatement left right body, st => by
    rw [walkResult, countSortCalls, hasHashNode]
    exact (((walk_side nm left _).andThen (walk_side nm right _)).andThen
      (walk_side nm body _)).inLoop
  | .forInStatement left right body, st => by
    rw [walkResult, countSortCalls, hasHashNode]
    exact (((walk_side nm left _).andThen (walk_side nm right _)).andThen
      (walk_side nm body _)).inLoop
  | .whileStatement test body, st => by
    rw [walkResult, countSortCalls, hasHashNode]
    exact ((walk_side nm test _).andThen (walk_side nm body _)).inLoop
  | .doWhileStatement body test, st => by
    rw [walkResult, countSortCalls, hasHashNode]
    exact ((walk_side nm body _).andThen (walk_side nm test _)).inLoop
  | .callExpression callee arguments, st => by
    rw [walkResult, countSortCalls, hasHashNode]
    have h := (visitCall_side nm callee st).andThen
      ((walk_side nm callee _).andThen (walkList_side nm arguments _))
    rw [Bool.false_or] at h
    exact h
  | .newExpression callee arguments, st => by
    rw [walkResult, countSortCalls, hasHashNode]
    have h := (visitNew_side callee st).andThen
      ((walk_side nm callee _).andThen (walkList_side nm arguments _))
    rw [Nat.zero_add] at h
    exact h
  | .objectExpression properties, st => by
    rw [walkResult, countSortCalls, hasHashNode]
    obtain ⟨h1, h2⟩ := walkList_side nm properties { st with hashUsage := true }
    exact ⟨h1, by rw [h2]; simp⟩
  | .memberExpression object property, st => by
    rw [walkResult, countSortCalls, hasHashNode]
    exact (walk_side nm object _).andThen (walk_side nm property _)
  | .staticMemberExpression object _ _, st => by
    rw [walkResult, countSortCalls, hasHashNode]
    exact walk_side nm object _
  | .identifier _, st => by
    rw [walkResult, countSortCalls, hasHashNode]
    exact SideEffect.same st
  | .other _ children, st => by
    rw [walkResult, countSortCalls, hasHashNode]
    exact walkList_side nm children _
theorem walkOpt_side (nm : List Char) : ∀ (n : Option Node) (st : WalkState),
    SideEffect st (walkResultOpt nm n st) (countSortCallsOpt n) (hasHashNodeOpt n)
  | none, st => by
    rw [walkResultOpt, countSortCallsOpt, hasHashNodeOpt]
    exact SideEffect.same st
  | some n, st => by
    rw [walkResultOpt, countSortCallsOpt, hasHashNodeOpt]
    exact walk_side nm n st
theorem walkList_side (nm : List Char) : ∀ (ns : List Node) (st : WalkState),
    SideEffect st (walkResultList nm ns st) (countSortCallsList ns) (hasHashNodeList ns)
  | [], st => by
    rw [walkResultList, countSortCallsList, hasHashNodeList]
    exact SideEffect.same st
  | n :: ns, st => by
    rw [walkResultList, countSortCallsList, hasHashNodeList]
    exact (walk_side nm n st).andThen (walkList_side nm ns _)
end

theorem visitCall_recursion (nm : List Char) (hnm : nm ≠ []) (callee : Node)
    (st : WalkState) :
    (visitCall nm callee st).recursionCalls =
      st.recursionCalls + (if isSelfCallee nm callee then 1 else 0) := by
  have he : nm.isEmpty = false := by
    cases nm with
    | nil => exact absurd rfl hnm
    | cons c t => rfl
  unfold visitCall
  cases callee with
  | identifier name =>
    simp only [isSelfCallee, he, Bool.not_false, Bool.true_and]
    split_ifs <;> simp_all
  | memberExpression object property =>
    simp only [isSelfCallee, Bool.false_eq_true, if_false, Nat.add_zero]
    split_ifs <;> rfl
  | staticMemberExpression object name isPrivate =>
    simp only [isSelfCallee, Bool.false_eq_true, if_false, Nat.add_zero]
    split_ifs <;> rfl
  | _ => simp [isSelfCallee]

mutual
theorem walk_recursion (nm : List Char) (hnm : nm ≠ []) : ∀ (n : Node) (st : WalkState),
    (walkResult nm n st).recursionCalls = st.recursionCalls + countSelfCalls nm n
  | .forStatement init test update body, st => by
    rw [walkResult, countSelfCalls]
    simp only [leaveLoop]
    rw [walk_recursion nm hnm body, walkOpt_recursion nm hnm update,
      walkOpt_recursion nm hnm test, walkOpt_recursion nm hnm init]
    simp only [enterLoop]; omega
  | .forOfStatement left right body, st => by
    rw [walkResult, countSelfCalls]
    simp only [leaveLoop]
    rw [walk_recursion nm hnm body, walk_recursion nm hnm right, walk_recursion nm hnm left]
    simp only [enterLoop]; omega
  | .forInStatement left right body, st => by
    rw [walkResult, countSelfCalls]
    simp only [leaveLoop]
    rw [walk_recursion nm hnm body, walk_recursion nm hnm right, walk_recursion nm hnm left]
    simp only [enterLoop]; omega
  | .whileStatement test body, st => by
    rw [walkResult, countSelfCalls]
    simp only [leaveLoop]
    rw [walk_recursion nm hnm body, walk_recursion nm hnm test]
    simp only [enterLoop]; omega
  | .doWhileStatement body test, st => by
    rw [walkResult, countSelfCalls]
    simp only [leaveLoop]
    rw [walk_recursion nm hnm test, walk_recursion nm hnm body]
    simp only [enterLoop]; omega
  | .callExpression callee arguments, st => by
    rw [walkResult, countSelfCalls, walkList_recursion nm hnm arguments,
      walk_recursion nm hnm callee, visitCall_recursion nm hnm]
    omega
  | .newExpression callee arguments, st => by
    rw [walkResult, countSelfCalls, walkList_recursion nm hnm arguments,
      walk_recursion nm hnm callee, visitNew_recursion]
    omega
  | .objectExpression properties, st => by
    rw [walkResult, countSelfCalls, walkList_recursion nm hnm properties]
  | .memberExpression object property, st => by
    rw [walkResult, countSelfCalls, walk_recursion nm hnm property, walk_recursion nm hnm object]
    omega
  | .staticMemberExpression object _ _, st => by
    rw [walkResult, countSelfCalls, walk_recursion nm hnm object]
  | .identifier _, st => by rw [walkResult, countSelfCalls]; rfl
  | .other _ children, st => by
    rw [walkResult, countSelfCalls, walkList_recursion nm hnm children]
theorem walkOpt_recursion (nm : List Char) (hnm : nm ≠ []) :
    ∀ (n : Option Node) (st : WalkState),
    (walkResultOpt nm n st).recursionCalls = st.recursionCalls + countSelfCallsOpt nm n
  | none, st => by rw [walkResultOpt, countSelfCallsOpt]; rfl
  | some n, st => by rw [walkResultOpt, countSelfCallsOpt]; exact walk_recursion nm hnm n st
theorem walkList_recursion (nm : List Char) (hnm : nm ≠ []) :
    ∀ (ns : List Node) (st : WalkState),
    (walkResultList nm ns st).recursionCalls = st.recursionCalls + countSelfCallsList nm ns
  | [], st => by rw [walkResultList, countSelfCallsList]; rfl
  | n :: ns, st => by
    rw [walkResultList, countSelfCallsList, walkList_recursion nm hnm ns, walk_recursion nm hnm n]
    omega
end

/-! ## The declaration line and the recursion counter -/

theorem pyEnterFunction_sawDefLine (line : List Char) (i : Nat) (s : PyScan) :
    (pyEnterFunction line i s).sawDefLine = (s.sawDefLine || (pyDefMatch line).isSome) := by
  unfold pyEnterFunction
  split <;> simp [*]

theorem pyDetectRecursion_recursionCalls (nm line : List Char) (s : PyScan) :
    (pyDetectRecursion nm line s).state.recursionCalls =
      s.state.recursionCalls +
        (if (!nm.isEmpty && decide (s.currentFunction = some nm) && !s.sawDefLine &&
            includes line (nm ++ "(".toList)) = true then 1 else 0) := by
  unfold pyDetectRecursion
  split_ifs <;> simp_all

theorem pyStep_recursion_unchanged (nm : List Char) (s : PyScan) (raw : List Char)
    (h : (pyDefMatch (trim raw)).isSome = true ∨ includes (trim raw) (callText nm) = false) :
    (pyStep nm s raw).state.recursionCalls = s.state.recursionCalls := by
  unfold pyStep
  split
  · rfl
  · simp only [pyDetectRecursion_recursionCalls, pyDetectHash_fields, pyDetectSort_fields,
      pyDetectLoop_fields, pyEnterFunction_sawDefLine, pyEnterFunction_fields,
      pyLeaveFunction_fields, pyUnwind_fields]
    rcases h with h | h
    · simp [h]
    · have h2 : includes (trim raw) (nm ++ ['(']) = false := h
      simp [h2]

theorem pyFold_recursion_unchanged (nm : List Char) :
    ∀ (ls : List (List Char)) (s : PyScan),
      (∀ l ∈ ls, (pyDefMatch (trim l)).isSome = true ∨ includes (trim l) (callText nm) = false) →
      (ls.foldl (pyStep nm) s).state.recursionCalls = s.state.recursionCalls
  | [], _, _ => rfl
  | l :: ls, s, h => by
    rw [List.foldl_cons,
      pyFold_recursion_unchanged nm ls _ (fun x hx => h x (List.mem_cons_of_mem _ hx)),
      pyStep_recursion_unchanged nm s l (h l (List.mem_cons_self _ _))]

theorem javaEnterFunction_sawMethodDeclaration (line : List Char) (s : JavaScan) :
    (javaEnterFunction line s).sawMethodDeclaration =
      (s.sawMethodDeclaration || (javaMethodMatch line).isSome) := by
  unfold javaEnterFunction
  split <;> simp [*]

theorem javaDetectRecursion_recursionCalls (nm line : List Char) (s : JavaScan) :
    (javaDetectRecursion nm line s).state.recursionCalls =
      s.state.recursionCalls +
        (if (!nm.isEmpty && decide (s.currentFunction = some nm) && !s.sawMethodDeclaration &&
            includes line (nm ++ "(".toList)) = true then 1 else 0) := by
  unfold javaDetectRecursion
  split_ifs <;> simp_all

theorem javaStep_recursion_unchanged (nm : List Char) (s : JavaScan) (raw : List Char)
    (h : (javaMethodMatch (trim raw)).isSome = true ∨
      includes (trim raw) (callText nm) = false) :
    (javaStep nm s raw).state.recursionCalls = s.state.recursionCalls := by
  unfold javaStep
  split
  · rfl
  · simp only [javaDetectRecursion_recursionCalls, javaDetectHash_fields,
      javaDetectSort_fields, javaDetectLoop_eq, javaDetectDoWhile_eq]
    have hflag : ∀ t : JavaScan,
        (if javaIsDo (trim raw) = true then
          javaPushLoop (if javaIsLoop (trim raw) = true then javaPushLoop t else t)
         else (if javaIsLoop (trim raw) = true then javaPushLoop t else t)).sawMethodDeclaration
          = t.sawMethodDeclaration ∧
        (if javaIsDo (trim raw) = true then
          javaPushLoop (if javaIsLoop (trim raw) = true then javaPushLoop t else t)
         else (if javaIsLoop (trim raw) = true then javaPushLoop t else t)).state.recursionCalls
          = t.state.recursionCalls := by
      intro t
      split_ifs <;> simp
    rw [(hflag _).1, (hflag _).2]
    simp only [javaEnterFunction_sawMethodDeclaration, javaEnterFunction_fields,
      javaLeaveFunction_fields, javaUnwind_fields, javaCountBraces_fields]
    rcases h with h | h
    · simp [h]
    · have h2 : includes (trim raw) (nm ++ ['(']) = false := h
      simp [h2]

theorem javaFold_recursion_unchanged (nm : List Char) :
    ∀ (ls : List (List Char)) (s : JavaScan),
      (∀ l ∈ ls, (javaMethodMatch (trim l)).isSome = true ∨
        includes (trim l) (callText nm) = false) →
      (ls.foldl (javaStep nm) s).state.recursionCalls = s.state.recursionCalls
  | [], _, _ => rfl
  | l :: ls, s, h => by
    rw [List.foldl_cons,
      javaFold_recursion_unchanged nm ls _ (fun x hx => h x (List.mem_cons_of_mem _ hx)),
      javaStep_recursion_unchanged nm s l (h l (List.mem_cons_self _ _))]

theorem not_includes_trim (raw sub : List Char) (h : ¬ sub <:+: raw) :
    includes (trim raw) sub = false := by
  cases hi : includes (trim raw) sub
  · rfl
  · exact absurd (includes_trim raw sub hi) h

/-- C11. The declaration line is excluded from recursion counting in both
line-oriented analyzers: when every line of a within-limits source that holds
the text `<name>(` (the name as the analyzer trims it) is recognised as a
function header - by the `def` pattern in Python, by the method pattern in
Java - the call returns `recursionCalls = 0`; so do the two one-line examples. -/
theorem declaration_line_excluded :
    (∀ (code : List Char) (fn : NameArg), WithinLimits code →
        (∀ l ∈ splitLines code, callText (normalizeName fn) <:+: l →
          (pyDefMatch (trim l)).isSome = true) →
        ∃ r, analyzePythonComplexity code fn = .ok r ∧ r.signals.recursionCalls = 0) ∧
    (∀ (code : List Char) (fn : NameArg), WithinLimits code →
        (∀ l ∈ splitLines code, callText (normalizeName fn) <:+: l →
          (javaMethodMatch (trim l)).isSome = true) →
        ∃ r, analyzeJavaComplexity code fn = .ok r ∧ r.signals.recursionCalls = 0) ∧
    analyzePythonComplexity "def f(n): return f(n - 1)".toList (.str "f".toList) =
      .ok ⟨⟨0, 0, 0, 0, false⟩, "O(1)"⟩ ∧
    analyzeJavaComplexity "public int f(int n) \x7b return f(n - 1); \x7d".toList
      (.str "f".toList) = .ok ⟨⟨0, 0, 0, 0, false⟩, "O(1)"⟩ := by
  refine ⟨?_, ?_, by rfl, by rfl⟩
  · intro code fn hw h
    refine ⟨_, analyzePython_of_within fn hw, ?_⟩
    show (pyScan (normalizeName fn) (splitLines code)).state.recursionCalls = 0
    rw [pyScan, pyFold_recursion_unchanged]
    · rfl
    · intro l hl
      by_cases hi : callText (normalizeName fn) <:+: l
      · exact Or.inl (h l hl hi)
      · exact Or.inr (not_includes_trim l _ hi)
  · intro code fn hw h
    refine ⟨_, analyzeJava_of_within fn hw, ?_⟩
    show (javaScan (normalizeName fn) (splitLines code)).state.recursionCalls = 0
    rw [javaScan, javaFold_recursion_unchanged]
    · rfl
    · intro l hl
      by_cases hi : callText (normalizeName fn) <:+: l
      · exact Or.inl (h l hl hi)
      · exact Or.inr (not_includes_trim l _ hi)

/-- Witness of C11: the two one-line examples, as instances of the general
statements. -/
theorem declaration_line_excluded_witness :
    (∃ r, analyzePythonComplexity "def f(n): return f(n - 1)".toList (.str "f".toList) = .ok r ∧
      r.signals.recursionCalls = 0) ∧
    (∃ r, analyzeJavaComplexity "public int f(int n) \x7b return f(n - 1); \x7d".toList
      (.str "f".toList) = .ok r ∧ r.signals.recursionCalls = 0) :=
  ⟨declaration_line_excluded.1 "def f(n): return f(n - 1)".toList (.str "f".toList)
      (by decide)
      (fun l hl _ => by
        have hs : splitLines "def f(n): return f(n - 1)".toList =
            ["def f(n): return f(n - 1)".toList] := by rfl
        rw [hs, List.mem_singleton] at hl
        rw [hl]; rfl),
   declaration_line_excluded.2.1 "public int f(int n) \x7b return f(n - 1); \x7d".toList
      (.str "f".toList) (by decide)
      (fun l hl _ => by
        have hs : splitLines "public int f(int n) \x7b return f(n - 1); \x7d".toList =
            ["public int f(int n) \x7b return f(n - 1); \x7d".toList] := by rfl
        rw [hs, List.mem_singleton] at hl
        rw [hl]; rfl)⟩

/-! ## The guards of the line-oriented analyzers -/

theorem analyzePython_blank (code : List Char) (fn : NameArg) (h : IsBlank code) :
    analyzePythonComplexity code fn = .error "No code provided" := by
  unfold analyzePythonComplexity
  rw [if_pos ((guard_blank_iff code).mpr h)]

theorem analyzeJava_blank (code : List Char) (fn : NameArg) (h : IsBlank code) :
    analyzeJavaComplexity code fn = .error "No code provided" := by
  unfold analyzeJavaComplexity
  rw [if_pos ((guard_blank_iff code).mpr h)]

theorem analyzePython_too_long (code : List Char) (fn : NameArg) (h : ¬ IsBlank code)
    (hl : 30000 < jsLength code) :
    analyzePythonComplexity code fn = .error "Snippet too large (max 30k characters)" := by
  unfold analyzePythonComplexity
  rw [if_neg (fun hb => h ((guard_blank_iff code).mp hb)), if_pos hl]

theorem analyzeJava_too_long (code : List Char) (fn : NameArg) (h : ¬ IsBlank code)
    (hl : 30000 < jsLength code) :
    analyzeJavaComplexity code fn = .error "Snippet too large (max 30k characters)" := by
  unfold analyzeJavaComplexity
  rw [if_neg (fun hb => h ((guard_blank_iff code).mp hb)), if_pos hl]

theorem analyzePython_too_many_lines (code : List Char) (fn : NameArg) (h : ¬ IsBlank code)
    (hl : jsLength code ≤ 30000) (hn : 1500 < (splitLines code).length) :
    analyzePythonComplexity code fn = .error "Snippet too large (max 1500 lines)" := by
  unfold analyzePythonComplexity
  rw [if_neg (fun hb => h ((guard_blank_iff code).mp hb)), if_neg (by omega)]
  simp only
  rw [if_pos hn]

theorem analyzeJava_too_many_lines (code : List Char) (fn : NameArg) (h : ¬ IsBlank code)
    (hl : jsLength code ≤ 30000) (hn : 1500 < (splitLines code).length) :
    analyzeJavaComplexity code fn = .error "Snippet too large (max 1500 lines)" := by
  unfold analyzeJavaComplexity
  rw [if_neg (fun hb => h ((guard_blank_iff code).mp hb)), if_neg (by omega)]
  simp only
  rw [if_pos hn]

theorem withinLimits_iff (code : List Char) :
    WithinLimits code ↔
      ¬ IsBlank code ∧ jsLength code ≤ 30000 ∧ (splitLines code).length ≤ 1500 := by
  unfold WithinLimits
  rw [← guard_blank_iff, Bool.not_eq_true]

theorem splitLines_newline (rest : List Char) :
    splitLines ('\n' :: rest) = [] :: splitLines rest := by
  cases rest with
  | nil => rfl
  | cons d rest => rw [splitLines]; simp

theorem splitLines_replicate_newline (n : Nat) (s : List Char) :
    splitLines (List.replicate n '\n' ++ s) = List.replicate n [] ++ splitLines s := by
  induction n with
  | zero => rfl
  | succ n ih =>
    rw [List.replicate_succ, List.cons_append, splitLines_newline, ih, List.replicate_succ,
      List.cons_append]

theorem jsLength_append (s t : List Char) : jsLength (s ++ t) = jsLength s + jsLength t := by
  unfold jsLength
  rw [List.map_append, List.sum_append]

theorem jsLength_replicate_newline (n : Nat) : jsLength (List.replicate n '\n') = n := by
  induction n with
  | zero => rfl
  | succ n ih =>
    rw [List.replicate_succ, jsLength_cons_ascii _ _ (by decide), ih]

/-- The facts about a source of `n` empty lines followed by the line `x`. -/
theorem newlines_then_x (n : Nat) :
    ¬ IsBlank (List.replicate n '\n' ++ ['x']) ∧
    jsLength (List.replicate n '\n' ++ ['x']) = n + 1 ∧
    (splitLines (List.replicate n '\n' ++ ['x'])).length = n + 1 := by
  refine ⟨?_, ?_, ?_⟩
  · unfold IsBlank
    rw [List.all_append]
    have : (['x'].all isJsSpace) = false := by decide
    rw [this, Bool.and_false]
    decide
  · rw [jsLength_append, jsLength_replicate_newline]
    rfl
  · rw [splitLines_replicate_newline, List.length_append, List.length_replicate]
    rfl

/-- C12. The line-oriented analyzers reject empty input: for every source that
is empty or whitespace only, and any function name, both fail with the message
`"No code provided"` and return no result. -/
theorem empty_input_rejected (code : List Char) (fn : NameArg) (h : IsBlank code) :
    analyzePythonComplexity code fn = .error "No code provided" ∧
    analyzeJavaComplexity code fn = .error "No code provided" ∧
    (∀ r, analyzePythonComplexity code fn ≠ .ok r) ∧
    (∀ r, analyzeJavaComplexity code fn ≠ .ok r) := by
  refine ⟨analyzePython_blank code fn h, analyzeJava_blank code fn h, ?_, ?_⟩
  · intro r; rw [analyzePython_blank code fn h]; exact fun hc => by cases hc
  · intro r; rw [analyzeJava_blank code fn h]; exact fun hc => by cases hc

/-- Witness of C12: a source of spaces, a tab and line breaks. -/
theorem empty_input_rejected_witness :
    IsBlank "  \t\r\n \n".toList ∧
    analyzePythonComplexity "  \t\r\n \n".toList (.str "f".toList) = .error "No code provided" ∧
    analyzeJavaComplexity "  \t\r\n \n".toList (.str "f".toList) = .error "No code provided" ∧
    (∀ r, analyzePythonComplexity "  \t\r\n \n".toList (.str "f".toList) ≠ .ok r) ∧
    (∀ r, analyzeJavaComplexity "  \t\r\n \n".toList (.str "f".toList) ≠ .ok r) :=
  ⟨by decide, empty_input_rejected "  \t\r\n \n".toList (.str "f".toList) (by decide)⟩

/-- C13, counterexample. A source of 30,001 spaces has more than 30,000
characters, and both analyzers fail on it with `"No code provided"`, not with
the message of the character bound. -/
theorem character_bound_counterexample :
    30000 < jsLength (List.replicate 30001 ' ') ∧
    analyzePythonComplexity (List.replicate 30001 ' ') .undefined =
      .error "No code provided" ∧
    analyzeJavaComplexity (List.replicate 30001 ' ') .undefined =
      .error "No code provided" ∧
    "No code provided" ≠ "Snippet too large (max 30k characters)" := by
  have hb : IsBlank (List.replicate 30001 ' ') := by
    unfold IsBlank
    rw [List.all_replicate]
    decide
  refine ⟨?_, analyzePython_blank _ _ hb, analyzeJava_blank _ _ hb, by decide⟩
  rw [jsLength_replicate_space]
  omega

/-- C13, amended. The line-oriented analyzers enforce the character bound on
every source that is not empty or whitespace-only: if such a source has more
than 30,000 characters, both fail with the message
`"Snippet too large (max 30k characters)"`. -/
theorem character_bound_enforced (code : List Char) (fn : NameArg) (h : ¬ IsBlank code)
    (hl : 30000 < jsLength code) :
    analyzePythonComplexity code fn = .error "Snippet too large (max 30k characters)" ∧
    analyzeJavaComplexity code fn = .error "Snippet too large (max 30k characters)" :=
  ⟨analyzePython_too_long code fn h hl, analyzeJava_too_long code fn h hl⟩

/-- Witness of the amended C13: the character `x` followed by 30,000 spaces,
a source of 30,001 characters. -/
theorem character_bound_enforced_witness :
    ¬ IsBlank ('x' :: List.replicate 30000 ' ') ∧
    jsLength ('x' :: List.replicate 30000 ' ') = 30001 ∧
    analyzePythonComplexity ('x' :: List.replicate 30000 ' ') .undefined =
      .error "Snippet too large (max 30k characters)" ∧
    analyzeJavaComplexity ('x' :: List.replicate 30000 ' ') .undefined =
      .error "Snippet too large (max 30k characters)" := by
  have hb : ¬ IsBlank ('x' :: List.replicate 30000 ' ') := by
    unfold IsBlank
    rw [List.all_cons]
    have : isJsSpace 'x' = false := by decide
    rw [this, Bool.false_and]
    decide
  have hl : jsLength ('x' :: List.replicate 30000 ' ') = 30001 := by
    rw [jsLength_cons_ascii _ _ (by decide), jsLength_replicate_space]
  exact ⟨hb, hl, character_bound_enforced _ .undefined hb (by rw [hl]; omega)⟩

/-- C14. The line-oriented analyzers enforce the line bound as a distinct
sub-reason: a source that is not whitespace-only, has at most 30,000
characters and splits into more than 1,500 lines makes both fail with
`"Snippet too large (max 1500 lines)"`, a message different from that of the
character bound; a source of exactly 1,500 lines within the character bound is
not rejected. -/
theorem line_bound_enforced :
    (∀ (code : List Char) (fn : NameArg), ¬ IsBlank code → jsLength code ≤ 30000 →
        1500 < (splitLines code).length →
        analyzePythonComplexity code fn = .error "Snippet too large (max 1500 lines)" ∧
        analyzeJavaComplexity code fn = .error "Snippet too large (max 1500 lines)") ∧
    "Snippet too large (max 1500 lines)" ≠ "Snippet too large (max 30k characters)" ∧
    (∀ (code : List Char) (fn : NameArg), ¬ IsBlank code → jsLength code ≤ 30000 →
        (splitLines code).length = 1500 →
        (∃ r, analyzePythonComplexity code fn = .ok r) ∧
        (∃ r, analyzeJavaComplexity code fn = .ok r)) := by
  refine ⟨?_, by decide, ?_⟩
  · intro code fn hb hl hn
    exact ⟨analyzePython_too_many_lines code fn hb hl hn,
      analyzeJava_too_many_lines code fn hb hl hn⟩
  · intro code fn hb hl hn
    have hw : WithinLimits code := (withinLimits_iff code).mpr ⟨hb, hl, by omega⟩
    exact ⟨⟨_, analyzePython_of_within fn hw⟩, ⟨_, analyzeJava_of_within fn hw⟩⟩

/-- Witness of C14: 1,500 empty lines followed by the line `x` (1,501 lines)
are rejected, 1,499 empty lines followed by the line `x` (1,500 lines) are
not. -/
theorem line_bound_enforced_witness :
    (splitLines (List.replicate 1500 '\n' ++ ['x'])).length = 1501 ∧
    (analyzePythonComplexity (List.replicate 1500 '\n' ++ ['x']) .undefined =
        .error "Snippet too large (max 1500 lines)" ∧
      analyzeJavaComplexity (List.replicate 1500 '\n' ++ ['x']) .undefined =
        .error "Snippet too large (max 1500 lines)") ∧
    (splitLines (List.replicate 1499 '\n' ++ ['x'])).length = 1500 ∧
    ((∃ r, analyzePythonComplexity (List.replicate 1499 '\n' ++ ['x']) .undefined = .ok r) ∧
      (∃ r, analyzeJavaComplexity (List.replicate 1499 '\n' ++ ['x']) .undefined = .ok r)) :=
  ⟨(newlines_then_x 1500).2.2,
   line_bound_enforced.1 _ .undefined (newlines_then_x 1500).1
     (by rw [(newlines_then_x 1500).2.1]; omega) (by rw [(newlines_then_x 1500).2.2]; omega),
   (newlines_then_x 1499).2.2,
   line_bound_enforced.2.2 _ .undefined (newlines_then_x 1499).1
     (by rw [(newlines_then_x 1499).2.1]; omega) (newlines_then_x 1499).2.2⟩

/-- C15. The line-oriented analyzers never fail on malformed code: each of
them throws if and only if the source is empty or whitespace-only, or longer
than 30,000 characters, or has more than 1,500 lines, and for every other
source and every function name it returns a result (with the five signals and
a label). -/
theorem line_analyzers_total (code : List Char) (fn : NameArg) :
    ((∃ msg, analyzePythonComplexity code fn = .error msg) ↔
      (IsBlank code ∨ 30000 < jsLength code ∨ 1500 < (splitLines code).length)) ∧
    ((∃ msg, analyzeJavaComplexity code fn = .error msg) ↔
      (IsBlank code ∨ 30000 < jsLength code ∨ 1500 < (splitLines code).length)) ∧
    (¬ (IsBlank code ∨ 30000 < jsLength code ∨ 1500 < (splitLines code).length) →
      (∃ r, analyzePythonComplexity code fn = .ok r) ∧
      (∃ r, analyzeJavaComplexity code fn = .ok r)) := by
  have hok : ¬ (IsBlank code ∨ 30000 < jsLength code ∨ 1500 < (splitLines code).length) →
      WithinLimits code := by
    intro h
    simp only [not_or, not_lt] at h
    exact (withinLimits_iff code).mpr h
  have herr : (IsBlank code ∨ 30000 < jsLength code ∨ 1500 < (splitLines code).length) →
      (∃ msg, analyzePythonComplexity code fn = .error msg) ∧
      (∃ msg, analyzeJavaComplexity code fn = .error msg) := by
    intro h
    by_cases hb : IsBlank code
    · exact ⟨⟨_, analyzePython_blank code fn hb⟩, ⟨_, analyzeJava_blank code fn hb⟩⟩
    · by_cases hl : 30000 < jsLength code
      · exact ⟨⟨_, analyzePython_too_long code fn hb hl⟩,
          ⟨_, analyzeJava_too_long code fn hb hl⟩⟩
      · have hn : 1500 < (splitLines code).length := by
          rcases h with h | h | h
          · exact absurd h hb
          · exact absurd h hl
          · exact h
        exact ⟨⟨_, analyzePython_too_many_lines code fn hb (by omega) hn⟩,
          ⟨_, analyzeJava_too_many_lines code fn hb (by omega) hn⟩⟩
  refine ⟨⟨?_, fun h => (herr h).1⟩, ⟨?_, fun h => (herr h).2⟩, ?_⟩
  · rintro ⟨msg, hm⟩
    by_contra hc
    rw [analyzePython_of_within fn (hok hc)] at hm
    cases hm
  · rintro ⟨msg, hm⟩
    by_contra hc
    rw [analyzeJava_of_within fn (hok hc)] at hm
    cases hm
  · intro hc
    exact ⟨⟨_, analyzePython_of_within fn (hok hc)⟩, ⟨_, analyzeJava_of_within fn (hok hc)⟩⟩

/-- Witness of C15: a source with surplus closing braces, a dangling `for (`
and mixed tabs and spaces is analysed by both analyzers. -/
theorem line_analyzers_total_witness :
    ¬ (IsBlank "\x7d\x7d\x7d\n\t  for (\n \t\x7b\x7b while".toList ∨
        30000 < jsLength "\x7d\x7d\x7d\n\t  for (\n \t\x7b\x7b while".toList ∨
        1500 < (splitLines "\x7d\x7d\x7d\n\t  for (\n \t\x7b\x7b while".toList).length) ∧
    (∃ r, analyzePythonComplexity "\x7d\x7d\x7d\n\t  for (\n \t\x7b\x7b while".toList
      (.str "f".toList) = .ok r) ∧
    (∃ r, analyzeJavaComplexity "\x7d\x7d\x7d\n\t  for (\n \t\x7b\x7b while".toList
      (.str "f".toList) = .ok r) :=
  ⟨by decide,
   (line_analyzers_total "\x7d\x7d\x7d\n\t  for (\n \t\x7b\x7b while".toList
      (.str "f".toList)).2.2 (by decide)⟩

/-- Whatever room the call stack has, the walk of the expression `a.b.b ... .b`
with that many property accesses does not fit in it. -/
theorem analyzeJs_memberChain (stack : Nat) (fn : NameArg) :
    analyzeComplexity (fun _ => .ok (memberChainTree stack)) stack (memberChainSource stack)
      fn = .error .rangeError :=
  analyzeJs_of_deep fn rfl (by rw [walkDepth_memberChainTree]; omega)

/-- C16, counterexample. With room for 10000 nested visits on the call stack,
the parser accepts the expression `a.b.b ... .b` with 10000 property accesses,
and the call neither returns a result nor throws the error of a parse
failure: the walk, which runs after the `try`, throws the `RangeError` of the
engine. -/
theorem js_deep_tree_counterexample :
    (¬ ∃ err, (fun _ => Except.ok (memberChainTree 10000) :
      List Char → Except (Option String) Node) (memberChainSource 10000) = .error err) ∧
    analyzeComplexity (fun _ => .ok (memberChainTree 10000)) 10000 (memberChainSource 10000)
      .undefined = .error .rangeError ∧
    (¬ ∃ r, analyzeComplexity (fun _ => .ok (memberChainTree 10000)) 10000
      (memberChainSource 10000) .undefined = .ok r) ∧
    (¬ ∃ msg, analyzeComplexity (fun _ => .ok (memberChainTree 10000)) 10000
      (memberChainSource 10000) .undefined = .error (.error msg)) := by
  have h := analyzeJs_memberChain 10000 .undefined
  refine ⟨?_, h, ?_, ?_⟩
  · rintro ⟨err, he⟩
    cases he
  · rintro ⟨r, hr⟩
    rw [h] at hr
    cases hr
  · rintro ⟨msg, hm⟩
    rw [h] at hm
    cases hm

/-- C16, amended. The JavaScript analyzer fails fast on a parse failure: it
throws an `Error` of its own if and only if the parser fails; the message is
`"Invalid JavaScript: "` followed by the parser's message, or by
`"parse error"` when the parser error has no message or an empty one; and
when parsing succeeds the call returns a result if the call stack has room
for the depth of the tree, and throws the `RangeError` of the engine,
unwrapped, if it has not. -/
theorem js_parse_failure (parse : List Char → Except (Option String) Node) (stack : Nat)
    (code : List Char) (fn : NameArg) :
    ((∃ msg, analyzeComplexity parse stack code fn = .error (.error msg)) ↔
      ∃ err, parse code = .error err) ∧
    (∀ message, message ≠ "" → parse code = .error (some message) →
      analyzeComplexity parse stack code fn =
        .error (.error ("Invalid JavaScript: " ++ message))) ∧
    (parse code = .error none ∨ parse code = .error (some "") →
      analyzeComplexity parse stack code fn =
        .error (.error "Invalid JavaScript: parse error")) ∧
    (∀ ast, parse code = .ok ast →
      (walkDepth ast ≤ stack → ∃ r, analyzeComplexity parse stack code fn = .ok r) ∧
      (stack < walkDepth ast →
        analyzeComplexity parse stack code fn = .error .rangeError)) := by
  refine ⟨⟨?_, ?_⟩, ?_, ?_, ?_⟩
  · rintro ⟨msg, hm⟩
    cases hp : parse code with
    | error err => exact ⟨err, rfl⟩
    | ok ast =>
      by_cases hd : walkDepth ast ≤ stack
      · rw [analyzeJs_of_parsed fn hp hd] at hm
        cases hm
      · rw [analyzeJs_of_deep fn hp (by omega)] at hm
        cases hm
  · rintro ⟨err, hp⟩
    unfold analyzeComplexity
    rw [hp]
    exact ⟨_, rfl⟩
  · intro message hne hp
    unfold analyzeComplexity
    rw [hp]
    simp only [if_neg hne]
  · intro hp
    unfold analyzeComplexity
    rcases hp with hp | hp <;> rw [hp] <;> rfl
  · intro ast hp
    exact ⟨fun hd => ⟨_, analyzeJs_of_parsed fn hp hd⟩, fun hd => analyzeJs_of_deep fn hp hd⟩

/-- Witness of the amended C16: a parser that rejects the source with the
message `Unexpected token (1:4)`, and a parser that accepts a source whose
tree the call stack has room for. -/
theorem js_parse_failure_witness :
    ("Unexpected token (1:4)" ≠ "" ∧
      analyzeComplexity (fun _ => .error (some "Unexpected token (1:4)")) 10000
        "let = ;".toList .undefined =
        .error (.error ("Invalid JavaScript: " ++ "Unexpected token (1:4)"))) ∧
    (walkDepth selfCallTree ≤ 10000 ∧
      ∃ r, analyzeComplexity (fun _ => .ok selfCallTree) 10000
        "function f(n) \x7b return f(n - 1) \x7d".toList .undefined = .ok r) :=
  ⟨⟨by decide,
    (js_parse_failure (fun _ => .error (some "Unexpected token (1:4)")) 10000
      "let = ;".toList .undefined).2.1 "Unexpected token (1:4)" (by decide) rfl⟩,
   ⟨by decide,
    ((js_parse_failure (fun _ => .ok selfCallTree) 10000
      "function f(n) \x7b return f(n - 1) \x7d".toList .undefined).2.2.2 selfCallTree rfl).1
      (by decide)⟩⟩

set_option maxRecDepth 20000

/-- C17, evaluation at the samples. With the function name `twoSum` the Java
sample of the popup gives `maxNesting = 1`, `recursionCalls = 0`,
`hashUsage = true` and the label `"O(n)"`; the Python sample gives the same
but `hashUsage = false`: its only hash structure is the empty literal of
`seen = {}`, and the dictionary pattern asks for a colon between the braces. -/
theorem two_sum_samples :
    analyzePythonComplexity pythonSample (.str "twoSum".toList) =
      .ok ⟨⟨1, 1, 0, 0, false⟩, "O(n)"⟩ ∧
    pyIsHash (trim "    seen = \x7b\x7d".toList) = false ∧
    analyzeJavaComplexity javaSample (.str "twoSum".toList) =
      .ok ⟨⟨1, 1, 0, 0, true⟩, "O(n)"⟩ :=
  ⟨by rfl, by rfl, by rfl⟩

/-- C18. Blank and comment lines do not affect the analysis: when a source is
obtained from another by inserting, anywhere among its lines, a line that is
blank or a comment (for Python: empty, whitespace only, or with `#` as first
character that is not whitespace; for Java: empty, whitespace only, or with a
trimmed text starting with `//`, `/*` or `*`), and both sources are within the
limits, the analyzer returns the same signals and label for both. -/
theorem blank_and_comment_lines_ignored :
    (∀ (code code' : List Char) (fn : NameArg) (before after : List (List Char))
        (inserted : List Char), WithinLimits code → WithinLimits code' →
        splitLines code = before ++ after → splitLines code' = before ++ inserted :: after →
        PyBlankOrComment inserted →
        ∃ r, analyzePythonComplexity code fn = .ok r ∧
          analyzePythonComplexity code' fn = .ok r) ∧
    (∀ (code code' : List Char) (fn : NameArg) (before after : List (List Char))
        (inserted : List Char), WithinLimits code → WithinLimits code' →
        splitLines code = before ++ after → splitLines code' = before ++ inserted :: after →
        JavaBlankOrComment inserted →
        ∃ r, analyzeJavaComplexity code fn = .ok r ∧
          analyzeJavaComplexity code' fn = .ok r) := by
  refine ⟨?_, ?_⟩
  · intro code code' fn before after inserted hw hw' hs hs' hi
    refine ⟨_, analyzePython_of_within fn hw, ?_⟩
    rw [analyzePython_of_within fn hw']
    have he : pyScan (normalizeName fn) (splitLines code') =
        pyScan (normalizeName fn) (splitLines code) := by
      rw [pyScan, pyScan, hs, hs', List.foldl_append, List.foldl_append, List.foldl_cons,
        pyStep_skip _ _ _ (pySkip_of_blank_or_comment inserted hi)]
    rw [he]
  · intro code code' fn before after inserted hw hw' hs hs' hi
    refine ⟨_, analyzeJava_of_within fn hw, ?_⟩
    rw [analyzeJava_of_within fn hw']
    have he : javaScan (normalizeName fn) (splitLines code') =
        javaScan (normalizeName fn) (splitLines code) := by
      rw [javaScan, javaScan, hs, hs', List.foldl_append, List.foldl_append, List.foldl_cons,
        javaStep_skip _ _ _ (javaSkip_of_blank_or_comment inserted hi)]
    rw [he]

/-- Witness of C18: a comment line holding a loop header, a sort call and
braces, inserted inside a loop body. -/
theorem blank_and_comment_lines_ignored_witness :
    (∃ r, analyzePythonComplexity "for a in b:\n    c += a".toList .undefined = .ok r ∧
      analyzePythonComplexity
        "for a in b:\n  # for x in sorted(y): \x7b1: 2\x7d\n    c += a".toList .undefined =
        .ok r) ∧
    (∃ r, analyzeJavaComplexity "for (;;) \x7b\n  c += a;\n\x7d".toList .undefined = .ok r ∧
      analyzeJavaComplexity
        "for (;;) \x7b\n  // while (x) \x7b a.sort();\n  c += a;\n\x7d".toList .undefined =
        .ok r) :=
  ⟨blank_and_comment_lines_ignored.1 "for a in b:\n    c += a".toList
      "for a in b:\n  # for x in sorted(y): \x7b1: 2\x7d\n    c += a".toList .undefined
      ["for a in b:".toList] ["    c += a".toList]
      "  # for x in sorted(y): \x7b1: 2\x7d".toList
      (by decide) (by decide) (by rfl) (by rfl) (by decide),
   blank_and_comment_lines_ignored.2 "for (;;) \x7b\n  c += a;\n\x7d".toList
      "for (;;) \x7b\n  // while (x) \x7b a.sort();\n  c += a;\n\x7d".toList .undefined
      ["for (;;) \x7b".toList] ["  c += a;".toList, "\x7d".toList]
      "  // while (x) \x7b a.sort();".toList
      (by decide) (by decide) (by rfl) (by rfl) (by decide)⟩

/-- C19. The JavaScript analyzer counts self-calls anywhere in the tree: for
every successfully parsed tree and every function name whose trimmed form `n`
is not empty, `recursionCalls` of a returned result is the number of
call-expression nodes of the whole tree whose callee is the plain identifier
`n`, and a result is returned whenever the call stack has room for the depth
of the tree. -/
theorem js_self_calls_anywhere (parse : List Char → Except (Option String) Node)
    (stack : Nat) (code : List Char) (fn : NameArg) (ast : Node) (hp : parse code = .ok ast)
    (hn : normalizeName fn ≠ []) :
    (∀ r, analyzeComplexity parse stack code fn = .ok r →
      r.signals.recursionCalls = countSelfCalls (normalizeName fn) ast) ∧
    (walkDepth ast ≤ stack → ∃ r, analyzeComplexity parse stack code fn = .ok r) := by
  refine ⟨fun r h => ?_, fun hd => ⟨_, analyzeJs_of_parsed fn hp hd⟩⟩
  rw [(analyzeJs_of_ok_tree hp h).2.2.2.1, walk_recursion _ hn]
  exact Nat.zero_add _

/-- Witness of C19: in `function n() {}; n(10); obj.n(); this.n()` the
top-level call `n(10)` is counted and the two member calls are not. -/
theorem js_self_calls_anywhere_witness :
    normalizeName (.str " n ".toList) ≠ [] ∧
    countSelfCalls (normalizeName (.str " n ".toList)) topLevelCallTree = 1 ∧
    walkDepth topLevelCallTree ≤ 10000 ∧
    (∃ r, analyzeComplexity (fun _ => .ok topLevelCallTree) 10000
      "function n() \x7b\x7d; n(10); obj.n(); this.n()".toList (.str " n ".toList) = .ok r) ∧
    (⟨⟨0, 0, 0, 1, false⟩, "Recursive (depends on recurrence)"⟩ : Result).signals.recursionCalls =
      countSelfCalls (normalizeName (.str " n ".toList)) topLevelCallTree :=
  ⟨by decide, by rfl, by decide,
   (js_self_calls_anywhere (fun _ => .ok topLevelCallTree) 10000
     "function n() \x7b\x7d; n(10); obj.n(); this.n()".toList (.str " n ".toList)
     topLevelCallTree rfl (by decide)).2 (by decide),
   (js_self_calls_anywhere (fun _ => .ok topLevelCallTree) 10000
     "function n() \x7b\x7d; n(10); obj.n(); this.n()".toList (.str " n ".toList)
     topLevelCallTree rfl (by decide)).1 _ (by rfl)⟩

/-- C20. In the JavaScript analyzer, for every successfully parsed tree:
`hashUsage` of a returned result is true exactly when the tree contains an
object-literal node or a `new` expression whose callee is the plain identifier
`Set` or `Map`; `sortCalls` is the number of call-expression nodes whose
callee is a member expression with identifier property `sort`; a result is
returned whenever the call stack has room for the depth of the tree; and the
walk of a subtree never clears a flag that is set. -/
theorem js_hash_and_sort_signals (parse : List Char → Except (Option String) Node)
    (stack : Nat) (code : List Char) (fn : NameArg) (ast : Node) (hp : parse code = .ok ast) :
    (∀ r, analyzeComplexity parse stack code fn = .ok r →
      (r.signals.hashUsage = true ↔ hasHashNode ast = true) ∧
      r.signals.sortCalls = countSortCalls ast) ∧
    (walkDepth ast ≤ stack → ∃ r, analyzeComplexity parse stack code fn = .ok r) ∧
    (∀ (n : Node) (room : Nat) (st st' : WalkState),
      walk (normalizeName fn) n room st = .ok st' → st.hashUsage = true →
      st'.hashUsage = true) := by
  refine ⟨fun r h => ⟨?_, ?_⟩, fun hd => ⟨_, analyzeJs_of_parsed fn hp hd⟩,
    fun n room st st' h hst => ?_⟩
  · rw [(analyzeJs_of_ok_tree hp h).2.2.2.2,
      (walk_side (normalizeName fn) ast WalkState.init).2]
    simp [WalkState.init]
  · rw [(analyzeJs_of_ok_tree hp h).2.2.1,
      (walk_side (normalizeName fn) ast WalkState.init).1]
    exact Nat.zero_add _
  · rw [walk_ok_iff] at h
    rw [h.2, (walk_side (normalizeName fn) n st).2, hst, Bool.true_or]

/-- Witness of C20: the tree of `const s = new Set(); xs.sort(); ys.sort()`. -/
theorem js_hash_and_sort_signals_witness :
    hasHashNode setAndSortTree = true ∧ countSortCalls setAndSortTree = 2 ∧
    walkDepth setAndSortTree ≤ 10000 ∧
    (∃ r, analyzeComplexity (fun _ => .ok setAndSortTree) 10000
      "const s = new Set(); xs.sort(); ys.sort()".toList .undefined = .ok r) ∧
    (((⟨⟨0, 0, 2, 0, true⟩, "O(n log n)"⟩ : Result).signals.hashUsage = true ↔
        hasHashNode setAndSortTree = true) ∧
      (⟨⟨0, 0, 2, 0, true⟩, "O(n log n)"⟩ : Result).signals.sortCalls =
        countSortCalls setAndSortTree) :=
  ⟨by rfl, by rfl, by decide,
   (js_hash_and_sort_signals (fun _ => .ok setAndSortTree) 10000
     "const s = new Set(); xs.sort(); ys.sort()".toList .undefined setAndSortTree rfl).2.1
     (by decide),
   (js_hash_and_sort_signals (fun _ => .ok setAndSortTree) 10000
     "const s = new Set(); xs.sort(); ys.sort()".toList .undefined setAndSortTree rfl).1 _
     (by rfl)⟩

/-- C21, evaluation at the failing input. A single do-while loop written
`do {` ... `} while (cond);` is counted twice by the Java analyzer, once by the
`do` pattern on its first line and once by the `for`/`while` pattern on its
last line; written on one line it is also pushed twice. -/
theorem java_do_while_counted_twice :
    analyzeJavaComplexity "do \x7b\n  i++;\n\x7d while (i < n);".toList .undefined =
      .ok ⟨⟨2, 1, 0, 0, false⟩, "O(n)"⟩ ∧
    javaIsDo (trim "do \x7b".toList) = true ∧
    javaIsLoop (trim "\x7d while (i < n);".toList) = true ∧
    analyzeJavaComplexity "do \x7b i++; \x7d while (i < n);".toList .undefined =
      .ok ⟨⟨2, 2, 0, 0, false⟩, "O(n^2)"⟩ :=
  ⟨by rfl, by rfl, by rfl, by rfl⟩

/-! ## Loops and the label `O(1)` -/

theorem power_label_ne_constant (t : String) : "O(n^" ++ t ≠ "O(1)" := by
  intro h
  have h2 := congrArg String.data h
  simp at h2

theorem inferComplexity_eq_constant_iff (r s m : Nat) :
    inferComplexity r s m = "O(1)" ↔ r = 0 ∧ s = 0 ∧ m = 0 := by
  unfold inferComplexity
  constructor
  · intro h
    split_ifs at h with h1 h2 h3 h4 h5
    · exact absurd h (by decide)
    · exact absurd h (by decide)
    · exact absurd h (by decide)
    · rw [String.append_assoc] at h; exact absurd h (power_label_ne_constant _)
    · exact absurd h (by decide)
    · omega
  · rintro ⟨rfl, rfl, rfl⟩
    decide

theorem pyStep_nesting_pos (nm : List Char) (s : PyScan) (raw : List Char)
    (h : 0 < s.state.loopCount → 0 < s.state.maxNesting) :
    0 < (pyStep nm s raw).state.loopCount → 0 < (pyStep nm s raw).state.maxNesting := by
  cases hs : pySkip raw
  · obtain ⟨_, h2, h3, _, _⟩ := pyStep_loops nm s raw hs
    rw [h2, h3]
    split_ifs
    · intro _; omega
    · intro hp; exact h (by omega)
  · rw [pyStep_skip nm s raw hs]; exact h

theorem pyFold_nesting_pos (nm : List Char) (lines : List (List Char)) (s : PyScan)
    (h : 0 < s.state.loopCount → 0 < s.state.maxNesting) :
    0 < (lines.foldl (pyStep nm) s).state.loopCount →
      0 < (lines.foldl (pyStep nm) s).state.maxNesting := by
  induction lines generalizing s with
  | nil => exact h
  | cons l ls ih => rw [List.foldl_cons]; exact ih _ (pyStep_nesting_pos nm s l h)

theorem javaStep_nesting_pos (nm : List Char) (s : JavaScan) (raw : List Char)
    (h : 0 < s.state.loopCount → 0 < s.state.maxNesting) :
    0 < (javaStep nm s raw).state.loopCount → 0 < (javaStep nm s raw).state.maxNesting := by
  cases hs : javaSkip raw
  · simp only [javaStep, hs, Bool.false_eq_true, if_false, javaDetectLoop_eq,
      javaDetectDoWhile_eq]
    split_ifs <;> first | (simp; omega) | simp
  · rw [javaStep_skip nm s raw hs]; exact h

theorem javaFold_nesting_pos (nm : List Char) (lines : List (List Char)) (s : JavaScan)
    (h : 0 < s.state.loopCount → 0 < s.state.maxNesting) :
    0 < (lines.foldl (javaStep nm) s).state.loopCount →
      0 < (lines.foldl (javaStep nm) s).state.maxNesting := by
  induction lines generalizing s with
  | nil => exact h
  | cons l ls ih => rw [List.foldl_cons]; exact ih _ (javaStep_nesting_pos nm s l h)

mutual
theorem countLoops_eq_zero : ∀ (n : Node), maxLoopPath n = 0 → countLoops n = 0
  | .forStatement init test update body => by
    rw [maxLoopPath]; intro h; omega
  | .forOfStatement left right body => by
    rw [maxLoopPath]; intro h; omega
  | .forInStatement left right body => by
    rw [maxLoopPath]; intro h; omega
  | .whileStatement test body => by
    rw [maxLoopPath]; intro h; omega
  | .doWhileStatement body test => by
    rw [maxLoopPath]; intro h; omega
  | .callExpression callee arguments => by
    rw [maxLoopPath, countLoops]; intro h
    rw [countLoops_eq_zero callee (by omega), countLoopsList_eq_zero arguments (by omega)]
  | .newExpression callee arguments => by
    rw [maxLoopPath, countLoops]; intro h
    rw [countLoops_eq_zero callee (by omega), countLoopsList_eq_zero arguments (by omega)]
  | .objectExpression properties => by
    rw [maxLoopPath, countLoops]; exact countLoopsList_eq_zero properties
  | .memberExpression object property => by
    rw [maxLoopPath, countLoops]; intro h
    rw [countLoops_eq_zero object (by omega), countLoops_eq_zero property (by omega)]
  | .staticMemberExpression object _ _ => by
    rw [maxLoopPath, countLoops]; exact countLoops_eq_zero object
  | .identifier _ => by
    rw [countLoops]; exact fun _ => rfl
  | .other _ children => by
    rw [maxLoopPath, countLoops]; exact countLoopsList_eq_zero children
theorem countLoopsList_eq_zero : ∀ (ns : List Node), maxLoopPathList ns = 0 →
    countLoopsList ns = 0
  | [] => by rw [countLoopsList]; exact fun _ => rfl
  | n :: ns => by
    rw [maxLoopPathList, countLoopsList]; intro h
    rw [countLoops_eq_zero n (by omega), countLoopsList_eq_zero ns (by omega)]
end

/-- The facts of C26 about a triple of signals whose nesting depth is bounded
by the loop count and is positive when a loop was counted. -/
theorem signals_shape (sig : Signals) (label : String)
    (hle : sig.maxNesting ≤ sig.loopCount) (hpos : 0 < sig.loopCount → 0 < sig.maxNesting)
    (hlab : label = inferComplexity sig.recursionCalls sig.sortCalls sig.maxNesting) :
    sig.maxNesting ≤ sig.loopCount ∧ (sig.maxNesting = 0 ↔ sig.loopCount = 0) ∧
    (0 < sig.loopCount → label ≠ "O(1)") ∧
    (label = "O(1)" ↔ sig.loopCount = 0 ∧ sig.sortCalls = 0 ∧ sig.recursionCalls = 0) := by
  have hiff : sig.maxNesting = 0 ↔ sig.loopCount = 0 := by
    constructor
    · intro h; by_contra hc; have := hpos (by omega); omega
    · intro h; omega
  refine ⟨hle, hiff, ?_, ?_⟩
  · intro hp hl
    rw [hlab, inferComplexity_eq_constant_iff] at hl
    have := hpos hp
    omega
  · rw [hlab, inferComplexity_eq_constant_iff, hiff]
    constructor
    · rintro ⟨h1, h2, h3⟩; exact ⟨h3, h2, h1⟩
    · rintro ⟨h1, h2, h3⟩; exact ⟨h3, h2, h1⟩

/-- C26. For each of the three analyzers and every input on which it returns,
`maxNesting ≤ loopCount`, `maxNesting = 0` exactly when `loopCount = 0`, a
result with a detected loop is never labelled `"O(1)"`, and the label is
`"O(1)"` exactly when `loopCount = 0`, `sortCalls = 0` and
`recursionCalls = 0`. -/
theorem nesting_bounded_by_loops :
    (∀ (parse : List Char → Except (Option String) Node) (stack : Nat) (code : List Char)
        (fn : NameArg) (r : Result), analyzeComplexity parse stack code fn = .ok r →
        r.signals.maxNesting ≤ r.signals.loopCount ∧
        (r.signals.maxNesting = 0 ↔ r.signals.loopCount = 0) ∧
        (0 < r.signals.loopCount → r.inferredTimeComplexity ≠ "O(1)") ∧
        (r.inferredTimeComplexity = "O(1)" ↔
          r.signals.loopCount = 0 ∧ r.signals.sortCalls = 0 ∧ r.signals.recursionCalls = 0)) ∧
    (∀ (code : List Char) (fn : NameArg) (r : Result),
        analyzePythonComplexity code fn = .ok r →
        r.signals.maxNesting ≤ r.signals.loopCount ∧
        (r.signals.maxNesting = 0 ↔ r.signals.loopCount = 0) ∧
        (0 < r.signals.loopCount → r.inferredTimeComplexity ≠ "O(1)") ∧
        (r.inferredTimeComplexity = "O(1)" ↔
          r.signals.loopCount = 0 ∧ r.signals.sortCalls = 0 ∧ r.signals.recursionCalls = 0)) ∧
    (∀ (code : List Char) (fn : NameArg) (r : Result),
        analyzeJavaComplexity code fn = .ok r →
        r.signals.maxNesting ≤ r.signals.loopCount ∧
        (r.signals.maxNesting = 0 ↔ r.signals.loopCount = 0) ∧
        (0 < r.signals.loopCount → r.inferredTimeComplexity ≠ "O(1)") ∧
        (r.inferredTimeComplexity = "O(1)" ↔
          r.signals.loopCount = 0 ∧ r.signals.sortCalls = 0 ∧ r.signals.recursionCalls = 0)) := by
  refine ⟨?_, ?_, ?_⟩
  · intro parse stack code fn r h
    obtain ⟨ast, _, h1, h2, _, _, _, hlab⟩ := analyzeJs_of_ok h
    obtain ⟨e1, e2⟩ := walk_init_loops (normalizeName fn) ast
    have hle := maxLoopPath_le_countLoops ast
    have hz := countLoops_eq_zero ast
    refine signals_shape r.signals _ (by omega) ?_ hlab
    intro hp
    by_contra hc
    have := hz (by omega)
    omega
  · intro code fn r h
    obtain ⟨hsig, hlab⟩ := analyzePython_of_ok h
    have hle := pyScan_nesting_le (normalizeName fn) (splitLines code)
    have hpos := pyFold_nesting_pos (normalizeName fn) (splitLines code) PyScan.init
      (fun h0 => absurd h0 (by decide))
    rw [← pyScan, ← hsig] at hpos
    rw [← hsig] at hle
    exact signals_shape r.signals _ hle hpos hlab
  · intro code fn r h
    obtain ⟨hsig, hlab⟩ := analyzeJava_of_ok h
    have hle := javaScan_nesting_le (normalizeName fn) (splitLines code)
    have hpos := javaFold_nesting_pos (normalizeName fn) (splitLines code) JavaScan.init
      (fun h0 => absurd h0 (by decide))
    rw [← javaScan, ← hsig] at hpos
    rw [← hsig] at hle
    exact signals_shape r.signals _ hle hpos hlab

/-- Witness of C26: two loops in sequence in each of the three languages. -/
theorem nesting_bounded_by_loops_witness :
    ((1 : Nat) ≤ 2 ∧ ((1 : Nat) = 0 ↔ (2 : Nat) = 0) ∧ ((0 : Nat) < 2 → "O(n)" ≠ "O(1)") ∧
      ("O(n)" = "O(1)" ↔ (2 : Nat) = 0 ∧ (0 : Nat) = 0 ∧ (0 : Nat) = 0)) ∧
    ((1 : Nat) ≤ 2 ∧ ((1 : Nat) = 0 ↔ (2 : Nat) = 0) ∧ ((0 : Nat) < 2 → "O(n)" ≠ "O(1)") ∧
      ("O(n)" = "O(1)" ↔ (2 : Nat) = 0 ∧ (0 : Nat) = 0 ∧ (0 : Nat) = 0)) ∧
    ((1 : Nat) ≤ 2 ∧ ((1 : Nat) = 0 ↔ (2 : Nat) = 0) ∧ ((0 : Nat) < 2 → "O(n)" ≠ "O(1)") ∧
      ("O(n)" = "O(1)" ↔ (2 : Nat) = 0 ∧ (0 : Nat) = 0 ∧ (0 : Nat) = 0)) :=
  ⟨nesting_bounded_by_loops.1
      (fun _ => .ok (.other "Program"
        [.whileStatement (.identifier "a".toList) (.other "BlockStatement" []),
         .whileStatement (.identifier "b".toList) (.other "BlockStatement" [])]))
      10000 "while (a) \x7b\x7d while (b) \x7b\x7d".toList .undefined
      ⟨⟨2, 1, 0, 0, false⟩, "O(n)"⟩ (by rfl),
   nesting_bounded_by_loops.2.1 "for a in b:\n    c\nfor d in e:\n    f".toList .undefined
      ⟨⟨2, 1, 0, 0, false⟩, "O(n)"⟩ (by rfl),
   nesting_bounded_by_loops.2.2
      "for (;;) \x7b\n  a++;\n\x7d\nfor (;;) \x7b\n  b++;\n\x7d".toList .undefined
      ⟨⟨2, 1, 0, 0, false⟩, "O(n)"⟩ (by rfl)⟩

/-! ## The order of the loop stack -/

theorem dropWhile_le_lt (i : Nat) :
    ∀ (l : List Nat), l.Pairwise (· > ·) → ∀ x ∈ l.dropWhile (fun top => decide (i ≤ top)), x < i
  | [], _, x, hx => by simp at hx
  | a :: l, hp, x, hx => by
    rw [List.pairwise_cons] at hp
    by_cases ha : i ≤ a
    · rw [List.dropWhile_cons_of_pos (by simpa using ha)] at hx
      exact dropWhile_le_lt i l hp.2 x hx
    · rw [List.dropWhile_cons_of_neg (by simpa using ha)] at hx
      rcases List.mem_cons.mp hx with h | h
      · omega
      · have := hp.1 x h; omega

theorem dropWhile_lt_le (b : Int) :
    ∀ (l : List Int), l.Pairwise (· ≥ ·) → ∀ x ∈ l.dropWhile (fun top => decide (b < top)), x ≤ b
  | [], _, x, hx => by simp at hx
  | a :: l, hp, x, hx => by
    rw [List.pairwise_cons] at hp
    by_cases ha : b < a
    · rw [List.dropWhile_cons_of_pos (by simpa using ha)] at hx
      exact dropWhile_lt_le b l hp.2 x hx
    · rw [List.dropWhile_cons_of_neg (by simpa using ha)] at hx
      rcases List.mem_cons.mp hx with h | h
      · omega
      · have := hp.1 x h; omega

theorem toFinset_subset_of_mem {l₁ l₂ : List Nat} (h : ∀ x ∈ l₁, x ∈ l₂) :
    l₁.toFinset ⊆ l₂.toFinset :=
  fun x hx => List.mem_toFinset.mpr (h x (List.mem_toFinset.mp hx))

theorem loopHeaderIndents_append (before : List (List Char)) (raw : List Char) :
    loopHeaderIndents (before ++ [raw]) =
      loopHeaderIndents before ++
        (if (!pySkip raw && pyIsLoop (trim raw)) = true then [pyIndent raw] else []) := by
  unfold loopHeaderIndents
  rw [List.filter_append, List.map_append]
  congr 1
  by_cases h : (!pySkip raw && pyIsLoop (trim raw)) = true
  · simp [List.filter, h]
  · simp [List.filter, h]

/-- The invariant of the Python loop stack: strictly decreasing from the top
down, made of indents of loop headers already scanned, and with the running
maximum it is bounded by the number of distinct such indents. -/
theorem pyStack_invariant (nm : List Char) (before : List (List Char)) :
    (pyScan nm before).loopStack.Pairwise (· > ·) ∧
    (∀ x ∈ (pyScan nm before).loopStack, x ∈ loopHeaderIndents before) ∧
    (pyScan nm before).state.maxNesting ≤ (loopHeaderIndents before).toFinset.card := by
  induction before using List.reverseRecOn with
  | nil => simp [pyScan, PyScan.init, loopHeaderIndents]
  | append_singleton before raw ih =>
    obtain ⟨ih1, ih2, ih3⟩ := ih
    have hfold : pyScan nm (before ++ [raw]) = pyStep nm (pyScan nm before) raw := by
      simp [pyScan, List.foldl_append]
    rw [hfold, loopHeaderIndents_append]
    cases hs : pySkip raw
    · obtain ⟨h1, _, h3, _, _⟩ := pyStep_loops nm (pyScan nm before) raw hs
      have hsub := List.dropWhile_sublist (fun top => decide (pyIndent raw ≤ top))
        (l := (pyScan nm before).loopStack)
      have hlt := dropWhile_le_lt (pyIndent raw) _ ih1
      have hpw := ih1.sublist hsub
      rw [h1, h3]
      cases hl : pyIsLoop (trim raw)
      · simp only [Bool.false_eq_true, if_false, Bool.not_false, Bool.and_false,
          List.append_nil]
        exact ⟨hpw, fun x hx => ih2 x (hsub.subset hx), ih3⟩
      · simp only [if_true, Bool.not_false, Bool.and_true]
        refine ⟨?_, ?_, ?_⟩
        · rw [List.pairwise_cons]
          exact ⟨fun x hx => hlt x hx, hpw⟩
        · intro x hx
          rcases List.mem_cons.mp hx with h | h
          · rw [h]; simp
          · exact List.mem_append_left _ (ih2 x (hsub.subset h))
        · have hnd : (pyIndent raw ::
              List.dropWhile (fun top => decide (pyIndent raw ≤ top))
                (pyScan nm before).loopStack).Nodup := by
            rw [List.nodup_cons]
            refine ⟨fun hm => ?_, hpw.imp (fun h => Nat.ne_of_gt h)⟩
            have := hlt _ hm
            omega
          have hss : (pyIndent raw ::
              List.dropWhile (fun top => decide (pyIndent raw ≤ top))
                (pyScan nm before).loopStack).toFinset ⊆
              (loopHeaderIndents before ++ [pyIndent raw]).toFinset := by
            apply toFinset_subset_of_mem
            intro x hx
            rcases List.mem_cons.mp hx with h | h
            · rw [h]; simp
            · exact List.mem_append_left _ (ih2 x (hsub.subset h))
          have hcard := Finset.card_le_card hss
          rw [List.toFinset_card_of_nodup hnd, List.length_cons] at hcard
          have hmono : (loopHeaderIndents before).toFinset.card ≤
              (loopHeaderIndents before ++ [pyIndent raw]).toFinset.card :=
            Finset.card_le_card (toFinset_subset_of_mem (fun x hx => List.mem_append_left _ hx))
          omega
    · rw [pyStep_skip nm _ raw hs]
      simp only [hs, Bool.not_true, Bool.false_and, Bool.false_eq_true, if_false,
        List.append_nil]
      exact ⟨ih1, ih2, ih3⟩

/-- The invariant of the Java loop stack: from the top down the recorded
brace depths never increase, and none exceeds the running brace depth. -/
theorem javaStack_invariant (nm : List Char) (before : List (List Char)) :
    (javaScan nm before).loopStack.Pairwise (· ≥ ·) := by
  induction before using List.reverseRecOn with
  | nil => simp [javaScan, JavaScan.init]
  | append_singleton before raw ih =>
    have hfold : javaScan nm (before ++ [raw]) = javaStep nm (javaScan nm before) raw := by
      simp [javaScan, List.foldl_append]
    rw [hfold]
    cases hs : javaSkip raw
    · have hsub := List.dropWhile_sublist
        (fun top => decide ((javaScan nm before).braceDepth + braceDelta (trim raw) < top))
        (l := (javaScan nm before).loopStack)
      have hle := dropWhile_lt_le ((javaScan nm before).braceDepth + braceDelta (trim raw)) _ ih
      have hpw := ih.sublist hsub
      have hpush : (((javaScan nm before).braceDepth + braceDelta (trim raw)) ::
          List.dropWhile
            (fun top => decide ((javaScan nm before).braceDepth + braceDelta (trim raw) < top))
            (javaScan nm before).loopStack).Pairwise (· ≥ ·) := by
        rw [List.pairwise_cons]
        exact ⟨fun x hx => hle x hx, hpw⟩
      simp only [javaStep, hs, Bool.false_eq_true, if_false, javaDetectLoop_eq,
        javaDetectDoWhile_eq]
      split_ifs
      · simp only [javaDetectRecursion_fields, javaDetectHash_fields, javaDetectSort_fields,
          javaPushLoop_fields, javaEnterFunction_fields, javaLeaveFunction_fields,
          javaUnwind_fields, javaCountBraces_fields]
        rw [List.pairwise_cons]
        refine ⟨fun x hx => ?_, hpush⟩
        rcases List.mem_cons.mp hx with h | h
        · omega
        · exact hle x h
      · simp only [javaDetectRecursion_fields, javaDetectHash_fields, javaDetectSort_fields,
          javaPushLoop_fields, javaEnterFunction_fields, javaLeaveFunction_fields,
          javaUnwind_fields, javaCountBraces_fields]
        exact hpush
      · simp only [javaDetectRecursion_fields, javaDetectHash_fields, javaDetectSort_fields,
          javaPushLoop_fields, javaEnterFunction_fields, javaLeaveFunction_fields,
          javaUnwind_fields, javaCountBraces_fields]
        exact hpush
      · simp only [javaDetectRecursion_fields, javaDetectHash_fields, javaDetectSort_fields,
          javaEnterFunction_fields, javaLeaveFunction_fields,
          javaUnwind_fields, javaCountBraces_fields]
        exact hpw
    · rw [javaStep_skip nm _ raw hs]
      exact ih

/-- C23. Python loop-scope unwinding removes every finished scope: after any
lines have been scanned, the loop stack is strictly increasing in indent from
bottom to top; at every further scanned line with indent `i` no entry left
after the unwind step has an indent `≥ i`; and the number of open loop scopes,
like the running maximum `maxNesting`, never exceeds the number of distinct
indents of the loop headers scanned. -/
theorem python_unwind_complete (nm : List Char) (before : List (List Char)) :
    (pyScan nm before).loopStack.Pairwise (· > ·) ∧
    (∀ raw, pySkip raw = false →
      ∀ x ∈ (pyUnwind (pyIndent raw) (pyScan nm before)).loopStack, x < pyIndent raw) ∧
    (pyScan nm before).loopStack.length ≤ (loopHeaderIndents before).toFinset.card ∧
    (pyScan nm before).state.maxNesting ≤ (loopHeaderIndents before).toFinset.card := by
  obtain ⟨h1, h2, h3⟩ := pyStack_invariant nm before
  refine ⟨h1, fun raw _ x hx => dropWhile_le_lt (pyIndent raw) _ h1 x hx, ?_, h3⟩
  have hnd : (pyScan nm before).loopStack.Nodup := h1.imp (fun h => Nat.ne_of_gt h)
  rw [← List.toFinset_card_of_nodup hnd]
  exact Finset.card_le_card (toFinset_subset_of_mem h2)

/-- C24. Java loop-scope unwinding removes every finished scope: after any
lines have been scanned, the brace depths recorded on the loop stack are
non-decreasing from bottom to top; and at every further scanned line, once its
braces are added to the running depth `b` and the unwind step has run, no
entry left on the stack was pushed at a depth greater than `b`. -/
theorem java_unwind_complete (nm : List Char) (before : List (List Char)) :
    (javaScan nm before).loopStack.Pairwise (· ≥ ·) ∧
    (∀ raw, javaSkip raw = false →
      ∀ x ∈ (javaUnwind (javaCountBraces (trim raw) (javaScan nm before))).loopStack,
        x ≤ (javaCountBraces (trim raw) (javaScan nm before)).braceDepth) := by
  have h1 := javaStack_invariant nm before
  exact ⟨h1, fun raw _ x hx =>
    dropWhile_lt_le ((javaScan nm before).braceDepth + braceDelta (trim raw)) _ h1 x hx⟩

/-- Witness of C23: a line at indent 2 after two nested loop headers at
indents 0 and 4. -/
theorem python_unwind_complete_witness :
    pySkip "  x = 1".toList = false ∧
    ∀ x ∈ (pyUnwind (pyIndent "  x = 1".toList)
        (pyScan "f".toList ["for a in b:".toList, "    for c in d:".toList])).loopStack,
      x < pyIndent "  x = 1".toList :=
  ⟨by decide,
   (python_unwind_complete "f".toList ["for a in b:".toList, "    for c in d:".toList]).2.1
     "  x = 1".toList (by decide)⟩

/-- Witness of C24: a closing brace after two nested loop headers. -/
theorem java_unwind_complete_witness :
    javaSkip "  \x7d".toList = false ∧
    ∀ x ∈ (javaUnwind (javaCountBraces (trim "  \x7d".toList)
        (javaScan "f".toList
          ["for (;;) \x7b".toList, "  while (x) \x7b".toList]))).loopStack,
      x ≤ (javaCountBraces (trim "  \x7d".toList)
        (javaScan "f".toList
          ["for (;;) \x7b".toList, "  while (x) \x7b".toList])).braceDepth :=
  ⟨by decide,
   (java_unwind_complete "f".toList
      ["for (;;) \x7b".toList, "  while (x) \x7b".toList]).2 "  \x7d".toList (by decide)⟩

/-! ## Self-calls on the lines of a function body -/

theorem pyLeaveFunction_stay (i : Nat) (s : PyScan)
    (h : ¬ i < s.currentFunctionIndent.getD 0) : pyLeaveFunction i s = s := by
  unfold pyLeaveFunction
  rw [if_neg]
  simp [h]

theorem pyEnterFunction_none (line : List Char) (i : Nat) (s : PyScan)
    (h : pyDefMatch line = none) : pyEnterFunction line i s = s := by
  unfold pyEnterFunction
  rw [h]

theorem pyEnterFunction_some (line : List Char) (i : Nat) (s : PyScan) (name : List Char)
    (h : pyDefMatch line = some name) :
    (pyEnterFunction line i s).currentFunction = some name ∧
    (pyEnterFunction line i s).currentFunctionIndent = some i := by
  unfold pyEnterFunction
  rw [h]
  exact ⟨rfl, rfl⟩

theorem pyDefMatch_ne_nil (line name : List Char) (h : pyDefMatch line = some name) :
    name ≠ [] := by
  unfold pyDefMatch at h
  split at h
  · cases h
  · split at h
    · cases h
    · split_ifs at h
      simp only [Option.some.injEq] at h
      rw [← h]
      exact List.cons_ne_nil _ _

theorem pyDefMatch_not_skip (raw : List Char) (h : (pyDefMatch (trim raw)).isSome = true) :
    pySkip raw = false := by
  unfold pySkip
  generalize trim raw = line at h
  match line, h with
  | [], h => simp [pyDefMatch, stripLit] at h
  | c :: rest, h =>
    by_cases hc : c = '#'
    · subst hc
      have : stripLit "def".toList ('#' :: rest) = none := by
        simp [stripLit, List.isPrefixOf]
      rw [pyDefMatch, this] at h
      simp at h
    · simp [startsWith, List.isPrefixOf]
      exact fun h => hc h.symm

theorem pyStep_sawDefLine (nm : List Char) (s : PyScan) (raw : List Char)
    (h : s.sawDefLine = false) : (pyStep nm s raw).sawDefLine = false := by
  unfold pyStep
  split
  · exact h
  · rfl

/-- One scanned line of the body of the named function: the function stays
current, and the line counts once if it holds the text `<name>(`. -/
theorem pyStep_body_line (nm : List Char) (hnm : nm ≠ []) (i0 : Nat) (s : PyScan)
    (raw : List Char) (hs : pySkip raw = false) (hi : i0 < pyIndent raw)
    (hd : pyDefMatch (trim raw) = none)
    (hcf : s.currentFunction = some nm) (hci : s.currentFunctionIndent = some i0)
    (hsaw : s.sawDefLine = false) :
    (pyStep nm s raw).currentFunction = some nm ∧
    (pyStep nm s raw).currentFunctionIndent = some i0 ∧
    (pyStep nm s raw).state.recursionCalls =
      s.state.recursionCalls + (if includes (trim raw) (callText nm) then 1 else 0) := by
  have hstay : pyLeaveFunction (pyIndent raw) (pyUnwind (pyIndent raw) s) =
      pyUnwind (pyIndent raw) s := by
    apply pyLeaveFunction_stay
    rw [(pyUnwind_fields _ _).2.2.2.1, hci]
    simp only [Option.getD_some]
    omega
  have he : nm.isEmpty = false := by
    cases nm with
    | nil => exact absurd rfl hnm
    | cons c t => rfl
  simp only [pyStep, hs, Bool.false_eq_true, if_false, hstay, pyEnterFunction_none _ _ _ hd,
    pyDetectRecursion_recursionCalls, pyDetectRecursion_fields, pyDetectHash_fields,
    pyDetectSort_fields, pyDetectLoop_fields, pyUnwind_fields, hcf, hci, hsaw, he, callText]
  simp

theorem pyFold_body_calls (nm : List Char) (hnm : nm ≠ []) (i0 : Nat) :
    ∀ (body : List (List Char)) (s : PyScan),
      (∀ l ∈ body, pySkip l = false → i0 < pyIndent l ∧ pyDefMatch (trim l) = none) →
      s.currentFunction = some nm → s.currentFunctionIndent = some i0 →
      s.sawDefLine = false →
      (body.foldl (pyStep nm) s).state.recursionCalls =
        s.state.recursionCalls +
          (body.filter fun l => !pySkip l && includes (trim l) (callText nm)).length
  | [], _, _, _, _, _ => rfl
  | l :: body, s, hb, hcf, hci, hsaw => by
    rw [List.foldl_cons]
    cases hs : pySkip l
    · obtain ⟨hi, hd⟩ := hb l (List.mem_cons_self _ _) hs
      obtain ⟨h1, h2, h3⟩ := pyStep_body_line nm hnm i0 s l hs hi hd hcf hci hsaw
      rw [pyFold_body_calls nm hnm i0 body (pyStep nm s l)
        (fun x hx => hb x (List.mem_cons_of_mem _ hx)) h1 h2
        (pyStep_sawDefLine nm s l hsaw), h3]
      cases hc : includes (trim l) (callText nm)
      · simp [List.filter, hs, hc]
      · simp [List.filter, hs, hc]; omega
    · rw [pyStep_skip nm s l hs,
        pyFold_body_calls nm hnm i0 body s
          (fun x hx => hb x (List.mem_cons_of_mem _ hx)) hcf hci hsaw]
      simp [List.filter, hs]

theorem pyStep_header (nm : List Char) (s : PyScan) (raw : List Char)
    (hd : pyDefMatch (trim raw) = some nm) :
    (pyStep nm s raw).currentFunction = some nm ∧
    (pyStep nm s raw).currentFunctionIndent = some (pyIndent raw) ∧
    (pyStep nm s raw).state.recursionCalls = s.state.recursionCalls := by
  have hs : pySkip raw = false := pyDefMatch_not_skip raw (by rw [hd]; rfl)
  refine ⟨?_, ?_, pyStep_recursion_unchanged nm s raw (Or.inl (by rw [hd]; rfl))⟩
  · simp only [pyStep, hs, Bool.false_eq_true, if_false, pyDetectRecursion_fields,
      pyDetectHash_fields, pyDetectSort_fields, pyDetectLoop_fields]
    exact (pyEnterFunction_some _ _ _ nm hd).1
  · simp only [pyStep, hs, Bool.false_eq_true, if_false, pyDetectRecursion_fields,
      pyDetectHash_fields, pyDetectSort_fields, pyDetectLoop_fields]
    exact (pyEnterFunction_some _ _ _ nm hd).2

theorem pyFold_body_scope (nm : List Char) (hnm : nm ≠ []) (i0 : Nat) :
    ∀ (body : List (List Char)) (s : PyScan),
      (∀ l ∈ body, pySkip l = false → i0 < pyIndent l ∧ pyDefMatch (trim l) = none) →
      s.currentFunction = some nm → s.currentFunctionIndent = some i0 →
      s.sawDefLine = false →
      (body.foldl (pyStep nm) s).currentFunction = some nm ∧
      (body.foldl (pyStep nm) s).currentFunctionIndent = some i0 ∧
      (body.foldl (pyStep nm) s).sawDefLine = false
  | [], _, _, hcf, hci, hsaw => ⟨hcf, hci, hsaw⟩
  | l :: body, s, hb, hcf, hci, hsaw => by
    rw [List.foldl_cons]
    cases hs : pySkip l
    · obtain ⟨hi, hd⟩ := hb l (List.mem_cons_self _ _) hs
      obtain ⟨h1, h2, _⟩ := pyStep_body_line nm hnm i0 s l hs hi hd hcf hci hsaw
      exact pyFold_body_scope nm hnm i0 body (pyStep nm s l)
        (fun x hx => hb x (List.mem_cons_of_mem _ hx)) h1 h2 (pyStep_sawDefLine nm s l hsaw)
    · rw [pyStep_skip nm s l hs]
      exact pyFold_body_scope nm hnm i0 body s
        (fun x hx => hb x (List.mem_cons_of_mem _ hx)) hcf hci hsaw

theorem pyLeaveFunction_outside (i : Nat) (s : PyScan) (h : s.currentFunction = none) :
    pyLeaveFunction i s = s := by
  unfold pyLeaveFunction
  rw [h]
  rfl

theorem pyLeaveFunction_leave (i : Nat) (s : PyScan) (nm : List Char) (i0 : Nat)
    (hnm : nm ≠ []) (hcf : s.currentFunction = some nm)
    (hci : s.currentFunctionIndent = some i0) (hi : i < i0) :
    (pyLeaveFunction i s).currentFunction = none := by
  unfold pyLeaveFunction
  rw [hcf, hci]
  cases nm with
  | nil => exact absurd rfl hnm
  | cons c t => simp [isTruthy, hi]

/-- A line that is no `def` header, scanned while no function is current:
no function becomes current and no call is counted. -/
theorem pyStep_outside (nm : List Char) (s : PyScan) (raw : List Char)
    (hd : pyDefMatch (trim raw) = none) (hcf : s.currentFunction = none)
    (hsaw : s.sawDefLine = false) :
    (pyStep nm s raw).currentFunction = none ∧
    (pyStep nm s raw).sawDefLine = false ∧
    (pyStep nm s raw).state.recursionCalls = s.state.recursionCalls := by
  cases hs : pySkip raw
  · have hstay : pyLeaveFunction (pyIndent raw) (pyUnwind (pyIndent raw) s) =
        pyUnwind (pyIndent raw) s := pyLeaveFunction_outside _ _ hcf
    refine ⟨?_, pyStep_sawDefLine nm s raw hsaw, ?_⟩
    · simp only [pyStep, hs, Bool.false_eq_true, if_false, hstay,
        pyEnterFunction_none _ _ _ hd, pyDetectRecursion_fields, pyDetectHash_fields,
        pyDetectSort_fields, pyDetectLoop_fields, pyUnwind_fields, hcf]
    · simp only [pyStep, hs, Bool.false_eq_true, if_false, hstay,
        pyEnterFunction_none _ _ _ hd, pyDetectRecursion_recursionCalls,
        pyDetectRecursion_fields, pyDetectHash_fields, pyDetectSort_fields,
        pyDetectLoop_fields, pyUnwind_fields, hcf]
      simp
  · rw [pyStep_skip nm s raw hs]
    exact ⟨hcf, hsaw, rfl⟩

theorem pyFold_outside (nm : List Char) :
    ∀ (ls : List (List Char)) (s : PyScan),
      (∀ l ∈ ls, pyDefMatch (trim l) = none) →
      s.currentFunction = none → s.sawDefLine = false →
      (ls.foldl (pyStep nm) s).currentFunction = none ∧
      (ls.foldl (pyStep nm) s).sawDefLine = false ∧
      (ls.foldl (pyStep nm) s).state.recursionCalls = s.state.recursionCalls
  | [], _, _, hcf, hsaw => ⟨hcf, hsaw, rfl⟩
  | l :: ls, s, h, hcf, hsaw => by
    rw [List.foldl_cons]
    obtain ⟨h1, h2, h3⟩ := pyStep_outside nm s l (h l (List.mem_cons_self _ _)) hcf hsaw
    obtain ⟨g1, g2, g3⟩ := pyFold_outside nm ls (pyStep nm s l)
      (fun x hx => h x (List.mem_cons_of_mem _ hx)) h1 h2
    exact ⟨g1, g2, g3.trans h3⟩

/-- The first scanned line that is indented less than the header of the
current function, and is no `def` header itself, ends that function without
being counted. -/
theorem pyStep_leave (nm : List Char) (hnm : nm ≠ []) (i0 : Nat) (s : PyScan)
    (raw : List Char) (hs : pySkip raw = false) (hi : pyIndent raw < i0)
    (hd : pyDefMatch (trim raw) = none)
    (hcf : s.currentFunction = some nm) (hci : s.currentFunctionIndent = some i0)
    (hsaw : s.sawDefLine = false) :
    (pyStep nm s raw).currentFunction = none ∧
    (pyStep nm s raw).sawDefLine = false ∧
    (pyStep nm s raw).state.recursionCalls = s.state.recursionCalls := by
  have hleave : (pyLeaveFunction (pyIndent raw) (pyUnwind (pyIndent raw) s)).currentFunction =
      none :=
    pyLeaveFunction_leave _ _ nm i0 hnm hcf hci hi
  have hsaw' : (pyLeaveFunction (pyIndent raw) (pyUnwind (pyIndent raw) s)).sawDefLine =
      false := by
    rw [(pyLeaveFunction_fields _ _).2.2]
    exact hsaw
  refine ⟨?_, pyStep_sawDefLine nm s raw hsaw, ?_⟩
  · simp only [pyStep, hs, Bool.false_eq_true, if_false, pyEnterFunction_none _ _ _ hd,
      pyDetectRecursion_fields, pyDetectHash_fields, pyDetectSort_fields, pyDetectLoop_fields,
      hleave]
  · simp only [pyStep, hs, Bool.false_eq_true, if_false, pyEnterFunction_none _ _ _ hd,
      pyDetectRecursion_recursionCalls, pyDetectRecursion_fields, pyDetectHash_fields,
      pyDetectSort_fields, pyDetectLoop_fields, pyLeaveFunction_fields, pyUnwind_fields,
      hleave, hsaw']
    simp

/-- The lines after the body of the current function, the first scanned one
indented less than its header and none a `def` header: none is counted. -/
theorem pyFold_after (nm : List Char) (hnm : nm ≠ []) (i0 : Nat) :
    ∀ (post : List (List Char)) (s : PyScan),
      (∀ l ∈ post, pyDefMatch (trim l) = none) →
      (∀ l ∈ (post.filter fun l => !pySkip l).head?, pyIndent l < i0) →
      s.currentFunction = some nm → s.currentFunctionIndent = some i0 →
      s.sawDefLine = false →
      (post.foldl (pyStep nm) s).state.recursionCalls = s.state.recursionCalls
  | [], _, _, _, _, _, _ => rfl
  | l :: post, s, hd, hfirst, hcf, hci, hsaw => by
    rw [List.foldl_cons]
    cases hs : pySkip l
    · have hi : pyIndent l < i0 := hfirst l (by simp [List.filter, hs])
      obtain ⟨h1, h2, h3⟩ := pyStep_leave nm hnm i0 s l hs hi
        (hd l (List.mem_cons_self _ _)) hcf hci hsaw
      rw [(pyFold_outside nm post (pyStep nm s l)
        (fun x hx => hd x (List.mem_cons_of_mem _ hx)) h1 h2).2.2, h3]
    · rw [pyStep_skip nm s l hs]
      exact pyFold_after nm hnm i0 post s (fun x hx => hd x (List.mem_cons_of_mem _ hx))
        (fun x hx => hfirst x (by simpa [List.filter, hs] using hx)) hcf hci hsaw

/-- C22, counterexample. In the `fib` example the last line holds two
occurrences of `fib(`, and the Python analyzer returns `recursionCalls = 1`:
a line counts once however many calls it holds. -/
theorem python_recursion_counterexample :
    occurrences "    return fib(n - 1) + fib(n - 2)".toList (callText "fib".toList) = 2 ∧
    analyzePythonComplexity
      "def fib(n):\n    if n < 2:\n        return n\n    return fib(n - 1) + fib(n - 2)".toList
      (.str "fib".toList) = .ok ⟨⟨0, 0, 0, 1, false⟩, "Recursive (depends on recurrence)"⟩ :=
  ⟨by rfl, by rfl⟩

/-- C22, amended. In the Python analyzer `recursionCalls` is the number of
body lines with a self-call.  Take a within-limits source whose only `def`
header is that of the named function: any lines before the header, the header
`def <name>(...)`, a body whose scanned lines are indented deeper than the
header, and any lines after the body of which the first scanned one is
indented less than the header.  Then `recursionCalls` is the number of
scanned body lines that hold the text `<name>(`. -/
theorem python_recursion_counts_lines (code : List Char) (fn : NameArg)
    (before : List (List Char)) (header : List Char) (body after : List (List Char))
    (hw : WithinLimits code)
    (hlines : splitLines code = before ++ header :: (body ++ after))
    (hdef : pyDefMatch (trim header) = some (normalizeName fn))
    (hbefore : ∀ l ∈ before, pyDefMatch (trim l) = none)
    (hbody : ∀ l ∈ body, pySkip l = false →
      pyIndent header < pyIndent l ∧ pyDefMatch (trim l) = none)
    (hafter : ∀ l ∈ after, pyDefMatch (trim l) = none)
    (hdedent : ∀ l ∈ (after.filter fun l => !pySkip l).head?, pyIndent l < pyIndent header) :
    ∃ r, analyzePythonComplexity code fn = .ok r ∧
      r.signals.recursionCalls =
        (body.filter fun l =>
          !pySkip l && includes (trim l) (callText (normalizeName fn))).length := by
  refine ⟨_, analyzePython_of_within fn hw, ?_⟩
  show (pyScan (normalizeName fn) (splitLines code)).state.recursionCalls = _
  have hnm := pyDefMatch_ne_nil _ _ hdef
  obtain ⟨_, b2, b3⟩ := pyFold_outside (normalizeName fn) before PyScan.init hbefore rfl rfl
  obtain ⟨h1, h2, h3⟩ :=
    pyStep_header (normalizeName fn) (before.foldl (pyStep (normalizeName fn)) PyScan.init)
      header hdef
  have h4 := pyStep_sawDefLine (normalizeName fn) _ header b2
  obtain ⟨c1, c2, c3⟩ := pyFold_body_scope (normalizeName fn) hnm (pyIndent header) body _
    hbody h1 h2 h4
  rw [pyScan, hlines, List.foldl_append, List.foldl_cons, List.foldl_append,
    pyFold_after (normalizeName fn) hnm (pyIndent header) after _ hafter hdedent c1 c2 c3,
    pyFold_body_calls (normalizeName fn) hnm (pyIndent header) body _ hbody h1 h2 h4, h3, b3]
  exact Nat.zero_add _

/-- Witness of the amended C22: the `fib` example as a method of a class,
with two lines before the header, one body line that holds the text `fib(`,
and a line after the body. -/
theorem python_recursion_counts_lines_witness :
    analyzePythonComplexity
      ("import sys\nclass A:\n    def fib(n):\n        if n < 2:\n            return n\n" ++
        "        return fib(n - 1) + fib(n - 2)\nprint(A.fib(9))").toList
      (.str "fib".toList) = .ok ⟨⟨0, 0, 0, 1, false⟩, "Recursive (depends on recurrence)"⟩ ∧
    ∃ r, analyzePythonComplexity
      ("import sys\nclass A:\n    def fib(n):\n        if n < 2:\n            return n\n" ++
        "        return fib(n - 1) + fib(n - 2)\nprint(A.fib(9))").toList
      (.str "fib".toList) = .ok r ∧
      r.signals.recursionCalls =
        (["        if n < 2:".toList, "            return n".toList,
          "        return fib(n - 1) + fib(n - 2)".toList].filter fun l =>
          !pySkip l && includes (trim l) (callText (normalizeName (.str "fib".toList)))).length :=
  ⟨by rfl, python_recursion_counts_lines
    ("import sys\nclass A:\n    def fib(n):\n        if n < 2:\n            return n\n" ++
      "        return fib(n - 1) + fib(n - 2)\nprint(A.fib(9))").toList
    (.str "fib".toList) ["import sys".toList, "class A:".toList] "    def fib(n):".toList
    ["        if n < 2:".toList, "            return n".toList,
     "        return fib(n - 1) + fib(n - 2)".toList]
    ["print(A.fib(9))".toList]
    (by decide) (by rfl) (by rfl) (by decide) (by decide) (by decide) (by decide)⟩

/-! ## A source continued by more lines -/

theorem pushChar_ne_nil (c : Char) (L : List (List Char)) : pushChar c L ≠ [] := by
  cases L <;> simp [pushChar]

theorem splitLines_ne_nil : ∀ (s : List Char), splitLines s ≠ [] := by
  intro s
  cases s with
  | nil => simp [splitLines]
  | cons c s =>
    cases s with
    | nil => rw [splitLines]; split_ifs <;> simp
    | cons d rest =>
      rw [splitLines]
      split_ifs
      · simp
      · simp
      · exact pushChar_ne_nil _ _

theorem splitLines_crlf (rest : List Char) :
    splitLines ('\r' :: '\n' :: rest) = [] :: splitLines rest := by
  rw [splitLines]
  simp

theorem splitLines_push (c d : Char) (rest : List Char) (h1 : ¬ c = '\n')
    (h2 : ¬ (c = '\r' ∧ d = '\n')) :
    splitLines (c :: d :: rest) = pushChar c (splitLines (d :: rest)) := by
  rw [splitLines, if_neg h1, if_neg h2]

theorem splitLines_extend (t : List Char) : ∀ (s : List Char),
    ∃ L, splitLines (s ++ '\n' :: t) = L ++ splitLines t ∧
      List.Forall₂ SameLine L (splitLines s) := by
  refine splitLines.induct _ ?_ ?_ ?_ ?_ ?_ ?_
  · refine ⟨[[]], ?_, ?_⟩
    · rw [List.nil_append, splitLines_newline]; rfl
    · exact List.Forall₂.cons (Or.inl rfl) List.Forall₂.nil
  · refine ⟨[[], []], ?_, ?_⟩
    · rw [List.singleton_append, splitLines_newline, splitLines_newline]; rfl
    · exact List.Forall₂.cons (Or.inl rfl) (List.Forall₂.cons (Or.inl rfl) List.Forall₂.nil)
  · intro c hc
    have hs : splitLines [c] = [[c]] := by rw [splitLines, if_neg hc]
    rw [hs, List.singleton_append]
    by_cases hr : c = '\r'
    · subst hr
      refine ⟨[[]], ?_, ?_⟩
      · rw [splitLines_crlf]; rfl
      · exact List.Forall₂.cons (Or.inr rfl) List.Forall₂.nil
    · refine ⟨[[c]], ?_, ?_⟩
      · rw [splitLines_push c '\n' t hc (fun h => hr h.1), splitLines_newline]; rfl
      · exact List.Forall₂.cons (Or.inl rfl) List.Forall₂.nil
  · intro d rest ih
    obtain ⟨L, h1, h2⟩ := ih
    refine ⟨[] :: L, ?_, ?_⟩
    · rw [List.cons_append, splitLines_newline, h1]; rfl
    · rw [splitLines_newline]
      exact List.Forall₂.cons (Or.inl rfl) h2
  · intro c d rest _ hcd ih
    obtain ⟨L, h1, h2⟩ := ih
    obtain ⟨rfl, rfl⟩ := hcd
    refine ⟨[] :: L, ?_, ?_⟩
    · rw [List.cons_append, List.cons_append, splitLines_crlf, h1]; rfl
    · rw [splitLines_crlf]
      exact List.Forall₂.cons (Or.inl rfl) h2
  · intro c d rest hc hcd ih
    obtain ⟨L, h1, h2⟩ := ih
    rw [List.cons_append, List.cons_append, splitLines_push c d _ hc hcd,
      splitLines_push c d _ hc hcd]
    rw [List.cons_append] at h1
    rw [h1]
    have hne := splitLines_ne_nil (d :: rest)
    generalize splitLines (d :: rest) = M at h2 hne
    cases h2 with
    | nil => exact absurd rfl hne
    | cons hab htl =>
      rename_i a b L1 M1
      refine ⟨(c :: a) :: L1, rfl, ?_⟩
      refine List.Forall₂.cons ?_ htl
      rcases hab with h | h
      · exact Or.inl (by rw [h])
      · exact Or.inr (by rw [h]; rfl)

theorem dropWhile_append_of_not_all (p : Char → Bool) (s : List Char) :
    ∀ (a : List Char), a.all p = false → (a ++ s).dropWhile p = a.dropWhile p ++ s
  | [], h => by simp at h
  | c :: a, h => by
    by_cases hc : p c = true
    · have ha : a.all p = false := by
        rw [List.all_cons, hc, Bool.true_and] at h; exact h
      rw [List.cons_append, List.dropWhile_cons_of_pos hc, List.dropWhile_cons_of_pos hc,
        dropWhile_append_of_not_all p s a ha]
    · rw [List.cons_append, List.dropWhile_cons_of_neg hc, List.dropWhile_cons_of_neg hc,
        List.cons_append]

theorem takeWhile_append_of_not_all (p : Char → Bool) (s : List Char) :
    ∀ (a : List Char), a.all p = false → (a ++ s).takeWhile p = a.takeWhile p
  | [], h => by simp at h
  | c :: a, h => by
    by_cases hc : p c = true
    · have ha : a.all p = false := by
        rw [List.all_cons, hc, Bool.true_and] at h; exact h
      rw [List.cons_append, List.takeWhile_cons_of_pos hc, List.takeWhile_cons_of_pos hc,
        takeWhile_append_of_not_all p s a ha]
    · rw [List.cons_append, List.takeWhile_cons_of_neg hc, List.takeWhile_cons_of_neg hc]

theorem trim_append_cr (a : List Char) : trim (a ++ ['\r']) = trim a := by
  cases ha : a.all isJsSpace
  · rw [trim_eq_rdropWhile, trim_eq_rdropWhile, dropWhile_append_of_not_all _ _ a ha,
      List.rdropWhile_concat_pos _ _ _ (by decide)]
  · rw [(trim_eq_nil_iff a).mpr ha, trim_eq_nil_iff, List.all_append, ha]
    rfl

theorem replaceTabs_append (w : Nat) (a b : List Char) :
    replaceTabs w (a ++ b) = replaceTabs w a ++ replaceTabs w b := by
  unfold replaceTabs
  rw [List.map_append, List.flatten_append]

theorem replaceTabs_not_all (a : List Char) (h : a.all isJsSpace = false) :
    (replaceTabs 2 a).all isJsSpace = false := by
  induction a with
  | nil => simp at h
  | cons c a ih =>
    have hcons : replaceTabs 2 (c :: a) =
        (if c = '\t' then List.replicate 2 ' ' else [c]) ++ replaceTabs 2 a := by
      unfold replaceTabs
      rw [List.map_cons, List.flatten_cons]
    rw [hcons, List.all_append]
    rw [List.all_cons] at h
    by_cases hc : c = '\t'
    · subst hc
      have ht : isJsSpace '\t' = true := by decide
      rw [ht, Bool.true_and] at h
      rw [ih h, Bool.and_false]
    · rw [if_neg hc]
      cases hp : isJsSpace c
      · simp [hp]
      · rw [hp, Bool.true_and] at h
        rw [ih h, Bool.and_false]

theorem pyIndent_append_cr (a : List Char) (h : pySkip a = false) :
    pyIndent (a ++ ['\r']) = pyIndent a := by
  have hall : a.all isJsSpace = false := by
    cases ha : a.all isJsSpace
    · rfl
    · unfold pySkip at h
      rw [(trim_eq_nil_iff a).mpr ha] at h
      simp at h
  unfold pyIndent leadingSpaces
  rw [replaceTabs_append, takeWhile_append_of_not_all _ _ _ (replaceTabs_not_all a hall)]

theorem pyStep_same_line (nm : List Char) (a b : List Char) (h : SameLine a b) (s : PyScan) :
    pyStep nm s a = pyStep nm s b := by
  rcases h with h | h
  · rw [h]
  · subst h
    have ht := trim_append_cr a
    have hskip : pySkip (a ++ ['\r']) = pySkip a := by
      unfold pySkip; rw [ht]
    unfold pyStep
    rw [hskip, ht]
    cases hs : pySkip a
    · simp only [Bool.false_eq_true, if_false]
      rw [pyIndent_append_cr a hs]
    · rfl

theorem javaStep_same_line (nm : List Char) (a b : List Char) (h : SameLine a b)
    (s : JavaScan) : javaStep nm s a = javaStep nm s b := by
  rcases h with h | h
  · rw [h]
  · subst h
    have ht := trim_append_cr a
    have hskip : javaSkip (a ++ ['\r']) = javaSkip a := by
      unfold javaSkip; rw [ht]
    unfold javaStep
    rw [hskip, ht]

theorem foldl_same_lines {σ : Type} (f : σ → List Char → σ)
    (hf : ∀ a b, SameLine a b → ∀ s, f s a = f s b) :
    ∀ (L M : List (List Char)), List.Forall₂ SameLine L M → ∀ s, L.foldl f s = M.foldl f s
  | _, _, .nil, _ => rfl
  | _, _, .cons hab htl, s => by
    rw [List.foldl_cons, List.foldl_cons, hf _ _ hab s]
    exact foldl_same_lines f hf _ _ htl _

theorem SignalsGrow.unchanged (a : Signals) : SignalsGrow a a :=
  ⟨Nat.le_refl _, Nat.le_refl _, Nat.le_refl _, Nat.le_refl _, fun h => h⟩

theorem SignalsGrow.next {a b c : Signals} (h1 : SignalsGrow a b) (h2 : SignalsGrow b c) :
    SignalsGrow a c :=
  ⟨Nat.le_trans h1.1 h2.1, Nat.le_trans h1.2.1 h2.2.1, Nat.le_trans h1.2.2.1 h2.2.2.1,
    Nat.le_trans h1.2.2.2.1 h2.2.2.2.1, fun h => h2.2.2.2.2 (h1.2.2.2.2 h)⟩

theorem pyStep_recursion_le (nm : List Char) (s : PyScan) (raw : List Char) :
    s.state.recursionCalls ≤ (pyStep nm s raw).state.recursionCalls := by
  unfold pyStep
  split
  · exact Nat.le_refl _
  · simp only [pyDetectRecursion_recursionCalls, pyDetectHash_fields, pyDetectSort_fields,
      pyDetectLoop_fields, pyEnterFunction_fields, pyLeaveFunction_fields, pyUnwind_fields]
    exact Nat.le_add_right _ _

theorem pyStep_grow (nm : List Char) (s : PyScan) (raw : List Char) :
    SignalsGrow s.state (pyStep nm s raw).state := by
  cases hs : pySkip raw
  · obtain ⟨_, h2, h3, h4, h5⟩ := pyStep_loops nm s raw hs
    refine ⟨by omega, ?_, by omega, pyStep_recursion_le nm s raw, ?_⟩
    · rw [h3]; split_ifs <;> omega
    · intro h; rw [h5, h]; rfl
  · rw [pyStep_skip nm s raw hs]; exact SignalsGrow.unchanged _

theorem pyFold_grow (nm : List Char) :
    ∀ (ls : List (List Char)) (s : PyScan), SignalsGrow s.state (ls.foldl (pyStep nm) s).state
  | [], _ => SignalsGrow.unchanged _
  | l :: ls, s => (pyStep_grow nm s l).next (pyFold_grow nm ls _)

theorem javaStep_grow (nm : List Char) (s : JavaScan) (raw : List Char) :
    SignalsGrow s.state (javaStep nm s raw).state := by
  cases hs : javaSkip raw
  · unfold SignalsGrow
    simp only [javaStep, hs, Bool.false_eq_true, if_false, javaDetectLoop_eq,
      javaDetectDoWhile_eq, javaDetectRecursion_recursionCalls, javaDetectRecursion_fields,
      javaDetectHash_fields, javaDetectSort_fields]
    split_ifs <;>
      simp only [javaPushLoop_fields, javaEnterFunction_fields, javaLeaveFunction_fields,
        javaUnwind_fields, javaCountBraces_fields] <;>
      refine ⟨by omega, by omega, by omega, by omega, fun h => by rw [h]; rfl⟩
  · rw [javaStep_skip nm s raw hs]; exact SignalsGrow.unchanged _

theorem javaFold_grow (nm : List Char) :
    ∀ (ls : List (List Char)) (s : JavaScan),
      SignalsGrow s.state (ls.foldl (javaStep nm) s).state
  | [], _ => SignalsGrow.unchanged _
  | l :: ls, s => (javaStep_grow nm s l).next (javaFold_grow nm ls _)

/-- C25. Signals only accumulate as more source is scanned: when a source `s`
and the source `s`, a line break and a text `t` are both within the limits,
both line-oriented analyzers return for the longer source a `loopCount`,
`maxNesting`, `sortCalls` and `recursionCalls` at least as large as for `s`,
and `hashUsage` true whenever it is true for `s`. -/
theorem signals_accumulate :
    (∀ (s t : List Char) (fn : NameArg), WithinLimits s → WithinLimits (s ++ '\n' :: t) →
        ∃ r r', analyzePythonComplexity s fn = .ok r ∧
          analyzePythonComplexity (s ++ '\n' :: t) fn = .ok r' ∧
          r.signals.loopCount ≤ r'.signals.loopCount ∧
          r.signals.maxNesting ≤ r'.signals.maxNesting ∧
          r.signals.sortCalls ≤ r'.signals.sortCalls ∧
          r.signals.recursionCalls ≤ r'.signals.recursionCalls ∧
          (r.signals.hashUsage = true → r'.signals.hashUsage = true)) ∧
    (∀ (s t : List Char) (fn : NameArg), WithinLimits s → WithinLimits (s ++ '\n' :: t) →
        ∃ r r', analyzeJavaComplexity s fn = .ok r ∧
          analyzeJavaComplexity (s ++ '\n' :: t) fn = .ok r' ∧
          r.signals.loopCount ≤ r'.signals.loopCount ∧
          r.signals.maxNesting ≤ r'.signals.maxNesting ∧
          r.signals.sortCalls ≤ r'.signals.sortCalls ∧
          r.signals.recursionCalls ≤ r'.signals.recursionCalls ∧
          (r.signals.hashUsage = true → r'.signals.hashUsage = true)) := by
  refine ⟨?_, ?_⟩
  · intro s t fn hw hw'
    refine ⟨_, _, analyzePython_of_within fn hw, analyzePython_of_within fn hw', ?_⟩
    obtain ⟨L, h1, h2⟩ := splitLines_extend t s
    have he : pyScan (normalizeName fn) (splitLines (s ++ '\n' :: t)) =
        (splitLines t).foldl (pyStep (normalizeName fn))
          (pyScan (normalizeName fn) (splitLines s)) := by
      rw [pyScan, pyScan, h1, List.foldl_append,
        foldl_same_lines _ (pyStep_same_line (normalizeName fn)) L _ h2]
    show SignalsGrow (pyScan (normalizeName fn) (splitLines s)).state
      (pyScan (normalizeName fn) (splitLines (s ++ '\n' :: t))).state
    rw [he]
    exact pyFold_grow _ _ _
  · intro s t fn hw hw'
    refine ⟨_, _, analyzeJava_of_within fn hw, analyzeJava_of_within fn hw', ?_⟩
    obtain ⟨L, h1, h2⟩ := splitLines_extend t s
    have he : javaScan (normalizeName fn) (splitLines (s ++ '\n' :: t)) =
        (splitLines t).foldl (javaStep (normalizeName fn))
          (javaScan (normalizeName fn) (splitLines s)) := by
      rw [javaScan, javaScan, h1, List.foldl_append,
        foldl_same_lines _ (javaStep_same_line (normalizeName fn)) L _ h2]
    show SignalsGrow (javaScan (normalizeName fn) (splitLines s)).state
      (javaScan (normalizeName fn) (splitLines (s ++ '\n' :: t))).state
    rw [he]
    exact javaFold_grow _ _ _

/-- Witness of C25: a source ending in `\r`, continued by a loop with a sort
call and a hash structure. -/
theorem signals_accumulate_witness :
    (∃ r r', analyzePythonComplexity "def f(n):\n    f(n)\r".toList (.str "f".toList) = .ok r ∧
      analyzePythonComplexity
        ("def f(n):\n    f(n)\r".toList ++ '\n' :: "    for a in sorted(n): f(a)".toList)
        (.str "f".toList) = .ok r' ∧
      r.signals.loopCount ≤ r'.signals.loopCount ∧
      r.signals.maxNesting ≤ r'.signals.maxNesting ∧
      r.signals.sortCalls ≤ r'.signals.sortCalls ∧
      r.signals.recursionCalls ≤ r'.signals.recursionCalls ∧
      (r.signals.hashUsage = true → r'.signals.hashUsage = true)) ∧
    (∃ r r', analyzeJavaComplexity "Map m = new HashMap<>();\r".toList .undefined = .ok r ∧
      analyzeJavaComplexity
        ("Map m = new HashMap<>();\r".toList ++ '\n' :: "for (;;) a.sort();".toList)
        .undefined = .ok r' ∧
      r.signals.loopCount ≤ r'.signals.loopCount ∧
      r.signals.maxNesting ≤ r'.signals.maxNesting ∧
      r.signals.sortCalls ≤ r'.signals.sortCalls ∧
      r.signals.recursionCalls ≤ r'.signals.recursionCalls ∧
      (r.signals.hashUsage = true → r'.signals.hashUsage = true)) :=
  ⟨signals_accumulate.1 "def f(n):\n    f(n)\r".toList "    for a in sorted(n): f(a)".toList
      (.str "f".toList) (by decide) (by decide),
   signals_accumulate.2 "Map m = new HashMap<>();\r".toList "for (;;) a.sort();".toList
      .undefined (by decide) (by decide)⟩

end TcAnalyzer
